import Mathlib

/-!
# The VFX test-description parser (`tool/vfx/vfxParser.cpp`)

A shallow embedding of the line-oriented parser, of its lexical utilities and of the
preprocessor that substitutes the caller's definitions into a line, followed by the
properties established about them.

Conventions of the embedding.

* A C string is the list of its characters, without the terminator (`CStr`).
* Where the source works on a buffer beyond the terminator of a string, the buffer is a
  list of bytes in which the terminator `NUL` is explicit, and a pointer is an offset.
* Code that leaves the defined behaviour of C (a store outside a buffer, a read through a
  null pointer, a failed `VFX_ASSERT`) returns `Except.error` with the `Fault`.
* `unsigned` and `size_t` values are natural numbers; the places where the width matters
  reduce explicitly.
-/

namespace Vfx

/-! ## C strings, buffers and diagnostics -/

/-- A C string: its characters up to, and without, the terminator. -/
abbrev CStr := List Char

/-- The terminator of a C string. -/
def NUL : Char := Char.ofNat 0

/-- What takes an execution out of the defined behaviour of the source. -/
inductive Fault where
  /-- a read or a store outside the buffer -/
  | outOfBounds
  /-- a read through a null pointer -/
  | nullDeref
  /-- a `VFX_ASSERT` whose condition is false -/
  | assertFailed
  /-- a read of a local buffer that was never written -/
  | uninitialized
  /-- the bound on the steps of a loop of the embedding is used up -/
  | stepBound
  deriving DecidableEq

instance instDecidableEqExcept {ε α : Type} [DecidableEq ε] [DecidableEq α] :
    DecidableEq (Except ε α)
  | .ok a, .ok b =>
    if h : a = b then isTrue (by rw [h]) else isFalse (fun h2 => h (Except.ok.inj h2))
  | .error a, .error b =>
    if h : a = b then isTrue (by rw [h]) else isFalse (fun h2 => h (Except.error.inj h2))
  | .ok _, .error _ => isFalse (fun h => Except.noConfusion h)
  | .error _, .ok _ => isFalse (fun h => Except.noConfusion h)

/-- Modelled from the spec: the `PARSE_ERROR` helper of `vfxError.h` is not in the sources.
One use of it appends to the error accumulator a diagnostic that carries the line number and
the message text; the diagnostic is kept as that pair. -/
structure ParseError where
  lineNum : Nat
  text : CStr
  deriving DecidableEq

/-- The error accumulator of a document (`std::string m_errorMsg`), append-only. -/
abbrev ErrorMsg := List ParseError

/-- Source: `PARSE_ERROR(errorMsg, lineNum, text)`. -/
def PARSE_ERROR (errorMsg : ErrorMsg) (lineNum : Nat) (text : CStr) : ErrorMsg :=
  errorMsg ++ [⟨lineNum, text⟩]

/-- The C string that starts at offset `p` of a buffer: the bytes up to the first terminator.
There is none when no terminator follows inside the buffer (the read would leave it). -/
def cstrAt (buf : List Char) (p : Nat) : Option CStr :=
  if NUL ∈ buf.drop p then some ((buf.drop p).takeWhile (fun c => c != NUL)) else none

/-- Stores `bytes` at offset `p` of a buffer; there is no result when the store does not fit. -/
def writeAt (buf : List Char) (p : Nat) (bytes : List Char) : Option (List Char) :=
  if p + bytes.length ≤ buf.length then
    some (buf.take p ++ bytes ++ buf.drop (p + bytes.length))
  else none

/-- A buffer of `capacity` bytes that holds `line` and its terminator, zero-filled. -/
def lineBuffer (line : CStr) (capacity : Nat) : List Char :=
  line ++ List.replicate (capacity - line.length) NUL

/-- Source: `strchr(s, c)`: the offset of the first `c` in the string. -/
def strchr : CStr → Char → Option Nat
  | [], _ => none
  | x :: xs, c => if x = c then some 0 else (strchr xs c).map (· + 1)

/-- Source: `strstr(haystack, needle)`: the offset of the first occurrence of `needle`. -/
def strstr : CStr → CStr → Option Nat
  | [], needle => if needle = [] then some 0 else none
  | c :: cs, needle =>
    if needle.isPrefixOf (c :: cs) then some 0 else (strstr cs needle).map (· + 1)

/-! ## Lexical utilities -/

/-- The test made by both trimming functions:
`c == ' ' || c == '\t' || c == '\n' || c == '\r'`. -/
def isTrimSpace (c : Char) : Bool :=
  c == ' ' || c == '\t' || c == '\n' || c == '\r'

/-- Source: `trimStringBeginning`: advances the pointer over leading blanks; the result is the
string at the returned pointer. -/
def trimStringBeginning : CStr → CStr
  | [] => []
  | c :: cs => if isTrimSpace c then trimStringBeginning cs else c :: cs

/-- The loop of `trimStringEnd`: `n` is `sRev - str + 1`; the result is the value of
`sRev - str + 1` when the loop ends. -/
def trimStringEndLoop (str : CStr) : Nat → Nat
  | 0 => 0
  | n + 1 => if isTrimSpace (str.getD n NUL) then trimStringEndLoop str n else n + 1

/-- Source: `trimStringEnd`: stores a terminator after the last character that is not a blank; the
result is the string as it then reads. -/
def trimStringEnd (str : CStr) : CStr :=
  str.take (trimStringEndLoop str str.length)

/-- Source: `extractKeyAndValue`. The key pointer is taken by `trimStringBeginning(line)` before
the delimiter is overwritten by a terminator, so the key is read from the line as
modified. The result is `none` where the source returns false (the out-parameters are not
used by the caller then), and the pair `(key, value)` where it returns true. -/
def extractKeyAndValue (line : CStr) (lineNum : Nat) (delimiter : Char) (errorMsg : ErrorMsg) :
    Option (CStr × CStr) × ErrorMsg :=
  match strchr line delimiter with
  | some equal =>
    let keyPos := line.length - (trimStringBeginning line).length
    let line1 := line.set equal NUL
    let key := (line1.drop keyPos).takeWhile (fun c => c != NUL)
    let value := line.drop (equal + 1)
    if value ≠ [] then
      (some (trimStringEnd key, trimStringEnd (trimStringBeginning value)), errorMsg)
    else
      (none, PARSE_ERROR errorMsg lineNum ("Expect value after ".toList ++ [delimiter]))
  | none => (none, PARSE_ERROR errorMsg lineNum ("Expect ".toList ++ [delimiter]))

/-! ## Substitution of the caller's definitions into a line -/

/-- Source: `MacroDefinition` (a `std::map` from name to value), as the sequence of its entries in
the order of iteration. -/
abbrev MacroDefinition := List (CStr × CStr)

/-- The copy that `sprintf` makes of a string of `n` bytes from offset `src` to offset `dst`
of one buffer, front to back: each byte is read when its turn comes, so a byte that the
copy has already stored is read as stored. There is no result when a read or a store
leaves the buffer. -/
def copyForward : Nat → List Char → Nat → Nat → Option (List Char)
  | 0, buf, _, _ => some buf
  | n + 1, buf, dst, src =>
    match buf[src]? with
    | none => none
    | some c =>
      if dst < buf.length then copyForward n (buf.set dst c) (dst + 1) (src + 1) else none

/-- Source: `sprintf(namePos, "%s%s", value, lineRest)` on one buffer, where `lineRest` points into
the text that the call overwrites. The C library converts the directives in turn and
stores as it goes: it stores `value` at `namePos`, then takes the string that starts at
`lineRest` as it then reads, copies it front to back behind the value, and stores the
terminator. There is no result when a read or a store leaves the buffer. -/
def sprintf (buf : List Char) (namePos : Nat) (value : CStr) (lineRest : Nat) :
    Option (List Char) :=
  match writeAt buf namePos value with
  | none => none
  | some buf1 =>
    match cstrAt buf1 lineRest with
    | none => none
    | some rest =>
      match copyForward rest.length buf1 (namePos + value.length) lineRest with
      | none => none
      | some buf2 => writeAt buf2 (namePos + value.length + rest.length) [NUL]

/-- Source: `VfxParser::macroSubstituteLine`, on the buffer `buf` that holds the line at offset `line`.
The result is `none` when `fuel` nested calls and loop steps do not suffice, a fault when
the source reads or stores outside the buffer, and otherwise the returned flag with the
buffer and the error accumulator as the call leaves them. -/
def macroSubstituteLine : Nat → List Char → Nat → Nat → MacroDefinition → Nat → ErrorMsg →
    Option (Except Fault (Bool × List Char × ErrorMsg))
  | 0, _, _, _, _, _, _ => none
  | _ + 1, buf, _, _, [], _, errorMsg => some (.ok (true, buf, errorMsg))
  | fuel + 1, buf, line, lineNum, (name, value) :: iter, maxLineLength, errorMsg =>
    match cstrAt buf line with
    | none => some (.error .outOfBounds)
    | some s =>
      match strstr s name with
      | none => macroSubstituteLine fuel buf line lineNum iter maxLineLength errorMsg
      | some beforeLen =>
        let namePos := line + beforeLen
        let nameLen := name.length
        let valueLen := value.length
        let restLen := (s.drop (beforeLen + nameLen)).length
        if beforeLen + valueLen + restLen ≥ maxLineLength then
          some (.ok (false, buf, PARSE_ERROR errorMsg lineNum
            "Line length after macro substitution exceeds MaxLineBufSize.".toList))
        else
          match sprintf buf namePos value (namePos + nameLen) with
          | none => some (.error .outOfBounds)
          | some buf1 =>
            let lineRest := namePos + nameLen + valueLen
            match macroSubstituteLine fuel buf1 lineRest lineNum [(name, value)]
                (maxLineLength - beforeLen - valueLen) errorMsg with
            | some (.ok (true, buf2, errorMsg2)) =>
              macroSubstituteLine fuel buf2 line lineNum iter maxLineLength errorMsg2
            | r => r

/-- The line a call of `macroSubstituteLine` leaves at offset `line`, with the returned flag. -/
def substitutedLine (r : Option (Except Fault (Bool × List Char × ErrorMsg))) (line : Nat) :
    Option (Bool × CStr) :=
  match r with
  | some (.ok (b, buf, _)) => (cstrAt buf line).map (fun s => (b, s))
  | _ => none

/-! ## C library: conversion of integer literals -/

/-- Source: `isspace` in the C locale. -/
def isspace (c : Char) : Bool :=
  c == ' ' || c == '\t' || c == '\n' || c == Char.ofNat 11 || c == Char.ofNat 12 || c == '\r'

/-- The value of a character as a digit, for bases up to 36. -/
def digitValue (c : Char) : Option Nat :=
  if '0' ≤ c ∧ c ≤ '9' then some (c.toNat - 48)
  else if 'a' ≤ c ∧ c ≤ 'z' then some (c.toNat - 87)
  else if 'A' ≤ c ∧ c ≤ 'Z' then some (c.toNat - 55)
  else none

/-- The number read from the longest run of digits of the base at the start of the text. -/
def readDigits (base : Nat) : CStr → Nat → Nat
  | [], acc => acc
  | c :: cs, acc =>
    match digitValue c with
    | some d => if d < base then readDigits base cs (acc * base + d) else acc
    | none => acc

/-- Whether the text starts with a digit of the base. -/
def startsWithDigit (base : Nat) (s : CStr) : Bool :=
  match s with
  | [] => false
  | c :: _ =>
    match digitValue c with
    | some d => decide (d < base)
    | none => false

/-- The sign and the magnitude that the `strtol` family reads: blanks, an optional sign, the
base prefix (`0x` for 16, `0` for 8 when the base is 0), then the digits; `(false, 0)` when
there is no number. -/
def strtoParts (s : CStr) (base : Nat) : Bool × Nat :=
  let s1 := s.dropWhile isspace
  let neg : Bool := s1.head? == some '-'
  let s2 := if s1.head? == some '-' || s1.head? == some '+' then s1.drop 1 else s1
  let hexMark : Bool :=
    (base == 0 || base == 16) && s2.head? == some '0'
      && ((s2.drop 1).head? == some 'x' || (s2.drop 1).head? == some 'X')
      && startsWithDigit 16 (s2.drop 2)
  if hexMark then (neg, readDigits 16 (s2.drop 2) 0)
  else if base == 0 then
    if s2.head? == some '0' then (neg, readDigits 8 s2 0) else (neg, readDigits 10 s2 0)
  else (neg, readDigits base s2 0)

/-- Source: `strtol` and `strtoll` (64-bit `long`): the value, clamped to the range of the type. -/
def strtol (s : CStr) (base : Nat) : Int :=
  let (neg, m) := strtoParts s base
  if neg then (if m > 2 ^ 63 then -(2 ^ 63 : Int) else -(m : Int))
  else (if m ≥ 2 ^ 63 then (2 ^ 63 - 1 : Int) else (m : Int))

/-- Source: `strtoul` and `strtoull` (64-bit): the value, `ULONG_MAX` on overflow, negated in the
unsigned type after a minus sign. -/
def strtoul (s : CStr) (base : Nat) : Nat :=
  let (neg, m) := strtoParts s base
  if m ≥ 2 ^ 64 then 2 ^ 64 - 1
  else if neg then (2 ^ 64 - m) % 2 ^ 64 else m

/-- Conversion of an integer to a 32-bit object (`int` or `unsigned`): its bits. -/
def toWord32 (v : Int) : Nat := (v % 2 ^ 32).toNat

/-- Conversion of an integer to a 64-bit object: its bits. -/
def toWord64 (v : Int) : Nat := (v % 2 ^ 64).toNat

/-- The value of a 32-bit object read as `int`. -/
def asInt32 (w : Nat) : Int := if w < 2 ^ 31 then (w : Int) else (w : Int) - 2 ^ 32

/-- The tokens that successive calls of `strtok` return: the maximal runs of characters that
are not delimiters; `cur` is the run being read. -/
def strtokFrom (delims : List Char) : CStr → CStr → List CStr
  | [], cur => if cur = [] then [] else [cur]
  | c :: cs, cur =>
    if c ∈ delims then
      (if cur = [] then strtokFrom delims cs [] else cur :: strtokFrom delims cs [])
    else strtokFrom delims cs (cur ++ [c])

/-- Source: `strtok(s, delims)` followed by `strtok(nullptr, delims)` until it returns null. -/
def strtok (s : CStr) (delims : List Char) : List CStr := strtokFrom delims s []

/-- The loop of `isArrayAccess`: `p` runs from the character after `[` until it meets the
position of `]`; the second argument is the string from `p` on, `[]` at its terminator. -/
def isArrayAccessLoop (rBracket : Nat) : Nat → CStr → Bool
  | p, [] => decide (p = rBracket)
  | p, c :: cs =>
    if p = rBracket then true
    else if ('0' ≤ c ∧ c ≤ '9') ∨ c = ' ' ∨ c = '\t' then isArrayAccessLoop rBracket (p + 1) cs
    else false

/-- Source: `isArrayAccess`. -/
def isArrayAccess (str : CStr) : Bool :=
  match strchr str '[', strchr str ']' with
  | some lBracket, some rBracket => isArrayAccessLoop rBracket (lBracket + 1) (str.drop (lBracket + 1))
  | _, _ => false

/-- Source: `parseArrayAccess`, as called by `parseKey` (the position of `]` is not asked for): the
result flag, the index parsed and the position of `[`. -/
def parseArrayAccess (str : CStr) (lineNum : Nat) (errorMsg : ErrorMsg) :
    Bool × Nat × Option Nat × ErrorMsg :=
  match strchr str '[', strchr str ']' with
  | some lBracket, some _ =>
    (true, toWord32 (strtol (str.drop (lBracket + 1)) 10), some lBracket, errorMsg)
  | _, _ => (false, 0, none, PARSE_ERROR errorMsg lineNum "Expect [] for array access".toList)

/-! ## Values -/

/-- The flags of an `IUFValue` (`props`). -/
structure IUFProps where
  length : Nat
  isInt64 : Bool
  isFloat : Bool
  isFloat16 : Bool
  isDouble : Bool
  isHex : Bool
  deriving DecidableEq

/-- The declaration of `IUFValue` is not in the sources; its use shows a union of the arrays
`iVec4`, `uVec4`, `fVec4` (4 x 32 bits), `i64Vec2`, `dVec2` (2 x 64 bits) and `f16Vec4`
(4 x 16 bits), with the flags `props`. The union is kept as its four 32-bit words, the low
word of a 64-bit element first. -/
structure IUFValue where
  words : List Nat
  props : IUFProps
  deriving DecidableEq

/-- Source: `IUFValue value = {}`. -/
def IUFValue.zero : IUFValue := ⟨[0, 0, 0, 0], ⟨0, false, false, false, false, false⟩⟩

/-- A store to `uVec4[i]`, `iVec4[i]` or `fVec4[i]`; `VFX_ASSERT(numberId < 4)` guards it. -/
def IUFValue.set32 (v : IUFValue) (i : Nat) (w : Nat) : IUFValue :=
  { v with words := v.words.set i (w % 2 ^ 32) }

/-- A store to `i64Vec2[i]` or `dVec2[i]`. -/
def IUFValue.set64 (v : IUFValue) (i : Nat) (w : Nat) : IUFValue :=
  { v with words := (v.words.set (2 * i) (w % 2 ^ 32)).set (2 * i + 1) (w / 2 ^ 32 % 2 ^ 32) }

/-- A store to `f16Vec4[i]`. -/
def IUFValue.set16 (v : IUFValue) (i : Nat) (h : Nat) : IUFValue :=
  let w := v.words.getD (i / 2) 0
  let w1 := if i % 2 = 0 then w / 2 ^ 16 * 2 ^ 16 + h % 2 ^ 16 else w % 2 ^ 16 + h % 2 ^ 16 * 2 ^ 16
  { v with words := v.words.set (i / 2) w1 }

/-- The enumerators of `MemberType` that `parseKeyValue` names; `other` stands for every
enumerator the switch does not name. -/
inductive MemberType where
  | MemberTypeEnum | MemberTypeInt | MemberTypeFloat | MemberTypeDouble | MemberTypeBool
  | MemberTypeIVec4 | MemberTypeI64Vec2 | MemberTypeBinding | MemberTypeFVec4
  | MemberTypeF16Vec4 | MemberTypeDVec2 | MemberTypeIArray | MemberTypeUArray
  | MemberTypeI64Array | MemberTypeU64Array | MemberTypeFArray | MemberTypeF16Array
  | MemberTypeDArray | MemberTypeString
  | other (n : Nat)
  deriving DecidableEq

/-- The argument of `Section::set`, by the type of the pointer that `parseKeyValue` passes. -/
inductive SetValue where
  /-- Source: `int *` : `&(value.iVec4[0])` -/
  | int (v : Int)
  /-- Source: `Float16 *` : `&(value.f16Vec4[0])`, the 16 bits -/
  | float16 (bits : Nat)
  /-- Source: `double *` : `&(value.dVec2[0])`, the 64 bits -/
  | double (bits : Nat)
  /-- Source: `uint8_t *` : `&boolValue` -/
  | uint8 (v : Nat)
  /-- Source: `IUFValue *` : `&value` -/
  | iufValue (v : IUFValue)
  /-- Source: `std::string *` : `&str` -/
  | string (s : CStr)
  deriving DecidableEq

/-- Source: `SectionType`, an enumeration; its values index the array `m_sections`. -/
abbrev SectionType := Nat

/-- A pointer to a section object nested in a top-level section: the member names and array
indices by which `getPtrOfSubSection` reached it, outermost first; `[]` is the top-level
section itself. -/
abbrev SubPtr := List (CStr × Nat)

/-- What the parser uses and the sources do not contain: the constants of `vfxParser.h`, the
C library conversions to floating point, and the classes `Section` (with its subclasses) and
`Document` (its virtual methods) of `vfxSection.h`, `vfxPipelineDoc.h` and `vfxRenderDoc.h`.
`S` is the type of a top-level section object; a method called on a nested section object
takes the top-level object and the pointer. A method that stores through `this` returns the
object as it leaves it. -/
structure Env (S : Type) where
  MaxLineBufSize : Nat
  MaxKeyBufSize : Nat
  SectionTypeNameNum : Nat
  SectionTypeVersion : SectionType
  SectionTypeCompileLog : SectionType
  SectionTypeVertexShader : SectionType
  SectionTypeVertexShaderInfo : SectionType
  ShaderStageCount : Nat
  VfxVertexBufferSetId : Nat
  VfxIndexBufferSetId : Nat
  /-- Source: `strtod`: the 64 bits of the double -/
  strtod : CStr → Nat
  /-- Source: `static_cast<float>` of a double: the 32 bits of the float -/
  doubleToFloat : Nat → Nat
  /-- Source: `Float16::FromFloat32` then `GetBits`: the 16 bits -/
  FromFloat32 : Nat → Nat
  /-- Source: `getEnumValue(enumName, value)` of `vfxEnumsConverter.h` -/
  getEnumValue : CStr → Option Int
  /-- Source: `Section::getSectionType(sectionName)`; `none` is the null pointer -/
  getSectionType : Option CStr → SectionType
  /-- Source: `Document::getMaxSectionCount(type)` -/
  getMaxSectionCount : SectionType → Nat
  /-- Source: `Section::createSection(sectionName)` -/
  createSection : Option CStr → S
  /-- Source: `section->getSectionType()` -/
  sectionTypeOf : S → SectionType
  isShaderSourceSection : S → Bool
  setLineNum : S → Nat → S
  addLine : S → CStr → S
  /-- Source: `SectionVersion::getSubState(version)` -/
  getSubState : S → Nat
  /-- Source: `Document::checkVersion(version)` -/
  checkVersion : Nat → ErrorMsg → Bool × ErrorMsg
  /-- Source: `isSection(lineNum, memberName, &isSection, &memberType, errorMsg)`:
  the result, `isSection`, `memberType` -/
  isSection : S → SubPtr → Nat → CStr → ErrorMsg → Bool × Bool × MemberType × ErrorMsg
  /-- Source: `getPtrOfSubSection(lineNum, memberName, memberType, true, arrayIndex, &ptr, errorMsg)`;
  the pointer it stores is the pointer of the object extended by `(memberName, arrayIndex)` -/
  getPtrOfSubSection : S → SubPtr → Nat → CStr → MemberType → Nat → ErrorMsg → Bool × S × ErrorMsg
  /-- Source: `getMemberType(lineNum, memberName, &valueType, errorMsg)` -/
  getMemberType : S → SubPtr → Nat → CStr → ErrorMsg → Bool × MemberType × ErrorMsg
  /-- Source: `set(lineNum, memberName, &value)` -/
  set : S → SubPtr → Nat → CStr → SetValue → Bool × S
  /-- Source: `getPtrOf(lineNum, memberName, true, 0, &ptr, errorMsg)` for an array member: the bytes of
  the vector `**ptr`, `none` when `ptr` is left null -/
  getPtrOf : S → SubPtr → Nat → CStr → ErrorMsg → Option (List Nat) × S × ErrorMsg
  /-- the store of the bytes of the vector `**ptr` that `getPtrOf` gave -/
  putArray : S → SubPtr → CStr → List Nat → S
  /-- Source: `SectionShader::compileShader(fileName, shaderInfoSection, &errorMsg)` -/
  compileShader : S → CStr → S → ErrorMsg → Bool × S × ErrorMsg
  /-- Source: `Document::validate()`, on the array `m_sections` and the error accumulator -/
  validate : List (List S) → ErrorMsg → Bool × ErrorMsg

/-! ## Value parsers -/

/-- Source: `parseInt`. -/
def parseInt (str : CStr) (output : IUFValue) : Bool × IUFValue :=
  let isHex := (strstr str "0x".toList).isSome
  let output1 :=
    if isHex then output.set32 0 (strtoul str 0) else output.set32 0 (toWord32 (strtol str 0))
  (true, { output1 with props := { output1.props with
    isInt64 := false, isFloat := false, isDouble := false, isHex := isHex, length := 1 } })

/-- Source: `parseFloat`. -/
def parseFloat {S : Type} (E : Env S) (str : CStr) (output : IUFValue) : Bool × IUFValue :=
  let output1 := output.set32 0 (E.doubleToFloat (E.strtod str))
  (true, { output1 with props := { output1.props with
    isInt64 := false, isFloat := true, isDouble := false, length := 1 } })

/-- Source: `parseFloat16`. -/
def parseFloat16 {S : Type} (E : Env S) (str : CStr) (output : IUFValue) : Bool × IUFValue :=
  let output1 := output.set16 0 (E.FromFloat32 (E.doubleToFloat (E.strtod str)))
  (true, { output1 with props := { output1.props with
    isInt64 := false, isFloat := false, isFloat16 := true, isDouble := false, length := 1 } })

/-- Source: `parseDouble`. -/
def parseDouble {S : Type} (E : Env S) (str : CStr) (output : IUFValue) : Bool × IUFValue :=
  let output1 := output.set64 0 (E.strtod str)
  (true, { output1 with props := { output1.props with
    isInt64 := false, isFloat := false, isDouble := true, length := 1 } })

/-- Source: `parseBool`. -/
def parseBool (str : CStr) (output : IUFValue) : Bool × IUFValue :=
  let output1 :=
    if str = "true".toList then output.set32 0 1
    else if str = "false".toList then output.set32 0 0
    else output.set32 0 (toWord32 (strtol str 0))
  (true, { output1 with props := { output1.props with
    isInt64 := false, isFloat := false, isDouble := false, length := 1 } })

/-- The `while (number)` loop shared by the vector parsers: `store numberId number output`
is the body's store, `capacity` the bound of its `VFX_ASSERT(numberId < capacity)`. The
result is `result`, `numberId` and the output after the last token. -/
def vecLoop (capacity : Nat) (store : Nat → CStr → IUFValue → IUFValue) :
    List CStr → Bool → Nat → IUFValue → Except Fault (Bool × Nat × IUFValue)
  | [], result, numberId, output => .ok (result, numberId, output)
  | number :: rest, _, numberId, output =>
    if numberId < capacity then
      vecLoop capacity store rest true (numberId + 1) (store numberId number output)
    else .error .assertFailed

/-- Source: `parseIVec4`. -/
def parseIVec4 (str : CStr) (output : IUFValue) : Except Fault (Bool × IUFValue) :=
  let isHex := (strstr str "0x".toList).isSome
  match vecLoop 4 (fun numberId number out =>
      if isHex then out.set32 numberId (strtoul number 0)
      else out.set32 numberId (toWord32 (strtol number 0)))
    (strtok str [',', ' ']) false 0 output with
  | .error f => .error f
  | .ok (result, numberId, output1) =>
    .ok (result, { output1 with props := { output1.props with
      isInt64 := false, isFloat := false, isDouble := false, isHex := isHex,
      length := numberId % 2 ^ 16 } })

/-- Source: `parseI64Vec2`. -/
def parseI64Vec2 (str : CStr) (output : IUFValue) : Except Fault (Bool × IUFValue) :=
  let isHex := (strstr str "0x".toList).isSome
  match vecLoop 2 (fun numberId number out =>
      if isHex then out.set64 numberId (strtoul number 0)
      else out.set64 numberId (toWord64 (strtol number 0)))
    (strtok str [',', ' ']) false 0 output with
  | .error f => .error f
  | .ok (result, numberId, output1) =>
    .ok (result, { output1 with props := { output1.props with
      isInt64 := true, isFloat := false, isDouble := false, isHex := isHex,
      length := numberId % 2 ^ 16 } })

/-- Source: `parseFVec4`. -/
def parseFVec4 {S : Type} (E : Env S) (str : CStr) (output : IUFValue) :
    Except Fault (Bool × IUFValue) :=
  match vecLoop 4 (fun numberId number out =>
      out.set32 numberId (E.doubleToFloat (E.strtod number)))
    (strtok str [',', ' ']) false 0 output with
  | .error f => .error f
  | .ok (result, numberId, output1) =>
    .ok (result, { output1 with props := { output1.props with
      isInt64 := false, isFloat := true, isDouble := false, length := numberId % 2 ^ 16 } })

/-- Source: `parseF16Vec4`. -/
def parseF16Vec4 {S : Type} (E : Env S) (str : CStr) (output : IUFValue) :
    Except Fault (Bool × IUFValue) :=
  match vecLoop 4 (fun numberId number out =>
      out.set16 numberId (E.FromFloat32 (E.doubleToFloat (E.strtod number))))
    (strtok str [',', ' ']) false 0 output with
  | .error f => .error f
  | .ok (result, numberId, output1) =>
    .ok (result, { output1 with props := { output1.props with
      isInt64 := false, isFloat := false, isFloat16 := true, isDouble := false,
      length := numberId % 2 ^ 16 } })

/-- Source: `parseDVec2`. -/
def parseDVec2 {S : Type} (E : Env S) (str : CStr) (output : IUFValue) :
    Except Fault (Bool × IUFValue) :=
  match vecLoop 2 (fun numberId number out => out.set64 numberId (E.strtod number))
    (strtok str [',', ' ']) false 0 output with
  | .error f => .error f
  | .ok (result, numberId, output1) =>
    .ok (result, { output1 with props := { output1.props with
      isInt64 := false, isFloat := false, isDouble := true, length := numberId % 2 ^ 16 } })

/-- Source: `parseBinding`. -/
def parseBinding {S : Type} (E : Env S) (str : CStr) (output : IUFValue) :
    Except Fault (Bool × IUFValue) :=
  let isHex := (strstr str "0x".toList).isSome
  match vecLoop 3 (fun numberId number out =>
      if number = "vb".toList then out.set32 numberId E.VfxVertexBufferSetId
      else if number = "ib".toList then out.set32 numberId E.VfxIndexBufferSetId
      else if isHex then out.set32 numberId (strtoul number 0)
      else out.set32 numberId (toWord32 (strtol number 0)))
    (strtok str [',', ' ']) false 0 output with
  | .error f => .error f
  | .ok (result, numberId, output1) =>
    .ok (result, { output1 with props := { output1.props with
      isInt64 := false, isFloat := false, isDouble := false, isHex := isHex,
      length := numberId % 2 ^ 16 } })

/-- Source: `parseEnumName`. -/
def parseEnumName {S : Type} (E : Env S) (enumName : CStr) (lineNum : Nat) (output : IUFValue)
    (errorMsg : ErrorMsg) : Bool × IUFValue × ErrorMsg :=
  match E.getEnumValue enumName with
  | none => (false, output, PARSE_ERROR errorMsg lineNum "unknow enum".toList)
  | some value => (true, output.set32 0 (toWord32 value), errorMsg)

/-- The bytes `val[0] .. val[n-1]` of an `n`-byte object with the bits `w` (the low byte
first). -/
def bytesOf : Nat → Nat → List Nat
  | 0, _ => []
  | n + 1, w => w % 256 :: bytesOf n (w / 256)

/-- Source: `parseIArray`: the loop over the tokens, on the vector `bufMem`. -/
def parseIArrayLoop (isSign : Bool) : List CStr → List Nat → List Nat
  | [], bufMem => bufMem
  | number :: rest, bufMem =>
    let isHex := (strstr number "0x".toList).isSome
    let w := if isHex || !isSign then strtoul number 0 % 2 ^ 32 else toWord32 (strtol number 0)
    parseIArrayLoop isSign rest (bufMem ++ bytesOf 4 w)

/-- Source: `parseIArray`. -/
def parseIArray (str : CStr) (isSign : Bool) (bufMem : List Nat) : Bool × List Nat :=
  (true, parseIArrayLoop isSign (strtok str [',', ' ']) bufMem)

/-- Source: `parseI64Array`: the loop over the tokens. -/
def parseI64ArrayLoop (isSign : Bool) : List CStr → List Nat → List Nat
  | [], bufMem => bufMem
  | number :: rest, bufMem =>
    let isHex := (strstr number "0x".toList).isSome
    let w := if isHex || !isSign then strtoul number 0 else toWord64 (strtol number 0)
    parseI64ArrayLoop isSign rest (bufMem ++ bytesOf 8 w)

/-- Source: `parseI64Array`. -/
def parseI64Array (str : CStr) (isSign : Bool) (bufMem : List Nat) : Bool × List Nat :=
  (true, parseI64ArrayLoop isSign (strtok str [',', ' ']) bufMem)

/-- The loop of `parseFArray`, `parseF16Array` and `parseDArray`: each token is converted
by `conv` to an object of `size` bytes, whose bytes are appended. -/
def parseFloatArrayLoop (size : Nat) (conv : CStr → Nat) : List CStr → List Nat → List Nat
  | [], bufMem => bufMem
  | number :: rest, bufMem =>
    parseFloatArrayLoop size conv rest (bufMem ++ bytesOf size (conv number))

/-- Source: `parseFArray`. -/
def parseFArray {S : Type} (E : Env S) (str : CStr) (bufMem : List Nat) : Bool × List Nat :=
  (true, parseFloatArrayLoop 4 (fun number => E.doubleToFloat (E.strtod number))
    (strtok str [',', ' ']) bufMem)

/-- Source: `parseF16Array`. -/
def parseF16Array {S : Type} (E : Env S) (str : CStr) (bufMem : List Nat) : Bool × List Nat :=
  (true, parseFloatArrayLoop 2 (fun number => E.FromFloat32 (E.doubleToFloat (E.strtod number)))
    (strtok str [',', ' ']) bufMem)

/-- Source: `parseDArray`. -/
def parseDArray {S : Type} (E : Env S) (str : CStr) (bufMem : List Nat) : Bool × List Nat :=
  (true, parseFloatArrayLoop 8 E.strtod (strtok str [',', ' ']) bufMem)

/-! ## Document -/

/-- Source: `Document`: the array `m_sections` of vectors of sections, indexed by section type, the
list `m_sectionList`, the error accumulator and the file name. A `Section *` is the
position of the section in `m_sections`: its type and its index in the vector of the type. -/
structure Document (S : Type) where
  m_sections : List (List S)
  m_sectionList : List (SectionType × Nat)
  m_errorMsg : ErrorMsg
  m_fileName : CStr
  deriving DecidableEq

/-- The document as `Document::createDocument` leaves it: no section, no diagnostic. -/
def Document.create {S : Type} (E : Env S) : Document S :=
  ⟨List.replicate E.SectionTypeNameNum [], [], [], []⟩

/-- The section that a `Section *` points to. -/
def Document.sectionAt {S : Type} (doc : Document S) (ptr : SectionType × Nat) : Option S :=
  (doc.m_sections.getD ptr.1 [])[ptr.2]?

/-- The document after a store to the section that a `Section *` points to. -/
def Document.setSectionAt {S : Type} (doc : Document S) (ptr : SectionType × Nat) (s : S) :
    Document S :=
  { doc with m_sections := doc.m_sections.set ptr.1 ((doc.m_sections.getD ptr.1 []).set ptr.2 s) }

/-- Source: `Document::getFreeSection`: the pointer returned (`none` is null) and the document. An
index outside the array `m_sections` is a fault. -/
def Document.getFreeSection {S : Type} (E : Env S) (doc : Document S) (sectionName : Option CStr) :
    Except Fault (Option (SectionType × Nat) × Document S) :=
  let type := E.getSectionType sectionName
  let maxSectionCount := E.getMaxSectionCount type
  match doc.m_sections[type]? with
  | none => .error .outOfBounds
  | some bucket =>
    if bucket.length < maxSectionCount then
      let section1 := E.createSection sectionName
      .ok (some (type, bucket.length),
        { doc with
          m_sections := doc.m_sections.set type (bucket ++ [section1])
          m_sectionList := doc.m_sectionList ++ [(type, bucket.length)] })
    else .ok (none, doc)

/-- The inner loop of `Document::compileShader`, over the shader sections of one stage from
index `i` on: `shaders` are the sections not yet compiled. -/
def compileStage {S : Type} (E : Env S) (stage : Nat) :
    List S → Nat → Bool → Document S → Except Fault (Bool × Document S)
  | [], _, ret, doc => .ok (ret, doc)
  | shaderSection :: rest, i, ret, doc =>
    match (doc.m_sections.getD (E.SectionTypeVertexShaderInfo + stage) [])[i]? with
    | none => .error .assertFailed
    | some shaderInfoSection =>
      let (stageRet, shaderSection1, errorMsg1) :=
        E.compileShader shaderSection doc.m_fileName shaderInfoSection doc.m_errorMsg
      let doc1 := { (doc.setSectionAt (E.SectionTypeVertexShader + stage, i) shaderSection1) with
        m_errorMsg := errorMsg1 }
      compileStage E stage rest (i + 1) (ret && stageRet) doc1

/-- The outer loop of `Document::compileShader`: `n` stages remain, from `stage` on. -/
def compileStages {S : Type} (E : Env S) :
    Nat → Nat → Bool → Document S → Except Fault (Bool × Document S)
  | 0, _, ret, doc => .ok (ret, doc)
  | n + 1, stage, ret, doc =>
    match compileStage E stage (doc.m_sections.getD (E.SectionTypeVertexShader + stage) []) 0 ret
        doc with
    | .error f => .error f
    | .ok (ret1, doc1) => compileStages E n (stage + 1) ret1 doc1

/-- Source: `Document::compileShader`. -/
def Document.compileShader {S : Type} (E : Env S) (doc : Document S) :
    Except Fault (Bool × Document S) :=
  compileStages E E.ShaderStageCount 0 true doc

/-! ## The section buffer -/

/-- Source: `std::stringstream m_currentSectionStringBuffer`: the characters not yet extracted, and
whether the stream is good (no state flag set). -/
structure StringStream where
  unread : CStr
  good : Bool
  deriving DecidableEq

/-- Source: `stream << line`: appends when the stream is good, has no effect otherwise. -/
def StringStream.insert (ss : StringStream) (line : CStr) : StringStream :=
  if ss.good then { ss with unread := ss.unread ++ line } else ss

/-- Source: `stream.str(""); stream.clear();`. -/
def StringStream.reset : StringStream := ⟨[], true⟩

/-- Source: `stream.getline(lineBuffer, n)`: the characters stored in `lineBuffer` (before the
terminator), `gcount()`, and the stream. Extraction ends at the end of the data (`eofbit`),
after a line terminator, which is extracted and counted but not stored, or when `n - 1`
characters are stored (`failbit`), tested in this order; a stream that is not good
extracts nothing. -/
def StringStream.getline (ss : StringStream) (n : Nat) : CStr × Nat × StringStream :=
  if ss.good then
    let stored := (ss.unread.takeWhile (fun c => c != '\n')).take (n - 1)
    match ss.unread.drop stored.length with
    | [] => (stored, stored.length, ⟨[], false⟩)
    | c :: rest =>
      if c = '\n' then (stored, stored.length + 1, ⟨rest, true⟩)
      else (stored, stored.length, ⟨c :: rest, false⟩)
  else ([], 0, ss)

/-! ## The parser -/

/-- Source: `VfxParser`. The error accumulator `m_errorMsg` is the one of the document. -/
structure VfxParser (S : Type) where
  m_vfxDoc : Document S
  m_isValidVfxFile : Bool
  m_currentSection : Option (SectionType × Nat)
  m_currentLineNum : Nat
  m_currentSectionLineNum : Nat
  m_currentSectionStringBuffer : StringStream
  deriving DecidableEq

/-- The parser as its constructor leaves it, on a document. -/
def VfxParser.create {S : Type} (doc : Document S) : VfxParser S :=
  ⟨doc, false, none, 0, 0, ⟨[], true⟩⟩

/-- The section `m_currentSection` points to. -/
def VfxParser.currentSection {S : Type} (p : VfxParser S) : Option S :=
  match p.m_currentSection with
  | none => none
  | some ptr => p.m_vfxDoc.sectionAt ptr

/-- The state of the loop of `parseKey`. -/
structure KeyState (S : Type) where
  result : Bool
  root : S
  tempSectionObj : SubPtr
  isSection : Bool
  parsedArrayIndex : Nat
  memberNameBuffer : Option CStr
  errorMsg : ErrorMsg
  deriving DecidableEq

/-- The loop `while (keyTok)` of `VfxParser::parseKey`, over the tokens from `keyTok` on. -/
def parseKeyLoop {S : Type} (E : Env S) (lineNum : Nat) (memberNameBufferSize : Nat) :
    List CStr → KeyState S → Except Fault (KeyState S)
  | [], st => .ok st
  | keyTok :: rest, st =>
    let (keyTok1, parsedArrayIndex, errorMsg1) :=
      if isArrayAccess keyTok then
        let (_, parsedArrayIndex, lBracket, errorMsg1) := parseArrayAccess keyTok lineNum st.errorMsg
        (trimStringEnd (keyTok.take (lBracket.getD 0)), parsedArrayIndex, errorMsg1)
      else (keyTok, 0, st.errorMsg)
    let (result, isSection, memberType, errorMsg2) :=
      E.isSection st.root st.tempSectionObj lineNum keyTok1 errorMsg1
    if !result then
      .ok { st with result := false, parsedArrayIndex := parsedArrayIndex, errorMsg := errorMsg2 }
    else if !isSection then
      if keyTok1.length < memberNameBufferSize then
        parseKeyLoop E lineNum memberNameBufferSize rest
          { st with result := true, isSection := false, parsedArrayIndex := parsedArrayIndex,
                    memberNameBuffer := some keyTok1, errorMsg := errorMsg2 }
      else .error .assertFailed
    else
      let (result1, root1, errorMsg3) :=
        E.getPtrOfSubSection st.root st.tempSectionObj lineNum keyTok1 memberType parsedArrayIndex
          errorMsg2
      if !result1 then
        .ok { st with result := false, root := root1, isSection := true,
                      parsedArrayIndex := parsedArrayIndex, errorMsg := errorMsg3 }
      else
        parseKeyLoop E lineNum memberNameBufferSize rest
          { st with result := true, root := root1,
                    tempSectionObj := st.tempSectionObj ++ [(keyTok1, parsedArrayIndex)],
                    isSection := true, parsedArrayIndex := parsedArrayIndex, errorMsg := errorMsg3 }

/-- Source: `VfxParser::parseKey`, on the top-level section `sectionObjectIn`. The member name
buffer of the caller is not initialized: it is `none` until the loop stores a name. -/
def parseKey {S : Type} (E : Env S) (key : CStr) (lineNum : Nat) (sectionObjectIn : S)
    (memberNameBufferSize : Nat) (errorMsg : ErrorMsg) : Except Fault (KeyState S) :=
  if key.length < E.MaxKeyBufSize then
    match strtok key ['.'] with
    | [] => .error .nullDeref
    | keyTok :: rest =>
      parseKeyLoop E lineNum memberNameBufferSize
        (trimStringEnd (trimStringBeginning keyTok) :: rest)
        ⟨true, sectionObjectIn, [], false, 0, none, errorMsg⟩
  else .error .assertFailed

/-- The first 32-bit word of the union, `iVec4[0]` as bits. -/
def IUFValue.word0 (v : IUFValue) : Nat := v.words.getD 0 0

/-- The array cases of the switch of `parseKeyValue`: `getPtrOf`, whose result is not
tested, then the array parser on the vector `**ptr`. -/
def parseArrayMember {S : Type} (E : Env S) (root : S) (obj : SubPtr) (lineNum : Nat)
    (memberName : CStr) (errorMsg : ErrorMsg) (parser : List Nat → Bool × List Nat) :
    Except Fault (Bool × S × ErrorMsg) :=
  let (ptr, root1, errorMsg1) := E.getPtrOf root obj lineNum memberName errorMsg
  match ptr with
  | none => .error .nullDeref
  | some bufMem =>
    let (result, bufMem1) := parser bufMem
    .ok (result, E.putArray root1 obj memberName bufMem1, errorMsg1)

/-- The vector cases of the switch of `parseKeyValue`: the parser, then `set(.., &value)`
when it succeeded. -/
def setVector {S : Type} (E : Env S) (root : S) (obj : SubPtr) (lineNum : Nat)
    (memberName : CStr) (errorMsg : ErrorMsg) (parsed : Except Fault (Bool × IUFValue)) :
    Except Fault (Bool × S × ErrorMsg) :=
  match parsed with
  | .error f => .error f
  | .ok (false, _) => .ok (false, root, errorMsg)
  | .ok (true, value) =>
    let (result, root1) := E.set root obj lineNum memberName (.iufValue value)
    .ok (result, root1, errorMsg)

/-- Source: `VfxParser::parseKeyValue`, on the top-level section `sectionObject`: the result, the
section and the error accumulator. -/
def parseKeyValue {S : Type} (E : Env S) (key valueStr : CStr) (lineNum : Nat)
    (sectionObject : S) (errorMsg : ErrorMsg) : Except Fault (Bool × S × ErrorMsg) :=
  match parseKey E key lineNum sectionObject E.MaxKeyBufSize errorMsg with
  | .error f => .error f
  | .ok st =>
    if !st.result then .ok (false, st.root, st.errorMsg)
    else
      match st.memberNameBuffer with
      | none => .error .uninitialized
      | some memberName =>
        let obj := st.tempSectionObj
        let (result, valueType, errorMsg1) :=
          E.getMemberType st.root obj lineNum memberName st.errorMsg
        if !result then .ok (false, st.root, errorMsg1)
        else
          let value := IUFValue.zero
          match valueType with
          | .MemberTypeEnum =>
            let (result1, value1, errorMsg2) := parseEnumName E valueStr lineNum value errorMsg1
            if result1 then
              let (result2, root1) :=
                E.set st.root obj lineNum memberName (.int (asInt32 value1.word0))
              .ok (result2, root1, errorMsg2)
            else .ok (false, st.root, errorMsg2)
          | .MemberTypeInt =>
            let (_, value1) := parseInt valueStr value
            let (result2, root1) :=
              E.set st.root obj lineNum memberName (.int (asInt32 value1.word0))
            .ok (result2, root1, errorMsg1)
          | .MemberTypeFloat =>
            let (_, value1) := parseFloat16 E valueStr value
            let (result2, root1) :=
              E.set st.root obj lineNum memberName (.float16 (value1.word0 % 2 ^ 16))
            .ok (result2, root1, errorMsg1)
          | .MemberTypeDouble =>
            let (_, value1) := parseDouble E valueStr value
            let (result2, root1) :=
              E.set st.root obj lineNum memberName
                (.double (value1.word0 + value1.words.getD 1 0 * 2 ^ 32))
            .ok (result2, root1, errorMsg1)
          | .MemberTypeBool =>
            let (_, value1) := parseBool valueStr value
            let boolValue := if value1.word0 ≠ 0 then 1 else 0
            let (result2, root1) := E.set st.root obj lineNum memberName (.uint8 boolValue)
            .ok (result2, root1, errorMsg1)
          | .MemberTypeIVec4 =>
            setVector E st.root obj lineNum memberName errorMsg1 (parseIVec4 valueStr value)
          | .MemberTypeI64Vec2 =>
            setVector E st.root obj lineNum memberName errorMsg1 (parseI64Vec2 valueStr value)
          | .MemberTypeBinding =>
            setVector E st.root obj lineNum memberName errorMsg1 (parseBinding E valueStr value)
          | .MemberTypeFVec4 =>
            setVector E st.root obj lineNum memberName errorMsg1 (parseFVec4 E valueStr value)
          | .MemberTypeF16Vec4 =>
            setVector E st.root obj lineNum memberName errorMsg1 (parseF16Vec4 E valueStr value)
          | .MemberTypeDVec2 =>
            setVector E st.root obj lineNum memberName errorMsg1 (parseDVec2 E valueStr value)
          | .MemberTypeIArray =>
            parseArrayMember E st.root obj lineNum memberName errorMsg1 (parseIArray valueStr true)
          | .MemberTypeUArray =>
            parseArrayMember E st.root obj lineNum memberName errorMsg1 (parseIArray valueStr false)
          | .MemberTypeI64Array =>
            parseArrayMember E st.root obj lineNum memberName errorMsg1
              (parseI64Array valueStr true)
          | .MemberTypeU64Array =>
            parseArrayMember E st.root obj lineNum memberName errorMsg1
              (parseI64Array valueStr false)
          | .MemberTypeFArray =>
            parseArrayMember E st.root obj lineNum memberName errorMsg1 (parseFArray E valueStr)
          | .MemberTypeF16Array =>
            parseArrayMember E st.root obj lineNum memberName errorMsg1 (parseF16Array E valueStr)
          | .MemberTypeDArray =>
            parseArrayMember E st.root obj lineNum memberName errorMsg1 (parseDArray E valueStr)
          | .MemberTypeString =>
            let (result2, root1) := E.set st.root obj lineNum memberName (.string valueStr)
            .ok (result2, root1, errorMsg1)
          | .other _ => .error .assertFailed

/-- The loop of `VfxParser::parseSectionKeyValues` on the section `m_currentSection` points
to: `lineNum` is the local line counter, `steps` bounds the number of iterations (the
characters left in the buffer, and two, suffice). The result is the flag returned and the
parser. -/
def parseSectionKeyValuesLoop {S : Type} (E : Env S) (ptr : SectionType × Nat) :
    Nat → Nat → VfxParser S → Except Fault (Bool × VfxParser S)
  | 0, _, _ => .error .stepBound
  | steps + 1, lineNum, p =>
    let (lineBuffer, readCount, ss) := p.m_currentSectionStringBuffer.getline E.MaxLineBufSize
    let p1 := { p with m_currentSectionStringBuffer := ss }
    if ¬ readCount < E.MaxLineBufSize then .error .assertFailed
    else if readCount = 0 then .ok (true, p1)
    else if lineBuffer = [] ∨ lineBuffer = ['\r'] then
      parseSectionKeyValuesLoop E ptr steps lineNum p1
    else
      match extractKeyAndValue lineBuffer lineNum '=' p1.m_vfxDoc.m_errorMsg with
      | (none, errorMsg1) =>
        .ok (false, { p1 with m_vfxDoc := { p1.m_vfxDoc with m_errorMsg := errorMsg1 } })
      | (some (key, value), errorMsg1) =>
        match p1.m_vfxDoc.sectionAt ptr with
        | none => .error .nullDeref
        | some sectionObject =>
          match parseKeyValue E key value lineNum sectionObject errorMsg1 with
          | .error f => .error f
          | .ok (_, sectionObject1, errorMsg2) =>
            parseSectionKeyValuesLoop E ptr steps (lineNum + 1)
              { p1 with m_vfxDoc :=
                { (p1.m_vfxDoc.setSectionAt ptr sectionObject1) with m_errorMsg := errorMsg2 } }

/-- Source: `VfxParser::parseSectionKeyValues`. -/
def parseSectionKeyValues {S : Type} (E : Env S) (p : VfxParser S) :
    Except Fault (Bool × VfxParser S) :=
  match p.m_currentSection with
  | none => .error .nullDeref
  | some ptr =>
    parseSectionKeyValuesLoop E ptr (p.m_currentSectionStringBuffer.unread.length + 2)
      p.m_currentSectionLineNum p

/-- The loop of `VfxParser::parseSectionShaderSource`; `steps` as in
`parseSectionKeyValuesLoop`. -/
def parseSectionShaderSourceLoop {S : Type} (E : Env S) (ptr : SectionType × Nat) :
    Nat → VfxParser S → Except Fault (VfxParser S)
  | 0, _ => .error .stepBound
  | steps + 1, p =>
    let (stored, readCount, ss) := p.m_currentSectionStringBuffer.getline E.MaxLineBufSize
    let p1 := { p with m_currentSectionStringBuffer := ss }
    if ¬ readCount < E.MaxLineBufSize then .error .assertFailed
    else if readCount = 0 then .ok p1
    else
      let lineBuffer := ((stored ++ [NUL, NUL]).set (readCount - 1) '\n').set readCount NUL
      match p1.m_vfxDoc.sectionAt ptr with
      | none => .error .nullDeref
      | some sectionObject =>
        parseSectionShaderSourceLoop E ptr steps
          { p1 with m_vfxDoc := (p1.m_vfxDoc.setSectionAt ptr
              (E.addLine sectionObject (lineBuffer.takeWhile (fun c => c != NUL)))) }

/-- Source: `VfxParser::parseSectionShaderSource`. -/
def parseSectionShaderSource {S : Type} (E : Env S) (p : VfxParser S) :
    Except Fault (VfxParser S) :=
  match p.m_currentSection with
  | none => .error .nullDeref
  | some ptr =>
    parseSectionShaderSourceLoop E ptr (p.m_currentSectionStringBuffer.unread.length + 2) p

/-- Source: `VfxParser::endSection`. -/
def endSection {S : Type} (E : Env S) (p : VfxParser S) : Except Fault (Bool × VfxParser S) :=
  match p.m_currentSection with
  | none => .ok (true, p)
  | some ptr =>
    match p.m_vfxDoc.sectionAt ptr with
    | none => .error .nullDeref
    | some currentSection =>
      if E.isShaderSourceSection currentSection
          || E.sectionTypeOf currentSection == E.SectionTypeCompileLog then
        match parseSectionShaderSource E p with
        | .error f => .error f
        | .ok p1 => .ok (true, p1)
      else
        match parseSectionKeyValues E p with
        | .error f => .error f
        | .ok (false, p1) => .ok (false, p1)
        | .ok (true, p1) =>
          match p1.m_vfxDoc.sectionAt ptr with
          | none => .error .nullDeref
          | some currentSection1 =>
            if E.sectionTypeOf currentSection1 == E.SectionTypeVersion then
              let version := E.getSubState currentSection1
              let (result, errorMsg1) := E.checkVersion version p1.m_vfxDoc.m_errorMsg
              .ok (result, { p1 with m_vfxDoc := { p1.m_vfxDoc with m_errorMsg := errorMsg1 } })
            else .ok (true, p1)

/-- Source: `VfxParser::beginSection`, on a line that starts with `[`. -/
def beginSection {S : Type} (E : Env S) (line : CStr) (p : VfxParser S) :
    Except Fault (Bool × VfxParser S) :=
  if line.head? ≠ some '[' then .error .assertFailed
  else
    match strchr line ']' with
    | none =>
      .ok (false, { p with m_vfxDoc := { p.m_vfxDoc with
        m_errorMsg := PARSE_ERROR p.m_vfxDoc.m_errorMsg p.m_currentLineNum "expect ]".toList } })
    | some bracketBack =>
      let line1 := (line.take bracketBack).drop 1
      let sectionName := (strtok line1 [',']).head?
      match p.m_vfxDoc.getFreeSection E sectionName with
      | .error f => .error f
      | .ok (none, doc1) => .ok (true, { p with m_vfxDoc := doc1, m_currentSection := none })
      | .ok (some ptr, doc1) =>
        match doc1.sectionAt ptr with
        | none => .error .nullDeref
        | some currentSection =>
          .ok (true, { p with
            m_vfxDoc := (doc1.setSectionAt ptr (E.setLineNum currentSection p.m_currentLineNum))
            m_currentSection := some ptr
            m_currentSectionLineNum := p.m_currentLineNum + 1
            m_currentSectionStringBuffer := StringStream.reset })

/-- Whether `parseLine` trims the comment of a line:
`!m_currentSection || !m_currentSection->isShaderSourceSection()`. -/
def trimsComments {S : Type} (E : Env S) (p : VfxParser S) : Except Fault Bool :=
  match p.m_currentSection with
  | none => .ok true
  | some ptr =>
    match p.m_vfxDoc.sectionAt ptr with
    | none => .error .nullDeref
    | some currentSection => .ok (!E.isShaderSourceSection currentSection)

/-- Source: `VfxParser::parseLine`. -/
def parseLine {S : Type} (E : Env S) (line : CStr) (p : VfxParser S) :
    Except Fault (Bool × VfxParser S) :=
  let p1 := { p with m_currentLineNum := p.m_currentLineNum + 1 }
  match trimsComments E p1 with
  | .error f => .error f
  | .ok trim =>
    let line1 :=
      if trim then
        match strchr line ';' with
        | some comments => line.take comments
        | none => line
      else line
    if line1.head? = some '[' then
      match endSection E p1 with
      | .error f => .error f
      | .ok (false, p2) => .ok (false, p2)
      | .ok (true, p2) => beginSection E line1 p2
    else
      .ok (true, { p1 with
        m_currentSectionStringBuffer := p1.m_currentSectionStringBuffer.insert line1 })

/-- Source: `fgets(lineBuf, n, file)` on the unread characters of the file: the line stored (at most
`n - 1` characters, ending after the first line terminator) and the characters left; `none`
at the end of the file. -/
def fgets (n : Nat) (file : CStr) : Option (CStr × CStr) :=
  if file = [] then none
  else
    let body := (file.takeWhile (fun c => c != '\n')).take (n - 1)
    if body.length < n - 1 ∧ (file.drop body.length).head? = some '\n' then
      some (body ++ ['\n'], file.drop (body.length + 1))
    else some (body, file.drop body.length)

/-- Source: `TestCaseInfo`: the file name, the contents of the file (`none` when it cannot be
opened) and the definitions to substitute. -/
structure TestCaseInfo where
  vfxFile : CStr
  contents : Option CStr
  macros : MacroDefinition

/-- The `while (true)` loop of `VfxParser::parse`: `file` holds the unread characters,
`lineBuf` the local line buffer. `fuel` bounds the iterations of the loop and is the fuel of
each call of `macroSubstituteLine`. The result is `result` and the parser. -/
def parseLoop {S : Type} (E : Env S) (macros : MacroDefinition) :
    Nat → CStr → List Char → VfxParser S → Option (Except Fault (Bool × VfxParser S))
  | 0, _, _, _ => none
  | fuel + 1, file, lineBuf, p =>
    match fgets E.MaxLineBufSize file with
    | none => some (endSection E p)
    | some (line, file1) =>
      match writeAt lineBuf 0 (line ++ [NUL]) with
      | none => some (.error .outOfBounds)
      | some lineBuf1 =>
        match macroSubstituteLine fuel lineBuf1 0 (p.m_currentLineNum + 1) macros E.MaxLineBufSize
            p.m_vfxDoc.m_errorMsg with
        | none => none
        | some (.error f) => some (.error f)
        | some (.ok (false, _, errorMsg1)) =>
          some (.ok (false, { p with m_vfxDoc := { p.m_vfxDoc with m_errorMsg := errorMsg1 } }))
        | some (.ok (true, lineBuf2, errorMsg1)) =>
          match cstrAt lineBuf2 0 with
          | none => some (.error .outOfBounds)
          | some linePtr =>
            match parseLine E linePtr
                { p with m_vfxDoc := { p.m_vfxDoc with m_errorMsg := errorMsg1 } } with
            | .error f => some (.error f)
            | .ok (false, p1) => some (.ok (false, p1))
            | .ok (true, p1) => parseLoop E macros fuel file1 lineBuf2 p1

/-- Source: `VfxParser::parse`, on a parser as constructed: `lineBuf` is the content of the local
line buffer (of `MaxLineBufSize` bytes) when the function is entered. The stores that
`parseLine` makes inside the line are not repeated in `lineBuf`. -/
def parse {S : Type} (E : Env S) (fuel : Nat) (lineBuf : List Char) (info : TestCaseInfo)
    (doc : Document S) (p : VfxParser S) : Option (Except Fault (Bool × VfxParser S)) :=
  let p0 := { p with m_vfxDoc := doc }
  match info.contents with
  | none => some (.ok (false, { p0 with m_isValidVfxFile := false }))
  | some file =>
    let p1 := { p0 with m_vfxDoc := { p0.m_vfxDoc with m_fileName := info.vfxFile } }
    match parseLoop E info.macros fuel file lineBuf p1 with
    | none => none
    | some (.error f) => some (.error f)
    | some (.ok (false, p2)) => some (.ok (false, { p2 with m_isValidVfxFile := false }))
    | some (.ok (true, p2)) =>
      let (result, errorMsg1) := E.validate p2.m_vfxDoc.m_sections p2.m_vfxDoc.m_errorMsg
      let p3 := { p2 with m_vfxDoc := { p2.m_vfxDoc with m_errorMsg := errorMsg1 } }
      if !result then some (.ok (false, { p3 with m_isValidVfxFile := false }))
      else
        match p3.m_vfxDoc.compileShader E with
        | .error f => some (.error f)
        | .ok (result1, doc1) =>
          some (.ok (result1, { p3 with m_vfxDoc := doc1, m_isValidVfxFile := result1 }))

/-! ## A document schema -/

/-- Modelled from the spec: the section classes of `vfxSection.h` are not in the sources.
One section type of a schema (§3): its name in a `[Name]` header, its type, the maximum
count of its instances, whether it holds free text, and its fields with their types. -/
structure SectionInfo where
  sectionName : CStr
  type : SectionType
  maxCount : Nat
  isShaderSource : Bool
  members : List (CStr × MemberType)
  deriving DecidableEq

/-- Modelled from the spec: a section object (§3) of a schema without nested sections: its
type, its starting line, the values assigned to its fields in the order of assignment, and
its text buffer. -/
structure SectionObj where
  info : SectionInfo
  lineNum : Nat
  fields : List (CStr × SetValue)
  text : CStr
  deriving DecidableEq

/-- Modelled from the spec: a small schema with the two sections of the end-to-end scenario
(§8), `Version` with the integer field `version` and the free-text section `VertexShader`,
with `VertexShaderInfo`, and with a key-value section `Sample` of at most two instances. -/
def sampleSchema : List SectionInfo :=
  [ ⟨"Version".toList, 1, 1, false, [("version".toList, .MemberTypeInt)]⟩,
    ⟨"CompileLog".toList, 2, 1, false, []⟩,
    ⟨"VertexShader".toList, 3, 1, true, []⟩,
    ⟨"VertexShaderInfo".toList, 4, 1, false, [("entryPoint".toList, .MemberTypeString)]⟩,
    ⟨"Sample".toList, 5, 2, false,
      [("a".toList, .MemberTypeString), ("b".toList, .MemberTypeString),
       ("n".toList, .MemberTypeInt), ("mode".toList, .MemberTypeEnum)]⟩ ]

/-- The description of the section type of a name; a name outside the schema has the type 0,
of which no instance is allowed. -/
def sampleInfo (sectionName : Option CStr) : SectionInfo :=
  match sectionName with
  | none => ⟨[], 0, 0, false, []⟩
  | some n => (sampleSchema.find? (fun i => i.sectionName == n)).getD ⟨n, 0, 0, false, []⟩

/-- The type of a field of a section object, when the section has the field. -/
def SectionObj.memberType (s : SectionObj) (memberName : CStr) : Option MemberType :=
  (s.info.members.find? (fun m => m.1 == memberName)).map (fun m => m.2)

/-- The last value assigned to a field. -/
def SectionObj.lastValue (s : SectionObj) (memberName : CStr) : Option SetValue :=
  (s.fields.reverse.find? (fun f => f.1 == memberName)).map (fun f => f.2)

/-- Modelled from the spec: an environment for the schema `sampleSchema`. A field lookup
fails with a diagnostic when the section has no field of the name; `set` appends the
assignment; the version check accepts the versions up to 1; validation and the external
compiler accept everything; the floating-point conversions are not modelled (they give 0). -/
def sampleEnv : Env SectionObj where
  MaxLineBufSize := 65536
  MaxKeyBufSize := 256
  SectionTypeNameNum := 6
  SectionTypeVersion := 1
  SectionTypeCompileLog := 2
  SectionTypeVertexShader := 3
  SectionTypeVertexShaderInfo := 4
  ShaderStageCount := 1
  VfxVertexBufferSetId := 4294967280
  VfxIndexBufferSetId := 4294967281
  strtod := fun _ => 0
  doubleToFloat := fun _ => 0
  FromFloat32 := fun _ => 0
  getEnumValue := fun n =>
    if n = "ON".toList then some 1 else if n = "OFF".toList then some 0 else none
  getSectionType := fun n => (sampleInfo n).type
  getMaxSectionCount := fun t => ((sampleSchema.find? (fun i => i.type == t)).map (·.maxCount)).getD 0
  createSection := fun n => ⟨sampleInfo n, 0, [], []⟩
  sectionTypeOf := fun s => s.info.type
  isShaderSourceSection := fun s => s.info.isShaderSource
  setLineNum := fun s n => { s with lineNum := n }
  addLine := fun s line => { s with text := s.text ++ line }
  getSubState := fun s =>
    match s.lastValue "version".toList with
    | some (.int v) => toWord32 v
    | _ => 0
  checkVersion := fun version errorMsg =>
    if version ≤ 1 then (true, errorMsg)
    else (false, PARSE_ERROR errorMsg 0 "Unsupported version".toList)
  isSection := fun s obj lineNum memberName errorMsg =>
    match obj, s.memberType memberName with
    | [], some t => (true, false, t, errorMsg)
    | _, _ => (false, false, .other 0,
        PARSE_ERROR errorMsg lineNum ("Invalid member name: ".toList ++ memberName))
  getPtrOfSubSection := fun s _ lineNum memberName _ _ errorMsg =>
    (false, s, PARSE_ERROR errorMsg lineNum ("Invalid member name: ".toList ++ memberName))
  getMemberType := fun s obj lineNum memberName errorMsg =>
    match obj, s.memberType memberName with
    | [], some t => (true, t, errorMsg)
    | _, _ => (false, .other 0,
        PARSE_ERROR errorMsg lineNum ("Invalid member name: ".toList ++ memberName))
  set := fun s obj _ memberName value =>
    match obj, s.memberType memberName with
    | [], some _ => (true, { s with fields := s.fields ++ [(memberName, value)] })
    | _, _ => (false, s)
  getPtrOf := fun s _ lineNum memberName errorMsg =>
    (none, s, PARSE_ERROR errorMsg lineNum ("Invalid member name: ".toList ++ memberName))
  putArray := fun s _ _ _ => s
  compileShader := fun s _ _ errorMsg => (true, s, errorMsg)
  validate := fun _ errorMsg => (true, errorMsg)

/-- Whether the lines are the ones that successive calls of `fgets(lineBuf, n, file)` read
from the file, up to its end. -/
def fgetsSplit (n : Nat) : CStr → List CStr → Bool
  | file, [] => fgets n file == none
  | file, line :: rest =>
    match fgets n file with
    | some (line1, file1) => line1 == line && fgetsSplit n file1 rest
    | none => false

/-- Runs `parseLine` on each of the lines in turn, until a call returns false: the flag of the
last call and the parser. -/
def parseLines {S : Type} (E : Env S) : List CStr → VfxParser S →
    Except Fault (Bool × VfxParser S)
  | [], p => .ok (true, p)
  | line :: rest, p =>
    match parseLine E line p with
    | .error f => .error f
    | .ok (false, p1) => .ok (false, p1)
    | .ok (true, p1) => parseLines E rest p1

/-- Runs `parseLine` on each of the lines in turn, then `endSection` when every call returned
true: what the loop of `parse` does on a file of these lines when nothing is substituted. -/
def parseLinesThenEnd {S : Type} (E : Env S) (lines : List CStr) (p : VfxParser S) :
    Except Fault (Bool × VfxParser S) :=
  match parseLines E lines p with
  | .error f => .error f
  | .ok (false, p1) => .ok (false, p1)
  | .ok (true, p1) => endSection E p1

/-! ## The words of the specification -/

/-- Whitespace in the words of the specification: space, tab, CR, LF. -/
def isBlank (c : Char) : Bool :=
  c == ' ' || c == '\t' || c == '\r' || c == '\n'

/-- A text with its leading and trailing whitespace removed, in the words of the
specification. -/
def stripBlanks (s : CStr) : CStr :=
  ((s.dropWhile isBlank).reverse.dropWhile isBlank).reverse

/-- A line cut immediately before its first `;`, in the words of the specification. -/
def beforeComment (line : CStr) : CStr :=
  line.takeWhile (fun c => c != ';')

/-- The current-section pointer of the parser is null or points to a section of the
document. -/
def ValidPointer {S : Type} (p : VfxParser S) : Prop :=
  ∀ ptr, p.m_currentSection = some ptr → (p.m_vfxDoc.sectionAt ptr).isSome

/-- The current section of the parser is a shader-source section. -/
def inShaderSource {S : Type} (E : Env S) (p : VfxParser S) : Prop :=
  ∃ ptr s, p.m_currentSection = some ptr ∧ p.m_vfxDoc.sectionAt ptr = some s
    ∧ E.isShaderSourceSection s = true

/-- The parser of the schema `sampleSchema` after the header `[VertexShader]` on line 1. -/
def inVertexShader : VfxParser SectionObj :=
  { m_vfxDoc :=
      { m_sections := [[], [], [], [⟨sampleInfo (some "VertexShader".toList), 1, [], []⟩], [], []]
        m_sectionList := [(3, 0)]
        m_errorMsg := []
        m_fileName := [] }
    m_isValidVfxFile := false
    m_currentSection := some (3, 0)
    m_currentLineNum := 1
    m_currentSectionLineNum := 2
    m_currentSectionStringBuffer := ⟨[], true⟩ }

/-- The parser of the schema `sampleSchema` after the header `[Sample]` on line 1. -/
def inSample : VfxParser SectionObj :=
  { m_vfxDoc :=
      { m_sections := [[], [], [], [], [], [⟨sampleInfo (some "Sample".toList), 1, [], []⟩]]
        m_sectionList := [(5, 0)]
        m_errorMsg := []
        m_fileName := [] }
    m_isValidVfxFile := false
    m_currentSection := some (5, 0)
    m_currentLineNum := 1
    m_currentSectionLineNum := 2
    m_currentSectionStringBuffer := ⟨[], true⟩ }

/-- The decimal text of an integer, in the words of the specification: the digits of
`Nat.toDigits 10`, after a minus sign for a negative number. -/
def decimalText : Int → CStr
  | .ofNat m => Nat.toDigits 10 m
  | .negSucc m => '-' :: Nat.toDigits 10 (m + 1)

/-- The hexadecimal text of a natural number, in the words of the specification: `0x`
followed by its hexadecimal digits. -/
def hexText (u : Nat) : CStr :=
  '0' :: 'x' :: Nat.toDigits 16 u

/-- A name of a path segment: not empty, and without `.`, brackets or whitespace. -/
def PlainName (name : CStr) : Prop :=
  name ≠ [] ∧ ∀ c ∈ name, c ≠ '.' ∧ c ≠ '[' ∧ c ≠ ']' ∧ isTrimSpace c = false

/-- A path segment as it is written in a key: the name, followed by the index in brackets
when one is written. -/
def segmentText (name : CStr) (index : Option Nat) : CStr :=
  match index with
  | none => name
  | some k => name ++ '[' :: Nat.toDigits 10 k ++ [']']

/-- Modelled from the spec: a section object with nested sub-sections (§3, §4.3): the values
assigned, each with the pointer of the nested object it was assigned in and the name of the
field, in the order of assignment. -/
structure PipelineObj where
  assigned : List (SubPtr × CStr × SetValue)
  deriving DecidableEq

/-- Modelled from the spec: the terminal fields of the schema of the path-resolution example
(§8): the top-level section has the fields `count`, `scale`, `ratio` and `values`, and each
child of its sub-section member `stages` has the fields `entryPoint` and `weight`. -/
def pipelineFields (obj : SubPtr) : List (CStr × MemberType) :=
  match obj with
  | [] => [("count".toList, .MemberTypeInt), ("scale".toList, .MemberTypeFloat),
           ("ratio".toList, .MemberTypeDouble), ("values".toList, .MemberTypeInt)]
  | [_] => [("entryPoint".toList, .MemberTypeString), ("weight".toList, .MemberTypeFloat)]
  | _ => []

/-- The type of a terminal field of a nested object of the schema `pipelineFields`. -/
def pipelineFieldType (obj : SubPtr) (memberName : CStr) : Option MemberType :=
  ((pipelineFields obj).find? (fun m => m.1 == memberName)).map (fun m => m.2)

/-- Modelled from the spec: an environment for the schema `pipelineFields`, whose top-level
section `Pipeline` has the sub-section member `stages` with three children. A lookup of a
name that the object does not have, and an index outside the three children, fail with a
diagnostic; `set` appends the assignment; the floating-point conversions are not modelled
(they give 0). -/
def pipelineEnv : Env PipelineObj where
  MaxLineBufSize := 65536
  MaxKeyBufSize := 256
  SectionTypeNameNum := 2
  SectionTypeVersion := 0
  SectionTypeCompileLog := 0
  SectionTypeVertexShader := 0
  SectionTypeVertexShaderInfo := 0
  ShaderStageCount := 0
  VfxVertexBufferSetId := 4294967280
  VfxIndexBufferSetId := 4294967281
  strtod := fun _ => 0
  doubleToFloat := fun _ => 0
  FromFloat32 := fun _ => 0
  getEnumValue := fun _ => none
  getSectionType := fun n => if n = some "Pipeline".toList then 1 else 0
  getMaxSectionCount := fun t => if t = 1 then 1 else 0
  createSection := fun _ => ⟨[]⟩
  sectionTypeOf := fun _ => 1
  isShaderSourceSection := fun _ => false
  setLineNum := fun s _ => s
  addLine := fun s _ => s
  getSubState := fun _ => 0
  checkVersion := fun _ errorMsg => (true, errorMsg)
  isSection := fun _ obj lineNum memberName errorMsg =>
    if obj = [] ∧ memberName = "stages".toList then (true, true, .other 0, errorMsg)
    else
      match pipelineFieldType obj memberName with
      | some t => (true, false, t, errorMsg)
      | none => (false, false, .other 0,
          PARSE_ERROR errorMsg lineNum ("Invalid member name: ".toList ++ memberName))
  getPtrOfSubSection := fun s obj lineNum memberName _ arrayIndex errorMsg =>
    if obj = [] ∧ memberName = "stages".toList ∧ arrayIndex < 3 then (true, s, errorMsg)
    else (false, s, PARSE_ERROR errorMsg lineNum "Array access out of bound".toList)
  getMemberType := fun _ obj lineNum memberName errorMsg =>
    match pipelineFieldType obj memberName with
    | some t => (true, t, errorMsg)
    | none => (false, .other 0,
        PARSE_ERROR errorMsg lineNum ("Invalid member name: ".toList ++ memberName))
  set := fun s obj _ memberName value =>
    match pipelineFieldType obj memberName with
    | some _ => (true, { s with assigned := s.assigned ++ [(obj, memberName, value)] })
    | none => (false, s)
  getPtrOf := fun s _ lineNum memberName errorMsg =>
    (none, s, PARSE_ERROR errorMsg lineNum ("Invalid member name: ".toList ++ memberName))
  putArray := fun s _ _ _ => s
  compileShader := fun s _ _ errorMsg => (true, s, errorMsg)
  validate := fun _ errorMsg => (true, errorMsg)

/-- Modelled from the spec: the environment `pipelineEnv` with one more terminal field of
its top-level section, `enable`, of the type bool (§4.4). -/
def flagEnv : Env PipelineObj :=
  { pipelineEnv with
    isSection := fun s obj lineNum memberName errorMsg =>
      if obj = [] ∧ memberName = "enable".toList then (true, false, .MemberTypeBool, errorMsg)
      else pipelineEnv.isSection s obj lineNum memberName errorMsg
    getMemberType := fun s obj lineNum memberName errorMsg =>
      if obj = [] ∧ memberName = "enable".toList then (true, .MemberTypeBool, errorMsg)
      else pipelineEnv.getMemberType s obj lineNum memberName errorMsg
    set := fun s obj lineNum memberName value =>
      if obj = [] ∧ memberName = "enable".toList then
        (true, { s with assigned := s.assigned ++ [(obj, memberName, value)] })
      else pipelineEnv.set s obj lineNum memberName value }

/-- No bucket of the document holds more sections than the maximum count of its type, in
the words of the specification. -/
def Document.WithinCaps {S : Type} (E : Env S) (doc : Document S) : Prop :=
  ∀ t, (doc.m_sections.getD t []).length ≤ E.getMaxSectionCount t

/-- A sequence of calls of `Document::getFreeSection`, one for each section name in turn:
the pointers returned, in the order of the calls, and the document after the last call. -/
def getFreeSections {S : Type} (E : Env S) :
    List (Option CStr) → Document S →
      Except Fault (List (Option (SectionType × Nat)) × Document S)
  | [], doc => .ok ([], doc)
  | sectionName :: rest, doc =>
    match doc.getFreeSection E sectionName with
    | .error f => .error f
    | .ok (ptr, doc1) =>
      match getFreeSections E rest doc1 with
      | .error f => .error f
      | .ok (ptrs, doc2) => .ok (ptr :: ptrs, doc2)

/-- One invocation of the per-section compile, in the words of the specification: the
shader-source section `i` of a stage is compiled with the shader-info section `i` of the
stage, the file name and the error accumulator of the document; the result is the flag
returned and the document with the section and the accumulator as the compile left them. It
is a failed assertion when the stage has no shader-info section `i`. -/
def compilePair {S : Type} (E : Env S) (stage i : Nat) (doc : Document S) :
    Except Fault (Bool × Document S) :=
  match doc.sectionAt (E.SectionTypeVertexShader + stage, i),
      doc.sectionAt (E.SectionTypeVertexShaderInfo + stage, i) with
  | some shaderSection, some shaderInfoSection =>
    let r := E.compileShader shaderSection doc.m_fileName shaderInfoSection doc.m_errorMsg
    .ok (r.1, { (doc.setSectionAt (E.SectionTypeVertexShader + stage, i) r.2.1) with
      m_errorMsg := r.2.2 })
  | _, _ => .error .assertFailed

/-- The invocations of `compilePair` for the pairs of a list, one after the other whatever
the flags returned: the flags in the order of the invocations, and the document. -/
def compilePairs {S : Type} (E : Env S) :
    List (Nat × Nat) → Document S → Except Fault (List Bool × Document S)
  | [], doc => .ok ([], doc)
  | (stage, i) :: rest, doc =>
    match compilePair E stage i doc with
    | .error f => .error f
    | .ok (stageRet, doc1) =>
      match compilePairs E rest doc1 with
      | .error f => .error f
      | .ok (rets, doc2) => .ok (stageRet :: rets, doc2)

/-- The shader-source sections of a document, in the words of the specification: for every
stage in stage order, every index of a shader-source section of the stage in section
order. -/
def shaderPairs {S : Type} (E : Env S) (doc : Document S) : List (Nat × Nat) :=
  (List.range E.ShaderStageCount).flatMap (fun stage =>
    (List.range (doc.m_sections.getD (E.SectionTypeVertexShader + stage) []).length).map
      (fun i => (stage, i)))

/-- Modelled from the spec: the environment `sampleEnv` with the constants of two shader
stages, whose shader-source sections have the types 1 and 2 and whose shader-info sections
the types 3 and 4, and with an external compiler (§6) that refuses a section without text,
with a diagnostic for the line of the section, and records in a section that it accepts the
line of the shader-info section it was given. Only `Document::compileShader` is run in
it. -/
def twoStageEnv : Env SectionObj :=
  { sampleEnv with
    SectionTypeNameNum := 5
    SectionTypeVersion := 0
    SectionTypeCompileLog := 0
    SectionTypeVertexShader := 1
    SectionTypeVertexShaderInfo := 3
    ShaderStageCount := 2
    compileShader := fun s _ shaderInfo errorMsg =>
      if s.text = [] then (false, s, PARSE_ERROR errorMsg s.lineNum "empty shader".toList)
      else (true, { s with fields := s.fields ++ [("info".toList, .int shaderInfo.lineNum)] },
        errorMsg) }

/-- A document of `twoStageEnv`: two shader-source sections of the first stage, on the lines
1 and 5, the first without text, one of the second stage, on line 9, and their shader-info
sections on the lines 3, 7 and 11. -/
def twoStageDoc : Document SectionObj :=
  { m_sections :=
      [[],
       [⟨⟨"VertexShader".toList, 1, 2, true, []⟩, 1, [], []⟩,
        ⟨⟨"VertexShader".toList, 1, 2, true, []⟩, 5, [], "b\n".toList⟩],
       [⟨⟨"FragmentShader".toList, 2, 2, true, []⟩, 9, [], "c\n".toList⟩],
       [⟨⟨"VertexShaderInfo".toList, 3, 2, false, []⟩, 3, [], []⟩,
        ⟨⟨"VertexShaderInfo".toList, 3, 2, false, []⟩, 7, [], []⟩],
       [⟨⟨"FragmentShaderInfo".toList, 4, 2, false, []⟩, 11, [], []⟩]]
    m_sectionList := [(1, 0), (3, 0), (1, 1), (3, 1), (2, 0), (4, 0)]
    m_errorMsg := []
    m_fileName := "t.vfx".toList }

/-- The text at which the `strtol` family looks for digits, in the words of the
specification: the text after its leading blanks and one optional sign. A text has a
numeric prefix when this part starts with a decimal digit. -/
def afterSign (s : CStr) : CStr :=
  let s1 := s.dropWhile isspace
  if s1.head? == some '-' || s1.head? == some '+' then s1.drop 1 else s1

/-- The parser without the text that no section is to receive: while no section is
current, the contents of the section buffer are left out of account. -/
def VfxParser.observable {S : Type} (p : VfxParser S) : VfxParser S :=
  match p.m_currentSection with
  | none => { p with m_currentSectionStringBuffer := StringStream.reset }
  | some _ => p

/-- Modelled from the spec: the environment `sampleEnv` with a line buffer of 16 bytes. -/
def smallBufferEnv : Env SectionObj := { sampleEnv with MaxLineBufSize := 16 }

/-- The turns of the `while (true)` loop of `VfxParser::parse` before the end of the input:
`macroSubstituteLine` and `parseLine` on each line read, until one of them returns false.
The result is true, with the parser, when the end of the input is reached, and false at
the first line on which one of the two returns false. -/
def substituteAndParseLines {S : Type} (E : Env S) (macros : MacroDefinition) :
    Nat → CStr → List Char → VfxParser S → Option (Except Fault (Bool × VfxParser S))
  | 0, _, _, _ => none
  | fuel + 1, file, lineBuf, p =>
    match fgets E.MaxLineBufSize file with
    | none => some (.ok (true, p))
    | some (line, file1) =>
      match writeAt lineBuf 0 (line ++ [NUL]) with
      | none => some (.error .outOfBounds)
      | some lineBuf1 =>
        match macroSubstituteLine fuel lineBuf1 0 (p.m_currentLineNum + 1) macros E.MaxLineBufSize
            p.m_vfxDoc.m_errorMsg with
        | none => none
        | some (.error f) => some (.error f)
        | some (.ok (false, _, errorMsg1)) =>
          some (.ok (false, { p with m_vfxDoc := { p.m_vfxDoc with m_errorMsg := errorMsg1 } }))
        | some (.ok (true, lineBuf2, errorMsg1)) =>
          match cstrAt lineBuf2 0 with
          | none => some (.error .outOfBounds)
          | some linePtr =>
            match parseLine E linePtr
                { p with m_vfxDoc := { p.m_vfxDoc with m_errorMsg := errorMsg1 } } with
            | .error f => some (.error f)
            | .ok (false, p1) => some (.ok (false, p1))
            | .ok (true, p1) => substituteAndParseLines E macros fuel file1 lineBuf2 p1

/-- The four bytes of a 32-bit element in native byte order, in the words of the
specification: on the little-endian machines the tool is built for, the low byte first. -/
def nativeBytes32 (w : Nat) : List Nat :=
  [w % 256, w / 256 % 256, w / 65536 % 256, w / 16777216 % 256]

/-! ## The lexical utilities on the bytes of a string

The same loops with every access checked: the string object is the characters of the
string followed by its terminator, and a read or a store at another index is a fault. -/

/-- The read `str[i]` of a byte of a string object: a character of the string or, at its
length, the terminator; a fault at every other index. -/
def charAt (s : CStr) (i : Int) : Except Fault Char :=
  if 0 ≤ i ∧ i ≤ (s.length : Int) then .ok ((s ++ [NUL]).getD i.toNat NUL)
  else .error .outOfBounds

/-- Source: `trimStringBeginning`, with its reads checked: the loop `while (*str)` at the offset
`p`, with a bound on its steps; the result is the offset returned. -/
def trimStringBeginningReads (s : CStr) : Nat → Nat → Except Fault Nat
  | 0, _ => .error .stepBound
  | steps + 1, p =>
    match charAt s p with
    | .error f => .error f
    | .ok c =>
      if c = NUL then .ok p
      else if isTrimSpace c then trimStringBeginningReads s steps (p + 1)
      else .ok p

/-- Source: the loop `while (sRev >= str)` of `trimStringEnd`, with its reads checked; `sRev` is
the offset `sRev - str`, which is -1 before the string. -/
def trimStringEndReads (s : CStr) : Nat → Int → Except Fault Int
  | 0, _ => .error .stepBound
  | steps + 1, sRev =>
    if sRev ≥ 0 then
      match charAt s sRev with
      | .error f => .error f
      | .ok c => if isTrimSpace c then trimStringEndReads s steps (sRev - 1) else .ok sRev
    else .ok sRev

/-- Source: `trimStringEnd`, with its reads and its store checked, on a string without an
inner terminator: the bytes of the string object after the call. -/
def trimStringEndChecked (s : CStr) : Except Fault (List Char) :=
  let len : Int := s.length
  match trimStringEndReads s (s.length + 1) (len - 1) with
  | .error f => .error f
  | .ok sRev =>
    if sRev ≠ len - 1 then
      if 0 ≤ sRev + 1 ∧ sRev + 1 ≤ len then .ok ((s ++ [NUL]).set (sRev + 1).toNat NUL)
      else .error .outOfBounds
    else .ok (s ++ [NUL])

/-- Source: the loop of `isArrayAccess`, with its reads checked: `p` runs from the position
after `[` until it is the position of `]`. -/
def isArrayAccessReads (s : CStr) (rBracket : Nat) : Nat → Nat → Except Fault Bool
  | 0, _ => .error .stepBound
  | steps + 1, p =>
    if p = rBracket then .ok true
    else
      match charAt s p with
      | .error f => .error f
      | .ok c =>
        if ('0' ≤ c ∧ c ≤ '9') ∨ c = ' ' ∨ c = '\t' then isArrayAccessReads s rBracket steps (p + 1)
        else .ok false

/-- Source: `isArrayAccess`, with its reads checked. -/
def isArrayAccessChecked (s : CStr) : Except Fault Bool :=
  match strchr s '[', strchr s ']' with
  | some lBracket, some rBracket => isArrayAccessReads s rBracket (s.length + 1) (lBracket + 1)
  | _, _ => .ok false

/-! ## The lgc tool (`lgc/tool/lgc/lgc.cpp`) -/

/-- Source: `isElfBinary`: the data is at least as long as an `Elf64_Ehdr` (64 bytes) and begins
with the ELF magic `0x7f 'E' 'L' 'F'` (`checkMagic`, of a header of LLVM). -/
def isElfBinary (data : CStr) : Bool :=
  decide (data.length ≥ 64) && data.take 4 == [Char.ofNat 127, 'E', 'L', 'F']

/-- Source: `isIsaText`. -/
def isIsaText (data : CStr) : Bool :=
  "\t".toList.isPrefixOf data

/-- Where `main` writes the output of a module. -/
inductive Destination where
  | stdout
  | file (name : CStr)
  deriving DecidableEq

/-- Source: `main`, from `bool outputToFile = false;` to the `fopen` of the loop over the
modules: the destination of the output `outBuffer` of a module of the input file
`inFileName`, for the value `OutFileName` of the option `-o` (empty when the option is not
given). `stem` is `llvm::sys::path::stem`. -/
def outputDestination (stem : CStr → CStr) (OutFileName inFileName outBuffer : CStr) :
    Destination :=
  let outputToFile : Bool :=
    if OutFileName = [] then decide (inFileName ≠ "-".toList) else false
  if outputToFile = false then .stdout
  else
    let outFileName :=
      if OutFileName = [] then
        let ext :=
          if isElfBinary outBuffer then ".elf".toList
          else if isIsaText outBuffer then ".s".toList
          else ".ll".toList
        stem inFileName ++ ext
      else OutFileName
    .file outFileName

/-- Source: `StringRef::find_first_not_of(chars)`. -/
def find_first_not_of : CStr → List Char → Option Nat
  | [], _ => none
  | c :: cs, chars =>
    if c ∈ chars then (find_first_not_of cs chars).map (· + 1) else some 0

/-- Source: `StringRef::find_first_of(c)`. -/
def find_first_of : CStr → Char → Option Nat
  | [], _ => none
  | x :: xs, c => if x = c then some 0 else (find_first_of xs c).map (· + 1)

/-- The state of the loop that splits the input: the vector `separatedAsms`, which is never
empty, as its elements before the last one and its last one, each a `StringRef` given by the
offset of its data in the input and by its text; and `hadMetadata`. -/
structure SplitState where
  done : List (Nat × CStr)
  back : Nat × CStr
  hadMetadata : Bool
  deriving DecidableEq

/-- Source: the first statement of the loop `for (;;)` of `main` that splits the input into
modules, at a line start: `remaining` is the text from the line start on and `offset` the
offset of its data in the input. -/
def splitStep (offset : Nat) (remaining : CStr) (st : SplitState) : SplitState :=
  match find_first_not_of remaining [' ', '\t', '\n'] with
  | some notSpacePos =>
    if remaining[notSpacePos]? = some '!' then { st with hadMetadata := true }
    else if st.hadMetadata && "target".toList.isPrefixOf (remaining.drop notSpacePos) then
      { done := st.done ++ [(st.back.1, st.back.2.take (offset - st.back.1))]
        back := (offset, remaining)
        hadMetadata := false }
    else st
  | none => st

/-- Source: the loop `for (;;)` of `main` that splits the input into modules, with a bound on
its steps. -/
def splitLoop : Nat → Nat → CStr → SplitState → Except Fault SplitState
  | 0, _, _, _ => .error .stepBound
  | steps + 1, offset, remaining, st =>
    let st1 := splitStep offset remaining st
    match find_first_of remaining '\n' with
    | none => .ok st1
    | some nlPos => splitLoop steps (offset + (nlPos + 1)) (remaining.drop (nlPos + 1)) st1

/-- Source: `main`, from `SmallVector<StringRef, 4> separatedAsms;` to the end of the loop that
splits the input: the texts of `separatedAsms`. The bound on the steps is the length of the
input and one, which suffices. -/
def splitModules (buffer : CStr) : Except Fault (List CStr) :=
  match splitLoop (buffer.length + 1) 0 buffer ⟨[], (0, buffer), false⟩ with
  | .error f => .error f
  | .ok st => .ok ((st.done ++ [st.back]).map (fun piece => piece.2))

/-- Source: the loop of `main` over the modules, up to `asmText += separatedAsm`: the text
`asmText` of each module, from the value of `extraNlCount` on. -/
def asmTexts : List CStr → Nat → List CStr
  | [], _ => []
  | separatedAsm :: rest, extraNlCount =>
    (List.replicate extraNlCount '\n' ++ separatedAsm)
      :: asmTexts rest (extraNlCount + separatedAsm.count '\n')

/-- The first non-blank text of a text: the text after its leading spaces, tabs and line
terminators. -/
def firstText (s : CStr) : CStr :=
  s.dropWhile (fun c => c == ' ' || c == '\t' || c == '\n')

/-- The modules of a list of lines, in the words of the specification, where the first
non-blank text of a line is looked for in the line itself: `current` holds the lines of the
current module, `hadMetadata` says whether a line whose first non-blank text begins with
`!` has been seen since the current module began; a new module starts at a line exactly when
its first non-blank text begins with `target` and `hadMetadata` holds. -/
def groupLinesPerLine (hadMetadata : Bool) (current : List CStr) :
    List CStr → List (List CStr)
  | [] => [current]
  | line :: rest =>
    if (firstText line).head? = some '!' then
      groupLinesPerLine true (current ++ [line]) rest
    else if hadMetadata && "target".toList.isPrefixOf (firstText line) then
      current :: groupLinesPerLine false [line] rest
    else groupLinesPerLine hadMetadata (current ++ [line]) rest

/-- The modules of a list of lines when the first non-blank text at a line is looked for
from the start of the line on, across the ends of blank lines: `current` holds the lines of the current module, `hadMetadata` says
whether a line has been seen, since the current module began, at which that text begins
with `!`; a new module starts at a line exactly when that text begins with `target` and
`hadMetadata` holds. -/
def groupLines (hadMetadata : Bool) (current : List CStr) : List CStr → List (List CStr)
  | [] => [current]
  | line :: rest =>
    if (firstText (line :: rest).flatten).head? = some '!' then
      groupLines true (current ++ [line]) rest
    else if hadMetadata && "target".toList.isPrefixOf (firstText (line :: rest).flatten) then
      current :: groupLines false [line] rest
    else groupLines hadMetadata (current ++ [line]) rest

/-- The line number of the position `pos` of a text, in the words of the specification:
one more than the number of line terminators before the position. -/
def lineNumberAt (text : CStr) (pos : Nat) : Nat :=
  (text.take pos).count '\n' + 1

/-! ## The address computation of YCbCr images (`lgc/builder/YCbCrAddressHandler.cpp`) -/

/-- Source: `YCbCrAddressHandler::power2Align`: the value of the instructions built, an `add` and
an `and` of 32-bit integers, for the value `x` and the constant `align`; a fault when the
assertion on `align` fails. -/
def power2Align (x align : Nat) : Except Fault Nat :=
  if align ≠ 0 ∧ align &&& (align - 1) = 0 then
    .ok (((x + (align - 1) % 2 ^ 32) % 2 ^ 32) &&& (2 ^ 32 - 1 - (align - 1) % 2 ^ 32))
  else .error .assertFailed

/-! ## Lexical utilities: properties -/

theorem isTrimSpace_eq_isBlank (c : Char) : isTrimSpace c = isBlank c := by
  simp only [isTrimSpace, isBlank, Bool.or_assoc]
  cases (c == ' ') <;> cases (c == '\t') <;> cases (c == '\n') <;> cases (c == '\r') <;> rfl

theorem trimStringBeginning_eq (s : CStr) : trimStringBeginning s = s.dropWhile isBlank := by
  induction s with
  | nil => rfl
  | cons c cs ih =>
    simp only [trimStringBeginning, List.dropWhile_cons, isTrimSpace_eq_isBlank, ih]

theorem trimStringEndLoop_le (s : CStr) (n : Nat) : trimStringEndLoop s n ≤ n := by
  induction n with
  | zero => simp [trimStringEndLoop]
  | succ n ih =>
    simp only [trimStringEndLoop]
    split
    · omega
    · omega

theorem take_trimStringEndLoop (s : CStr) (n : Nat) (hn : n ≤ s.length) :
    s.take (trimStringEndLoop s n) = ((s.take n).reverse.dropWhile isBlank).reverse := by
  induction n with
  | zero => simp [trimStringEndLoop]
  | succ n ih =>
    have hlt : n < s.length := hn
    have htake : s.take (n + 1) = s.take n ++ [s.getD n NUL] := by
      rw [List.take_succ]
      congr 1
      simp [List.getD, List.getElem?_eq_getElem hlt]
    simp only [trimStringEndLoop]
    rw [htake, List.reverse_append, List.reverse_singleton, List.singleton_append,
      List.dropWhile_cons, isTrimSpace_eq_isBlank]
    cases hb : isBlank (s.getD n NUL)
    · simp only [Bool.false_eq_true, ↓reduceIte, List.reverse_cons, List.reverse_reverse]
      rw [← htake]
    · simp only [↓reduceIte]
      exact ih (by omega)

theorem trimStringEnd_eq (s : CStr) :
    trimStringEnd s = (s.reverse.dropWhile isBlank).reverse := by
  unfold trimStringEnd
  rw [take_trimStringEndLoop s s.length (le_refl _), List.take_length]


theorem strchr_split (s : CStr) (c : Char) (e : Nat) (h : strchr s c = some e) :
    s = s.take e ++ c :: s.drop (e + 1) ∧ c ∉ s.take e ∧ e < s.length := by
  induction s generalizing e with
  | nil => simp [strchr] at h
  | cons x xs ih =>
    simp only [strchr] at h
    split at h
    · next hx =>
      simp only [Option.some.injEq] at h
      subst h
      simp [hx]
    · next hx =>
      cases hr : strchr xs c with
      | none => simp [hr] at h
      | some e1 =>
        simp only [hr, Option.map_some', Option.some.injEq] at h
        subst h
        obtain ⟨h1, h2, h3⟩ := ih e1 hr
        refine ⟨?_, ?_, ?_⟩
        · simp only [List.take_succ_cons, List.drop_succ_cons, List.cons_append, List.cons.injEq,
            true_and]
          exact h1
        · simp only [List.take_succ_cons, List.mem_cons, not_or]
          exact ⟨fun hc => hx hc.symm, h2⟩
        · simp only [List.length_cons]
          omega

theorem drop_length_sub_dropWhile (p : Char → Bool) (l : CStr) :
    l.drop (l.length - (l.dropWhile p).length) = l.dropWhile p := by
  induction l with
  | nil => rfl
  | cons x xs ih =>
    simp only [List.dropWhile_cons]
    cases hp : p x
    · simp
    · simp only [↓reduceIte, List.length_cons]
      have hle : (xs.dropWhile p).length ≤ xs.length := (List.dropWhile_sublist p).length_le
      have : xs.length + 1 - (xs.dropWhile p).length = (xs.length - (xs.dropWhile p).length) + 1 := by
        omega
      rw [this, List.drop_succ_cons, ih]

theorem dropWhile_append_stop (p : Char → Bool) (a b : CStr) (c : Char) (hc : p c = false) :
    (a ++ c :: b).dropWhile p = a.dropWhile p ++ c :: b := by
  induction a with
  | nil => simp [List.dropWhile_cons, hc]
  | cons x xs ih =>
    simp only [List.cons_append, List.dropWhile_cons]
    cases hp : p x
    · simp
    · simp [ih]

theorem takeWhile_append_stop (p : Char → Bool) (a b : CStr) (c : Char) (hc : p c = false)
    (ha : ∀ x ∈ a, p x = true) : (a ++ c :: b).takeWhile p = a := by
  induction a with
  | nil => simp [List.takeWhile_cons, hc]
  | cons x xs ih =>
    simp only [List.cons_append, List.takeWhile_cons, ha x (List.mem_cons_self _ _), ↓reduceIte,
      List.cons.injEq, true_and]
    exact ih (fun y hy => ha y (List.mem_cons_of_mem _ hy))


theorem set_length_append (a b : CStr) (c x : Char) :
    (a ++ c :: b).set a.length x = a ++ x :: b := by
  induction a with
  | nil => rfl
  | cons y ys ih => simp [List.set, ih]

theorem key_of_split (before after : CStr) (hnul : NUL ∉ before) :
    (((before ++ '=' :: after).set before.length NUL).drop
        ((before ++ '=' :: after).length
          - (trimStringBeginning (before ++ '=' :: after)).length)).takeWhile
      (fun c => c != NUL) = before.dropWhile isBlank := by
  have hstop : isBlank '=' = false := by decide
  have hle : (before.dropWhile isBlank).length ≤ before.length :=
    (List.dropWhile_sublist isBlank).length_le
  rw [trimStringBeginning_eq, dropWhile_append_stop isBlank before after '=' hstop,
    set_length_append]
  have hk : (before ++ '=' :: after).length - (before.dropWhile isBlank ++ '=' :: after).length
      = before.length - (before.dropWhile isBlank).length := by
    simp only [List.length_append, List.length_cons]
    omega
  rw [hk, List.drop_append_of_le_length (by omega), drop_length_sub_dropWhile]
  apply takeWhile_append_stop
  · simp
  · intro x hx
    have hxb : x ∈ before := (List.dropWhile_sublist isBlank).subset hx
    simp only [bne_iff_ne, ne_eq]
    intro hxn
    exact hnul (hxn ▸ hxb)

/-- C10: on every line (a C string) on which `extractKeyAndValue` succeeds with the
delimiter `=`, the line holds a first `=`; the key returned is the text before it and the
value returned the text after it, each with its leading and trailing whitespace (space,
tab, CR, LF) removed, so any later `=` stays inside the value. -/
theorem extractKeyAndValue_splits_at_first_delimiter (line : CStr) (lineNum : Nat)
    (errorMsg : ErrorMsg) (key value : CStr) (hnul : NUL ∉ line)
    (h : (extractKeyAndValue line lineNum '=' errorMsg).1 = some (key, value)) :
    ∃ before after, line = before ++ '=' :: after ∧ '=' ∉ before ∧
      key = stripBlanks before ∧ value = stripBlanks after := by
  unfold extractKeyAndValue at h
  cases hs : strchr line '=' with
  | none => simp [hs] at h
  | some e =>
    obtain ⟨hsplit, hnot, hlt⟩ := strchr_split line '=' e hs
    refine ⟨line.take e, line.drop (e + 1), hsplit, hnot, ?_⟩
    simp only [hs] at h
    split at h
    · simp only [Option.some.injEq, Prod.mk.injEq] at h
      obtain ⟨hk, hv⟩ := h
      have hlen : (line.take e).length = e := by
        rw [List.length_take]; omega
      have hnb : NUL ∉ line.take e := fun hm => hnul (List.mem_of_mem_take hm)
      have hkey := key_of_split (line.take e) (line.drop (e + 1)) hnb
      rw [← hsplit, hlen] at hkey
      constructor
      · rw [← hk, hkey, trimStringEnd_eq]
        rfl
      · rw [← hv, trimStringEnd_eq, trimStringBeginning_eq]
        rfl
    · simp at h

/-- C10, at an instance: a line with blanks around the key and the value and with a second
`=` inside the value. -/
theorem extractKeyAndValue_splits_at_first_delimiter_witness :
    ∃ before after, "  a.b[1] \t= 1 = 2 \r".toList = before ++ '=' :: after ∧ '=' ∉ before ∧
      "a.b[1]".toList = stripBlanks before ∧ "1 = 2".toList = stripBlanks after :=
  extractKeyAndValue_splits_at_first_delimiter "  a.b[1] \t= 1 = 2 \r".toList 7 []
    "a.b[1]".toList "1 = 2".toList (by decide) (by decide)

/-! ## Substitution: properties -/

theorem writeAt_length (buf : List Char) (p : Nat) (bytes buf1 : List Char)
    (h : writeAt buf p bytes = some buf1) : buf1.length = buf.length := by
  unfold writeAt at h
  split at h
  · simp only [Option.some.injEq] at h
    subst h
    simp only [List.length_append, List.length_take, List.length_drop]
    omega
  · simp at h

theorem strstr_nil (s : CStr) : strstr s [] = some 0 := by
  cases s <;> simp [strstr, List.isPrefixOf]

theorem strstr_le (s needle : CStr) (b : Nat) (h : strstr s needle = some b) :
    b + needle.length ≤ s.length := by
  induction s generalizing b with
  | nil =>
    simp only [strstr] at h
    split at h
    · next hn => simp only [Option.some.injEq] at h; subst h; simp [hn]
    · simp at h
  | cons c cs ih =>
    simp only [strstr] at h
    split at h
    · next hp =>
      simp only [Option.some.injEq] at h
      subst h
      have := ( List.isPrefixOf_iff_prefix.mp hp).length_le
      simpa using this
    · cases hr : strstr cs needle with
      | none => simp [hr] at h
      | some b1 =>
        simp only [hr, Option.map_some', Option.some.injEq] at h
        subst h
        have := ih b1 hr
        simp only [List.length_cons]
        omega

theorem takeWhile_ne_length_lt (l : List Char) (x : Char) (h : x ∈ l) :
    (l.takeWhile (fun c => c != x)).length < l.length := by
  induction l with
  | nil => simp at h
  | cons y ys ih =>
    simp only [List.takeWhile_cons]
    by_cases hy : y = x
    · simp [hy]
    · have hm : x ∈ ys := by
        rcases List.mem_cons.mp h with h1 | h1
        · exact absurd h1.symm hy
        · exact h1
      have := ih hm
      simp only [bne_iff_ne, ne_eq, hy, not_false_eq_true, decide_True, ↓reduceIte,
        List.length_cons]
      omega

theorem cstrAt_length (buf : List Char) (p : Nat) (s : CStr) (h : cstrAt buf p = some s) :
    p + s.length < buf.length := by
  unfold cstrAt at h
  split at h
  · next hm =>
    simp only [Option.some.injEq] at h
    subst h
    have h1 := takeWhile_ne_length_lt (buf.drop p) NUL hm
    simp only [List.length_drop] at h1
    omega
  · simp at h

theorem copyForward_length (n : Nat) :
    ∀ (buf : List Char) (dst src : Nat) (buf1 : List Char),
      copyForward n buf dst src = some buf1 → buf1.length = buf.length := by
  induction n with
  | zero =>
    intro buf dst src buf1 h
    simp only [copyForward, Option.some.injEq] at h
    rw [← h]
  | succ n ih =>
    intro buf dst src buf1 h
    simp only [copyForward] at h
    split at h
    · simp at h
    · split at h
      · rw [ih _ _ _ _ h, List.length_set]
      · simp at h

theorem sprintf_length (buf : List Char) (namePos : Nat) (value : CStr) (lineRest : Nat)
    (buf1 : List Char) (h : sprintf buf namePos value lineRest = some buf1) :
    buf1.length = buf.length := by
  unfold sprintf at h
  split at h
  · simp at h
  · next b1 h1 =>
    split at h
    · simp at h
    · split at h
      · simp at h
      · next b2 h2 =>
        rw [writeAt_length _ _ _ _ h, copyForward_length _ _ _ _ _ h2,
          writeAt_length _ _ _ _ h1]

theorem macroSubstituteLine_length (fuel : Nat) :
    ∀ (buf : List Char) (line lineNum : Nat) (macros : MacroDefinition) (maxLineLength : Nat)
      (errorMsg : ErrorMsg) (b : Bool) (buf2 : List Char) (errorMsg2 : ErrorMsg),
      macroSubstituteLine fuel buf line lineNum macros maxLineLength errorMsg
        = some (.ok (b, buf2, errorMsg2)) → buf2.length = buf.length := by
  induction fuel with
  | zero => intro buf line lineNum macros maxLineLength errorMsg b buf2 errorMsg2 h
            simp [macroSubstituteLine] at h
  | succ fuel ih =>
    intro buf line lineNum macros maxLineLength errorMsg b buf2 errorMsg2 h
    cases macros with
    | nil =>
      simp only [macroSubstituteLine, Option.some.injEq, Except.ok.injEq, Prod.mk.injEq] at h
      rw [← h.2.1]
    | cons m iter =>
      obtain ⟨name, value⟩ := m
      simp only [macroSubstituteLine] at h
      split at h
      · simp at h
      · split at h
        · exact ih _ _ _ _ _ _ _ _ _ h
        · split at h
          · simp only [Option.some.injEq, Except.ok.injEq, Prod.mk.injEq] at h
            rw [← h.2.1]
          · split at h
            · simp at h
            · next buf1 hw =>
              split at h
              · next buf3 errorMsg3 hinner =>
                have h1 := ih _ _ _ _ _ _ _ _ _ hinner
                have h2 := ih _ _ _ _ _ _ _ _ _ h
                rw [h2, h1, sprintf_length _ _ _ _ _ hw]
              · have h1 := ih _ _ _ _ _ _ _ _ _ h
                rw [h1, sprintf_length _ _ _ _ _ hw]

theorem macroSubstituteLine_fuel_succ (fuel : Nat) :
    ∀ (buf : List Char) (line lineNum : Nat) (macros : MacroDefinition) (maxLineLength : Nat)
      (errorMsg : ErrorMsg) (r : Except Fault (Bool × List Char × ErrorMsg)),
      macroSubstituteLine fuel buf line lineNum macros maxLineLength errorMsg = some r →
      macroSubstituteLine (fuel + 1) buf line lineNum macros maxLineLength errorMsg = some r := by
  induction fuel with
  | zero => intro buf line lineNum macros maxLineLength errorMsg r h
            simp [macroSubstituteLine] at h
  | succ fuel ih =>
    intro buf line lineNum macros maxLineLength errorMsg r h
    cases macros with
    | nil =>
      simp only [macroSubstituteLine] at h ⊢
      exact h
    | cons m iter =>
      obtain ⟨name, value⟩ := m
      rw [macroSubstituteLine] at h ⊢
      cases hs : cstrAt buf line with
      | none =>
        simp only [hs] at h ⊢
        exact h
      | some s =>
        simp only [hs] at h ⊢
        cases hb : strstr s name with
        | none =>
          simp only [hb] at h ⊢
          exact ih _ _ _ _ _ _ _ h
        | some beforeLen =>
          simp only [hb] at h ⊢
          by_cases hc : beforeLen + value.length + (s.drop (beforeLen + name.length)).length
              ≥ maxLineLength
          · rw [if_pos hc] at h ⊢
            exact h
          · rw [if_neg hc] at h ⊢
            cases hw : sprintf buf (line + beforeLen) value (line + beforeLen + name.length) with
            | none =>
              simp only [hw] at h ⊢
              exact h
            | some buf1 =>
              simp only [hw] at h ⊢
              cases hin : macroSubstituteLine fuel buf1
                  (line + beforeLen + name.length + value.length)
                  lineNum [(name, value)] (maxLineLength - beforeLen - value.length) errorMsg with
              | none => simp [hin] at h
              | some r1 =>
                rw [ih _ _ _ _ _ _ _ hin]
                rw [hin] at h
                split
                · next buf3 errorMsg3 heq =>
                  simp only [Option.some.injEq] at heq
                  subst heq
                  simp only at h
                  exact ih _ _ _ _ _ _ _ h
                · next hne =>
                  split at h
                  · next buf3 errorMsg3 heq =>
                    exact absurd heq (hne buf3 errorMsg3)
                  · exact h

theorem macroSubstituteLine_fuel_mono (fuel k : Nat) (buf : List Char) (line lineNum : Nat)
    (macros : MacroDefinition) (maxLineLength : Nat) (errorMsg : ErrorMsg)
    (r : Except Fault (Bool × List Char × ErrorMsg))
    (h : macroSubstituteLine fuel buf line lineNum macros maxLineLength errorMsg = some r)
    (hk : fuel ≤ k) :
    macroSubstituteLine k buf line lineNum macros maxLineLength errorMsg = some r := by
  induction k with
  | zero =>
    have : fuel = 0 := by omega
    subst this
    exact h
  | succ k ih =>
    by_cases hf : fuel = k + 1
    · subst hf; exact h
    · exact macroSubstituteLine_fuel_succ k _ _ _ _ _ _ _ (ih (by omega))

theorem macroSubstituteLine_halts_aux (μ : Nat) :
    ∀ (macros : MacroDefinition) (buf : List Char) (line lineNum maxLineLength : Nat)
      (errorMsg : ErrorMsg), (∀ m ∈ macros, m.1 ≠ [] ∨ m.2 ≠ []) →
      (buf.length - line) + maxLineLength ≤ μ →
      ∃ n r, macroSubstituteLine n buf line lineNum macros maxLineLength errorMsg = some r := by
  induction μ using Nat.strong_induction_on with
  | _ μ ihμ =>
    intro macros
    induction macros with
    | nil =>
      intro buf line lineNum maxLineLength errorMsg _ _
      exact ⟨1, .ok (true, buf, errorMsg), by simp only [macroSubstituteLine]⟩
    | cons m iter ihm =>
      intro buf line lineNum maxLineLength errorMsg hgood hμ
      obtain ⟨name, value⟩ := m
      have hgood1 : ∀ m ∈ iter, m.1 ≠ [] ∨ m.2 ≠ [] :=
        fun m hm => hgood m (List.mem_cons_of_mem _ hm)
      have hnv : name ≠ [] ∨ value ≠ [] := hgood (name, value) (List.mem_cons_self _ _)
      cases hs : cstrAt buf line with
      | none => exact ⟨1, .error .outOfBounds, by rw [macroSubstituteLine]; simp only [hs]⟩
      | some s =>
        cases hb : strstr s name with
        | none =>
          obtain ⟨n, r, hn⟩ := ihm buf line lineNum maxLineLength errorMsg hgood1 hμ
          exact ⟨n + 1, r, by rw [macroSubstituteLine]; simp only [hs, hb]; exact hn⟩
        | some beforeLen =>
          by_cases hc : beforeLen + value.length + (s.drop (beforeLen + name.length)).length
              ≥ maxLineLength
          · exact ⟨1, _, by rw [macroSubstituteLine]; simp only [hs, hb]; rw [if_pos hc]⟩
          · cases hw : sprintf buf (line + beforeLen) value (line + beforeLen + name.length) with
            | none =>
              exact ⟨1, .error .outOfBounds, by
                rw [macroSubstituteLine]; simp only [hs, hb]; rw [if_neg hc]; simp only [hw]⟩
            | some buf1 =>
              have hlen1 : buf1.length = buf.length := sprintf_length _ _ _ _ _ hw
              have hsl := cstrAt_length buf line s hs
              have hbl := strstr_le s name beforeLen hb
              have hdec : (buf1.length - (line + beforeLen + name.length + value.length))
                  + (maxLineLength - beforeLen - value.length) < μ := by
                rcases hnv with hn | hv
                · have : 0 < name.length := List.length_pos.mpr hn
                  omega
                · have : 0 < value.length := List.length_pos.mpr hv
                  omega
              obtain ⟨n1, r1, h1⟩ := ihμ _ hdec [(name, value)] buf1
                (line + beforeLen + name.length + value.length) lineNum
                (maxLineLength - beforeLen - value.length) errorMsg
                (by intro m hm; rw [List.mem_singleton.mp hm]; exact hnv) (le_refl _)
              match r1, h1 with
              | .ok (true, buf2, errorMsg2), h1 =>
                have hlen2 : buf2.length = buf1.length :=
                  macroSubstituteLine_length _ _ _ _ _ _ _ _ _ _ h1
                obtain ⟨n2, r2, h2⟩ := ihm buf2 line lineNum maxLineLength errorMsg2 hgood1
                  (by rw [hlen2, hlen1]; exact hμ)
                refine ⟨max n1 n2 + 1, r2, ?_⟩
                rw [macroSubstituteLine]; simp only [hs, hb]; rw [if_neg hc]; simp only [hw]
                rw [macroSubstituteLine_fuel_mono n1 (max n1 n2) _ _ _ _ _ _ _ h1
                  (le_max_left _ _)]
                exact macroSubstituteLine_fuel_mono n2 (max n1 n2) _ _ _ _ _ _ _ h2
                  (le_max_right _ _)
              | .ok (false, buf2, errorMsg2), h1 =>
                refine ⟨n1 + 1, .ok (false, buf2, errorMsg2), ?_⟩
                rw [macroSubstituteLine]; simp only [hs, hb]; rw [if_neg hc]; simp only [hw]
                rw [h1]
              | .error e, h1 =>
                refine ⟨n1 + 1, .error e, ?_⟩
                rw [macroSubstituteLine]; simp only [hs, hb]; rw [if_neg hc]; simp only [hw]
                rw [h1]

theorem macroSubstituteLine_loops (fuel : Nat) :
    macroSubstituteLine fuel ['a', NUL] 0 1 [([], [])] 8 [] = none := by
  induction fuel with
  | zero => rfl
  | succ fuel ih =>
    rw [macroSubstituteLine]
    have hs : cstrAt ['a', NUL] 0 = some ['a'] := by decide
    have hw : sprintf ['a', NUL] (0 + 0) ([] : CStr) (0 + 0 + ([] : CStr).length)
        = some ['a', NUL] := by decide
    have hb : strstr ['a'] [] = some 0 := by decide
    simp only [hs, hb]
    rw [if_neg (by decide)]
    simp only [hw]
    simp only [List.length_nil, Nat.add_zero, Nat.sub_zero]
    rw [ih]

/-- C5: with `FOO` defined as `B`, the line `FOO FOO` (with its line terminator) is left as
`B FOO`: the call returns true and the second occurrence of the name is not replaced,
where the claim has `B B`. After the store the tail is taken at
`namePos + nameLen + valueLen`, which skips `nameLen` characters of the text that follows
the value. -/
theorem macroSubstituteLine_skips_next_occurrence (fuel : Nat) :
    substitutedLine (macroSubstituteLine (fuel + 3) (lineBuffer "FOO FOO\n".toList 16) 0 1
      [("FOO".toList, "B".toList)] 16 []) 0 = some (true, "B FOO\n".toList) := by
  rfl

/-- C6: with `FOO` defined as `xFOOy`, the line `a FOO b` (with its line terminator) is
left as `a xFOOyOyO`, where the claim has `a xFOOy b`, and the line `FOO FOO` as
`xFOOyOyOyO`: the call returns true, the value stands in place of the first occurrence,
and the text after it is lost. The `sprintf` that stores the value reads the rest of the
line from the place it is writing to, after the value has overwritten its beginning. -/
theorem macroSubstituteLine_self_reference_destroys_tail (fuel : Nat) :
    substitutedLine (macroSubstituteLine (fuel + 3) (lineBuffer "a FOO b\n".toList 32) 0 1
      [("FOO".toList, "xFOOy".toList)] 32 []) 0 = some (true, "a xFOOyOyO".toList)
    ∧ substitutedLine (macroSubstituteLine (fuel + 3) (lineBuffer "FOO FOO\n".toList 32) 0 1
      [("FOO".toList, "xFOOy".toList)] 32 []) 0 = some (true, "xFOOyOyOyO".toList) := by
  refine ⟨by rfl, by rfl⟩

/-- C7, as stated, fails: for a definition whose name and value are both empty the
recursion never ends. On the line `a` no amount of fuel lets the call return. -/
theorem macroSubstituteLine_empty_definition_diverges :
    ¬ ∃ fuel, (macroSubstituteLine fuel ['a', NUL] 0 1 [([], [])] 8 []).isSome := by
  rintro ⟨fuel, h⟩
  rw [macroSubstituteLine_loops fuel] at h
  exact absurd h (by decide)

/-- C7 (amended): when no definition has both an empty name and an empty value,
`macroSubstituteLine` halts on every buffer, line offset, set of definitions and
`maxLineLength`: some amount of fuel suffices, and every larger amount gives the same
outcome (a returned flag, or a fault where the source leaves its buffer). When no name
occurs in the line, it returns true after one pass over the definitions and leaves the
buffer and the error accumulator as they were. -/
theorem macroSubstituteLine_halts (buf : List Char) (line lineNum : Nat)
    (macros : MacroDefinition) (maxLineLength : Nat) (errorMsg : ErrorMsg)
    (hmacros : ∀ m ∈ macros, m.1 ≠ [] ∨ m.2 ≠ []) :
    (∃ n r, ∀ fuel, n ≤ fuel →
      macroSubstituteLine fuel buf line lineNum macros maxLineLength errorMsg = some r) ∧
    (∀ s, cstrAt buf line = some s → (∀ m ∈ macros, strstr s m.1 = none) →
      ∀ fuel, macros.length < fuel →
        macroSubstituteLine fuel buf line lineNum macros maxLineLength errorMsg
          = some (.ok (true, buf, errorMsg))) := by
  constructor
  · obtain ⟨n, r, h⟩ := macroSubstituteLine_halts_aux _ macros buf line lineNum maxLineLength
      errorMsg hmacros (le_refl _)
    exact ⟨n, r, fun fuel hf => macroSubstituteLine_fuel_mono n fuel _ _ _ _ _ _ _ h hf⟩
  · intro s hs
    clear hmacros
    induction macros with
    | nil =>
      intro _ fuel hf
      cases fuel with
      | zero => simp at hf
      | succ fuel => simp only [macroSubstituteLine]
    | cons m iter ih =>
      intro hno fuel hf
      obtain ⟨name, value⟩ := m
      cases fuel with
      | zero => simp at hf
      | succ fuel =>
        have h1 : strstr s name = none := hno (name, value) (List.mem_cons_self _ _)
        rw [macroSubstituteLine]
        simp only [hs, h1]
        exact ih (fun m hm => hno m (List.mem_cons_of_mem _ hm)) fuel
          (by simp only [List.length_cons] at hf; omega)

/-- C7 (amended), at instances: a definition whose value contains its own name halts on a
line with two occurrences of the name, and on the line `a b`, in which the name does not
occur, the call returns true and leaves the buffer as it was. -/
theorem macroSubstituteLine_halts_witness :
    (∃ n r, ∀ fuel, n ≤ fuel →
      macroSubstituteLine fuel (lineBuffer "a FOO b FOO\n".toList 32) 0 1
        [("FOO".toList, "xFOOy".toList)] 32 [] = some r)
    ∧ cstrAt (lineBuffer "a b\n".toList 32) 0 = some "a b\n".toList
    ∧ (∀ m ∈ [("FOO".toList, "xFOOy".toList)], strstr "a b\n".toList m.1 = none)
    ∧ (∀ fuel, [("FOO".toList, "xFOOy".toList)].length < fuel →
        macroSubstituteLine fuel (lineBuffer "a b\n".toList 32) 0 1
          [("FOO".toList, "xFOOy".toList)] 32 []
          = some (.ok (true, lineBuffer "a b\n".toList 32, []))) :=
  ⟨(macroSubstituteLine_halts (lineBuffer "a FOO b FOO\n".toList 32) 0 1
      [("FOO".toList, "xFOOy".toList)] 32 [] (by
        intro m hm
        rw [List.mem_singleton.mp hm]
        exact Or.inl (by decide))).1,
    by decide, by decide,
    (macroSubstituteLine_halts (lineBuffer "a b\n".toList 32) 0 1
      [("FOO".toList, "xFOOy".toList)] 32 [] (by
        intro m hm
        rw [List.mem_singleton.mp hm]
        exact Or.inl (by decide))).2 "a b\n".toList (by decide) (by decide)⟩

/-- C8: with `A` defined as `xA` and `maxLineLength` 6, the line `A1AB` makes the call
return true and leaves the line `xAAxAA`, of 6 characters, which is not shorter than
`maxLineLength`; in a buffer of exactly 6 bytes the store of its terminator leaves the
buffer. The nested call is given `maxLineLength - beforeLen - valueLen` for a tail that
starts `nameLen` characters after the text already counted. -/
theorem macroSubstituteLine_exceeds_maxLineLength (fuel : Nat) :
    substitutedLine (macroSubstituteLine (fuel + 4) (lineBuffer "A1AB".toList 8) 0 1
      [("A".toList, "xA".toList)] 6 []) 0 = some (true, "xAAxAA".toList)
    ∧ ¬ ("xAAxAA".toList.length < 6)
    ∧ macroSubstituteLine (fuel + 4) (lineBuffer "A1AB".toList 6) 0 1
      [("A".toList, "xA".toList)] 6 [] = some (.error .outOfBounds) := by
  refine ⟨by rfl, by decide, by rfl⟩

/-! ## The step bounds of the section loops suffice -/

theorem vecLoop_ne_stepBound (capacity : Nat) (store : Nat → CStr → IUFValue → IUFValue) :
    ∀ (tokens : List CStr) (result : Bool) (numberId : Nat) (output : IUFValue),
      vecLoop capacity store tokens result numberId output ≠ .error .stepBound := by
  intro tokens
  induction tokens with
  | nil => intro result numberId output h; simp [vecLoop] at h
  | cons number rest ih =>
    intro result numberId output
    simp only [vecLoop]
    split
    · exact ih _ _ _
    · intro h; simp at h

theorem setVector_ne_stepBound {S : Type} (E : Env S) (root : S) (obj : SubPtr) (lineNum : Nat)
    (memberName : CStr) (errorMsg : ErrorMsg) (parsed : Except Fault (Bool × IUFValue))
    (h : parsed ≠ .error .stepBound) :
    setVector E root obj lineNum memberName errorMsg parsed ≠ .error .stepBound := by
  unfold setVector
  split
  · next f =>
    intro hf
    simp only [Except.error.injEq] at hf
    subst hf
    exact h rfl
  · intro hf; simp at hf
  · intro hf; simp at hf

theorem parseArrayMember_ne_stepBound {S : Type} (E : Env S) (root : S) (obj : SubPtr)
    (lineNum : Nat) (memberName : CStr) (errorMsg : ErrorMsg)
    (parser : List Nat → Bool × List Nat) :
    parseArrayMember E root obj lineNum memberName errorMsg parser ≠ .error .stepBound := by
  unfold parseArrayMember
  simp only
  split
  · intro hf; simp at hf
  · intro hf; simp at hf

theorem parseIVec4_ne_stepBound (str : CStr) (output : IUFValue) :
    parseIVec4 str output ≠ .error .stepBound := by
  unfold parseIVec4
  simp only
  split
  · next f hv =>
    intro hf
    simp only [Except.error.injEq] at hf
    subst hf
    exact vecLoop_ne_stepBound _ _ _ _ _ _ hv
  · intro hf; simp at hf

theorem parseI64Vec2_ne_stepBound (str : CStr) (output : IUFValue) :
    parseI64Vec2 str output ≠ .error .stepBound := by
  unfold parseI64Vec2
  simp only
  split
  · next f hv =>
    intro hf
    simp only [Except.error.injEq] at hf
    subst hf
    exact vecLoop_ne_stepBound _ _ _ _ _ _ hv
  · intro hf; simp at hf

theorem parseBinding_ne_stepBound {S : Type} (E : Env S) (str : CStr) (output : IUFValue) :
    parseBinding E str output ≠ .error .stepBound := by
  unfold parseBinding
  simp only
  split
  · next f hv =>
    intro hf
    simp only [Except.error.injEq] at hf
    subst hf
    exact vecLoop_ne_stepBound _ _ _ _ _ _ hv
  · intro hf; simp at hf

theorem parseFVec4_ne_stepBound {S : Type} (E : Env S) (str : CStr) (output : IUFValue) :
    parseFVec4 E str output ≠ .error .stepBound := by
  unfold parseFVec4
  split
  · next f hv =>
    intro hf
    simp only [Except.error.injEq] at hf
    subst hf
    exact vecLoop_ne_stepBound _ _ _ _ _ _ hv
  · intro hf; simp at hf

theorem parseF16Vec4_ne_stepBound {S : Type} (E : Env S) (str : CStr) (output : IUFValue) :
    parseF16Vec4 E str output ≠ .error .stepBound := by
  unfold parseF16Vec4
  split
  · next f hv =>
    intro hf
    simp only [Except.error.injEq] at hf
    subst hf
    exact vecLoop_ne_stepBound _ _ _ _ _ _ hv
  · intro hf; simp at hf

theorem parseDVec2_ne_stepBound {S : Type} (E : Env S) (str : CStr) (output : IUFValue) :
    parseDVec2 E str output ≠ .error .stepBound := by
  unfold parseDVec2
  split
  · next f hv =>
    intro hf
    simp only [Except.error.injEq] at hf
    subst hf
    exact vecLoop_ne_stepBound _ _ _ _ _ _ hv
  · intro hf; simp at hf

theorem parseKeyLoop_ne_stepBound {S : Type} (E : Env S) (lineNum size : Nat) :
    ∀ (tokens : List CStr) (st : KeyState S),
      parseKeyLoop E lineNum size tokens st ≠ .error .stepBound := by
  intro tokens
  induction tokens with
  | nil => intro st h; simp [parseKeyLoop] at h
  | cons keyTok rest ih =>
    intro st
    simp only [parseKeyLoop]
    repeat' split
    all_goals first | exact ih _ | (intro h; simp at h)

theorem parseKey_ne_stepBound {S : Type} (E : Env S) (key : CStr) (lineNum : Nat)
    (sectionObjectIn : S) (size : Nat) (errorMsg : ErrorMsg) :
    parseKey E key lineNum sectionObjectIn size errorMsg ≠ .error .stepBound := by
  unfold parseKey
  split
  · split
    · intro h; simp at h
    · exact parseKeyLoop_ne_stepBound E _ _ _ _
  · intro h; simp at h

theorem parseKeyValue_ne_stepBound {S : Type} (E : Env S) (key valueStr : CStr) (lineNum : Nat)
    (sectionObject : S) (errorMsg : ErrorMsg) :
    parseKeyValue E key valueStr lineNum sectionObject errorMsg ≠ .error .stepBound := by
  unfold parseKeyValue
  split
  · next f hk =>
    intro hf
    simp only [Except.error.injEq] at hf
    subst hf
    exact parseKey_ne_stepBound E _ _ _ _ _ hk
  · next st hk =>
    split
    · intro h; simp at h
    · split
      · intro h; simp at h
      · next memberName hm =>
        simp only
        split
        · intro h; simp at h
        · split
          · split <;> intro h <;> simp at h
          · intro h; simp at h
          · intro h; simp at h
          · intro h; simp at h
          · intro h; simp at h
          · exact setVector_ne_stepBound E _ _ _ _ _ _ (parseIVec4_ne_stepBound _ _)
          · exact setVector_ne_stepBound E _ _ _ _ _ _ (parseI64Vec2_ne_stepBound _ _)
          · exact setVector_ne_stepBound E _ _ _ _ _ _ (parseBinding_ne_stepBound E _ _)
          · exact setVector_ne_stepBound E _ _ _ _ _ _ (parseFVec4_ne_stepBound E _ _)
          · exact setVector_ne_stepBound E _ _ _ _ _ _ (parseF16Vec4_ne_stepBound E _ _)
          · exact setVector_ne_stepBound E _ _ _ _ _ _ (parseDVec2_ne_stepBound E _ _)
          · exact parseArrayMember_ne_stepBound E _ _ _ _ _ _
          · exact parseArrayMember_ne_stepBound E _ _ _ _ _ _
          · exact parseArrayMember_ne_stepBound E _ _ _ _ _ _
          · exact parseArrayMember_ne_stepBound E _ _ _ _ _ _
          · exact parseArrayMember_ne_stepBound E _ _ _ _ _ _
          · exact parseArrayMember_ne_stepBound E _ _ _ _ _ _
          · exact parseArrayMember_ne_stepBound E _ _ _ _ _ _
          · intro h; simp at h
          · intro h; simp at h

theorem getline_measure (ss : StringStream) (n : Nat) (h : (ss.getline n).2.1 ≠ 0) :
    (if (ss.getline n).2.2.good then (ss.getline n).2.2.unread.length + 1 else 0)
      < (if ss.good then ss.unread.length + 1 else 0) := by
  unfold StringStream.getline at h ⊢
  cases hg : ss.good with
  | false => simp [hg] at h
  | true =>
    simp only [hg, ↓reduceIte] at h ⊢
    cases hd : List.drop (List.take (n - 1) (List.takeWhile (fun c => c != '\n') ss.unread)).length
        ss.unread with
    | nil => simp
    | cons c rest =>
      have hlen := congrArg List.length hd
      simp only [List.length_drop, List.length_cons] at hlen
      by_cases hc : c = '\n'
      · simp only [hc, ↓reduceIte]
        omega
      · simp [hc]

theorem parseSectionKeyValuesLoop_ne_stepBound {S : Type} (E : Env S) (ptr : SectionType × Nat) :
    ∀ (steps lineNum : Nat) (p : VfxParser S),
      (if p.m_currentSectionStringBuffer.good
        then p.m_currentSectionStringBuffer.unread.length + 1 else 0) < steps →
      parseSectionKeyValuesLoop E ptr steps lineNum p ≠ .error .stepBound := by
  intro steps
  induction steps with
  | zero => intro lineNum p h; omega
  | succ steps ih =>
    intro lineNum p hsteps
    simp only [parseSectionKeyValuesLoop]
    split
    · intro h; simp at h
    · split
      · intro h; simp at h
      · next hcount =>
        have hm := getline_measure p.m_currentSectionStringBuffer E.MaxLineBufSize hcount
        split
        · exact ih _ _ (Nat.lt_of_lt_of_le hm (Nat.le_of_lt_succ hsteps))
        · split
          · intro h; simp at h
          · split
            · intro h; simp at h
            · split
              · next f hkv =>
                intro hf
                simp only [Except.error.injEq] at hf
                subst hf
                exact parseKeyValue_ne_stepBound E _ _ _ _ _ hkv
              · exact ih _ _ (Nat.lt_of_lt_of_le hm (Nat.le_of_lt_succ hsteps))

theorem parseSectionShaderSourceLoop_ne_stepBound {S : Type} (E : Env S)
    (ptr : SectionType × Nat) :
    ∀ (steps : Nat) (p : VfxParser S),
      (if p.m_currentSectionStringBuffer.good
        then p.m_currentSectionStringBuffer.unread.length + 1 else 0) < steps →
      parseSectionShaderSourceLoop E ptr steps p ≠ .error .stepBound := by
  intro steps
  induction steps with
  | zero => intro p h; omega
  | succ steps ih =>
    intro p hsteps
    simp only [parseSectionShaderSourceLoop]
    split
    · intro h; simp at h
    · split
      · intro h; simp at h
      · next hcount =>
        have hm := getline_measure p.m_currentSectionStringBuffer E.MaxLineBufSize hcount
        split
        · intro h; simp at h
        · exact ih _ (Nat.lt_of_lt_of_le hm (Nat.le_of_lt_succ hsteps))

theorem parseSectionKeyValues_ne_stepBound {S : Type} (E : Env S) (p : VfxParser S) :
    parseSectionKeyValues E p ≠ .error .stepBound := by
  unfold parseSectionKeyValues
  split
  · intro h; simp at h
  · exact parseSectionKeyValuesLoop_ne_stepBound E _ _ _ _ (by split <;> omega)

theorem parseSectionShaderSource_ne_stepBound {S : Type} (E : Env S) (p : VfxParser S) :
    parseSectionShaderSource E p ≠ .error .stepBound := by
  unfold parseSectionShaderSource
  split
  · intro h; simp at h
  · exact parseSectionShaderSourceLoop_ne_stepBound E _ _ _ (by split <;> omega)

theorem endSection_ne_stepBound {S : Type} (E : Env S) (p : VfxParser S) :
    endSection E p ≠ .error .stepBound := by
  unfold endSection
  split
  · intro h; simp at h
  · split
    · intro h; simp at h
    · split
      · split
        · next f hs =>
          intro hf
          simp only [Except.error.injEq] at hf
          subst hf
          exact parseSectionShaderSource_ne_stepBound E p hs
        · intro h; simp at h
      · split
        · next f hs =>
          intro hf
          simp only [Except.error.injEq] at hf
          subst hf
          exact parseSectionKeyValues_ne_stepBound E p hs
        · intro h; simp at h
        · split
          · intro h; simp at h
          · split <;> intro h <;> simp at h

theorem getFreeSection_ne_stepBound {S : Type} (E : Env S) (doc : Document S)
    (sectionName : Option CStr) :
    doc.getFreeSection E sectionName ≠ .error .stepBound := by
  unfold Document.getFreeSection
  simp only
  split
  · intro h; simp at h
  · split <;> intro h <;> simp at h

theorem beginSection_ne_stepBound {S : Type} (E : Env S) (line : CStr) (p : VfxParser S) :
    beginSection E line p ≠ .error .stepBound := by
  unfold beginSection
  split
  · intro h; simp at h
  · split
    · intro h; simp at h
    · simp only
      split
      · next f hg =>
        intro hf
        simp only [Except.error.injEq] at hf
        subst hf
        exact getFreeSection_ne_stepBound E _ _ hg
      · intro h; simp at h
      · split <;> intro h <;> simp at h

theorem trimsComments_ne_stepBound {S : Type} (E : Env S) (p : VfxParser S) :
    trimsComments E p ≠ .error .stepBound := by
  unfold trimsComments
  split
  · intro h; simp at h
  · split <;> intro h <;> simp at h

/-- The step bounds of the section loops are never used up: `parseLine` does not end on
the bound of a loop of the embedding, whatever the environment, the line and the parser. -/
theorem parseLine_ne_stepBound {S : Type} (E : Env S) (line : CStr) (p : VfxParser S) :
    parseLine E line p ≠ .error .stepBound := by
  have key : ∀ line1 : CStr,
      (if line1.head? = some '[' then
        match endSection E { p with m_currentLineNum := p.m_currentLineNum + 1 } with
        | .error f => .error f
        | .ok (false, p2) => .ok (false, p2)
        | .ok (true, p2) => beginSection E line1 p2
      else
        (.ok (true, { p with
          m_currentLineNum := p.m_currentLineNum + 1
          m_currentSectionStringBuffer := p.m_currentSectionStringBuffer.insert line1 }) :
          Except Fault (Bool × VfxParser S))) ≠ .error .stepBound := by
    intro line1
    split
    · cases hs : endSection E { p with m_currentLineNum := p.m_currentLineNum + 1 } with
      | error f =>
        intro hf
        simp only [Except.error.injEq] at hf
        subst hf
        exact endSection_ne_stepBound E _ hs
      | ok r =>
        obtain ⟨b, p2⟩ := r
        cases b
        · intro h; simp at h
        · exact beginSection_ne_stepBound E _ _
    · intro h; simp at h
  unfold parseLine
  simp only
  cases ht : trimsComments E { p with m_currentLineNum := p.m_currentLineNum + 1 } with
  | error f =>
    intro hf
    simp only [Except.error.injEq] at hf
    subst hf
    exact trimsComments_ne_stepBound E _ ht
  | ok trim => exact key _

/-! ## The current-section pointer stays valid -/

theorem sectionAt_setSectionAt {S : Type} (doc : Document S) (ptr : SectionType × Nat) (s : S)
    (h : (doc.sectionAt ptr).isSome) : (doc.setSectionAt ptr s).sectionAt ptr = some s := by
  unfold Document.sectionAt at h ⊢
  unfold Document.setSectionAt
  simp only
  have h1 : ptr.1 < doc.m_sections.length := by
    by_contra hlt
    rw [List.getD_eq_default _ _ (Nat.le_of_not_lt hlt)] at h
    simp at h
  have h2 : ptr.2 < (doc.m_sections.getD ptr.1 []).length := by
    by_contra hlt
    rw [List.getElem?_eq_none (Nat.le_of_not_lt hlt)] at h
    simp at h
  rw [List.getD_eq_getElem _ _ (by rw [List.length_set]; exact h1)]
  simp only [List.getElem_set_self]
  rw [List.getElem?_eq_getElem (by rw [List.length_set]; exact h2)]
  simp only [List.getElem_set_self]

theorem parseSectionKeyValuesLoop_pointer {S : Type} (E : Env S) (ptr : SectionType × Nat) :
    ∀ (steps lineNum : Nat) (p : VfxParser S) (b : Bool) (p1 : VfxParser S),
      parseSectionKeyValuesLoop E ptr steps lineNum p = .ok (b, p1) →
      (p.m_vfxDoc.sectionAt ptr).isSome →
      p1.m_currentSection = p.m_currentSection ∧ (p1.m_vfxDoc.sectionAt ptr).isSome := by
  intro steps
  induction steps with
  | zero => intro lineNum p b p1 h; simp [parseSectionKeyValuesLoop] at h
  | succ steps ih =>
    intro lineNum p b p1 h hv
    simp only [parseSectionKeyValuesLoop] at h
    split at h
    · simp at h
    · split at h
      · simp only [Except.ok.injEq, Prod.mk.injEq] at h
        obtain ⟨_, h2⟩ := h
        subst h2
        exact ⟨rfl, hv⟩
      · split at h
        · have hres := ih _ _ _ _ h hv
          exact hres
        · split at h
          · simp only [Except.ok.injEq, Prod.mk.injEq] at h
            obtain ⟨_, h2⟩ := h
            subst h2
            exact ⟨rfl, hv⟩
          · split at h
            · simp at h
            · split at h
              · simp at h
              · next sectionObject1 errorMsg2 hkv =>
                have hs := sectionAt_setSectionAt p.m_vfxDoc ptr sectionObject1 hv
                have hres := ih _ _ _ _ h (by
                  unfold Document.sectionAt at hs ⊢
                  simp only at hs ⊢
                  rw [hs]
                  rfl)
                exact hres

theorem parseSectionShaderSourceLoop_pointer {S : Type} (E : Env S) (ptr : SectionType × Nat) :
    ∀ (steps : Nat) (p p1 : VfxParser S),
      parseSectionShaderSourceLoop E ptr steps p = .ok p1 →
      (p.m_vfxDoc.sectionAt ptr).isSome →
      p1.m_currentSection = p.m_currentSection ∧ (p1.m_vfxDoc.sectionAt ptr).isSome := by
  intro steps
  induction steps with
  | zero => intro p p1 h; simp [parseSectionShaderSourceLoop] at h
  | succ steps ih =>
    intro p p1 h hv
    simp only [parseSectionShaderSourceLoop] at h
    split at h
    · simp at h
    · split at h
      · simp only [Except.ok.injEq] at h
        subst h
        exact ⟨rfl, hv⟩
      · split at h
        · simp at h
        · next sectionObject hs0 =>
          have hs := sectionAt_setSectionAt p.m_vfxDoc ptr
            (E.addLine sectionObject
              (List.takeWhile (fun c => c != NUL)
                ((List.set ((p.m_currentSectionStringBuffer.getline E.MaxLineBufSize).1 ++ [NUL, NUL])
                      ((p.m_currentSectionStringBuffer.getline E.MaxLineBufSize).2.1 - 1) '\n').set
                  (p.m_currentSectionStringBuffer.getline E.MaxLineBufSize).2.1 NUL))) hv
          have hres := ih _ _ h (by rw [hs]; rfl)
          exact hres

theorem validPointer_create {S : Type} (doc : Document S) : ValidPointer (VfxParser.create doc) := by
  intro ptr h
  simp [VfxParser.create] at h

theorem endSection_pointer {S : Type} (E : Env S) (p p1 : VfxParser S) (b : Bool)
    (h : endSection E p = .ok (b, p1)) (hv : ValidPointer p) :
    p1.m_currentSection = p.m_currentSection ∧ ValidPointer p1 := by
  unfold endSection at h
  cases hc : p.m_currentSection with
  | none =>
    simp only [hc, Except.ok.injEq, Prod.mk.injEq] at h
    obtain ⟨_, h2⟩ := h
    subst h2
    exact ⟨hc.symm ▸ rfl, hv⟩
  | some ptr =>
    have hsome := hv ptr hc
    simp only [hc] at h
    have key : ∀ q : VfxParser S, q.m_currentSection = p.m_currentSection →
        (q.m_vfxDoc.sectionAt ptr).isSome → ValidPointer q := by
      intro q hq hs ptr1 h1
      rw [hq, hc] at h1
      cases h1
      exact hs
    split at h
    · simp at h
    · split at h
      · cases hs : parseSectionShaderSource E p with
        | error f => simp [hs] at h
        | ok p2 =>
          simp only [hs, Except.ok.injEq, Prod.mk.injEq] at h
          obtain ⟨_, h2⟩ := h
          subst h2
          unfold parseSectionShaderSource at hs
          simp only [hc] at hs
          obtain ⟨h3, h4⟩ := parseSectionShaderSourceLoop_pointer E ptr _ _ _ hs hsome
          exact ⟨h3.trans hc, key _ h3 h4⟩
      · cases hs : parseSectionKeyValues E p with
        | error f => simp [hs] at h
        | ok r =>
          obtain ⟨b2, p2⟩ := r
          unfold parseSectionKeyValues at hs
          simp only [hc] at hs
          obtain ⟨h3, h4⟩ := parseSectionKeyValuesLoop_pointer E ptr _ _ _ _ _ hs hsome
          have hs2 : parseSectionKeyValues E p = .ok (b2, p2) := by
            unfold parseSectionKeyValues
            simp only [hc]
            exact hs
          rw [hs2] at h
          cases b2
          · simp only [Except.ok.injEq, Prod.mk.injEq] at h
            obtain ⟨_, h2⟩ := h
            subst h2
            exact ⟨h3.trans hc, key _ h3 h4⟩
          · simp only at h
            split at h
            · simp at h
            · split at h
              · simp only [Except.ok.injEq, Prod.mk.injEq] at h
                obtain ⟨_, h2⟩ := h
                subst h2
                exact ⟨h3.trans hc, key _ h3 h4⟩
              · simp only [Except.ok.injEq, Prod.mk.injEq] at h
                obtain ⟨_, h2⟩ := h
                subst h2
                exact ⟨h3.trans hc, key _ h3 h4⟩

theorem beginSection_pointer {S : Type} (E : Env S) (line : CStr) (p p1 : VfxParser S) (b : Bool)
    (h : beginSection E line p = .ok (b, p1)) (hv : ValidPointer p) : ValidPointer p1 := by
  unfold beginSection at h
  split at h
  · simp at h
  · split at h
    · simp only [Except.ok.injEq, Prod.mk.injEq] at h
      obtain ⟨_, h2⟩ := h
      subst h2
      exact hv
    · simp only at h
      split at h
      · simp at h
      · simp only [Except.ok.injEq, Prod.mk.injEq] at h
        obtain ⟨_, h2⟩ := h
        subst h2
        intro ptr hp
        simp at hp
      · next ptr doc1 hg =>
        split at h
        · simp at h
        · next currentSection hs =>
          simp only [Except.ok.injEq, Prod.mk.injEq] at h
          obtain ⟨_, h2⟩ := h
          subst h2
          intro ptr1 hp
          simp only [Option.some.injEq] at hp
          subst hp
          show (Document.sectionAt _ ptr).isSome
          rw [sectionAt_setSectionAt doc1 ptr _ (by rw [hs]; rfl)]
          rfl

/-- The current-section pointer of a parser stays valid: it is null in a parser as
constructed, and `parseLine` keeps it null or pointing to a section of the document. -/
theorem parseLine_pointer {S : Type} (E : Env S) (line : CStr) (p p1 : VfxParser S) (b : Bool)
    (h : parseLine E line p = .ok (b, p1)) (hv : ValidPointer p) : ValidPointer p1 := by
  have hv1 : ValidPointer { p with m_currentLineNum := p.m_currentLineNum + 1 } := hv
  have key : ∀ line1 : CStr,
      (if line1.head? = some '[' then
        match endSection E { p with m_currentLineNum := p.m_currentLineNum + 1 } with
        | .error f => .error f
        | .ok (false, p2) => .ok (false, p2)
        | .ok (true, p2) => beginSection E line1 p2
      else
        (.ok (true, { p with
          m_currentLineNum := p.m_currentLineNum + 1
          m_currentSectionStringBuffer := p.m_currentSectionStringBuffer.insert line1 }) :
          Except Fault (Bool × VfxParser S))) = .ok (b, p1) → ValidPointer p1 := by
    intro line1 hk
    split at hk
    · cases hs : endSection E { p with m_currentLineNum := p.m_currentLineNum + 1 } with
      | error f => simp [hs] at hk
      | ok r =>
        obtain ⟨b2, p2⟩ := r
        obtain ⟨_, hv2⟩ := endSection_pointer E _ _ _ hs hv1
        rw [hs] at hk
        cases b2
        · simp only [Except.ok.injEq, Prod.mk.injEq] at hk
          obtain ⟨_, h2⟩ := hk
          subst h2
          exact hv2
        · exact beginSection_pointer E _ _ _ _ hk hv2
    · simp only [Except.ok.injEq, Prod.mk.injEq] at hk
      obtain ⟨_, h2⟩ := hk
      subst h2
      exact hv
  unfold parseLine at h
  simp only at h
  cases ht : trimsComments E { p with m_currentLineNum := p.m_currentLineNum + 1 } with
  | error f => simp [ht] at h
  | ok trim =>
    simp only [ht] at h
    exact key _ h

/-! ## The parser: properties -/

theorem takeWhile_ne_append_stop (a b : CStr) (c : Char) (ha : c ∉ a) :
    (a ++ c :: b).takeWhile (fun x => x != c) = a := by
  apply takeWhile_append_stop
  · simp
  · intro x hx
    simp only [bne_iff_ne, ne_eq]
    intro hxc
    exact ha (hxc ▸ hx)

theorem cstrAt_writeAt_zero (buf buf1 : List Char) (line : CStr)
    (hw : writeAt buf 0 (line ++ [NUL]) = some buf1) (hnul : NUL ∉ line) :
    cstrAt buf1 0 = some line := by
  unfold writeAt at hw
  split at hw
  · simp only [List.take_zero, List.nil_append, Option.some.injEq] at hw
    subst hw
    unfold cstrAt
    simp only [List.drop_zero, List.append_assoc, List.singleton_append]
    rw [if_pos (by simp), takeWhile_ne_append_stop line _ NUL hnul]
  · simp at hw

theorem parseLinesThenEnd_cons {S : Type} (E : Env S) (line : CStr) (rest : List CStr)
    (p : VfxParser S) :
    parseLinesThenEnd E (line :: rest) p =
      match parseLine E line p with
      | .error f => .error f
      | .ok (false, p1) => .ok (false, p1)
      | .ok (true, p1) => parseLinesThenEnd E rest p1 := by
  unfold parseLinesThenEnd
  simp only [parseLines]
  cases h : parseLine E line p with
  | error f => rfl
  | ok r =>
    obtain ⟨b, p1⟩ := r
    cases b <;> rfl

theorem parseLoop_without_definitions {S : Type} (E : Env S) :
    ∀ (lines : List CStr) (file : CStr) (lineBuf : List Char) (p : VfxParser S) (fuel : Nat),
      fgetsSplit E.MaxLineBufSize file lines = true →
      (∀ l ∈ lines, NUL ∉ l ∧ l.length < lineBuf.length) →
      parseLoop E [] (fuel + lines.length + 1) file lineBuf p
        = some (parseLinesThenEnd E lines p) := by
  intro lines
  induction lines with
  | nil =>
    intro file lineBuf p fuel hsplit _
    simp only [fgetsSplit, beq_iff_eq] at hsplit
    simp only [List.length_nil, Nat.add_zero, parseLoop, hsplit, parseLinesThenEnd, parseLines]
  | cons line rest ih =>
    intro file lineBuf p fuel hsplit hfit
    simp only [fgetsSplit] at hsplit
    cases hf : fgets E.MaxLineBufSize file with
    | none => simp [hf] at hsplit
    | some r =>
      obtain ⟨line1, file1⟩ := r
      simp only [hf, Bool.and_eq_true, beq_iff_eq] at hsplit
      obtain ⟨hl, hrest⟩ := hsplit
      subst hl
      obtain ⟨hnul, hlen⟩ := hfit line1 (List.mem_cons_self _ _)
      have hfit1 : line1.length + 1 ≤ lineBuf.length := hlen
      cases hw : writeAt lineBuf 0 (line1 ++ [NUL]) with
      | none =>
        unfold writeAt at hw
        rw [if_pos (by simp only [List.length_append, List.length_singleton]; omega)] at hw
        simp at hw
      | some lineBuf1 =>
        have hlen1 : lineBuf1.length = lineBuf.length := writeAt_length _ _ _ _ hw
        have hc := cstrAt_writeAt_zero lineBuf lineBuf1 line1 hw hnul
        have hfuel : fuel + (line1 :: rest).length + 1 = (fuel + rest.length + 1) + 1 := by
          simp only [List.length_cons]; omega
        rw [hfuel, parseLoop]
        simp only [hf, hw]
        have hm : macroSubstituteLine (fuel + rest.length + 1) lineBuf1 0 (p.m_currentLineNum + 1)
            [] E.MaxLineBufSize p.m_vfxDoc.m_errorMsg
            = some (.ok (true, lineBuf1, p.m_vfxDoc.m_errorMsg)) := by
          simp only [macroSubstituteLine]
        rw [hm]
        simp only [hc]
        rw [parseLinesThenEnd_cons]
        cases hp : parseLine E line1 p with
        | error f => rfl
        | ok r =>
          obtain ⟨b, p1⟩ := r
          cases b
          · rfl
          · simp only
            exact ih file1 lineBuf1 p1 fuel hrest
              (fun l hl => by
                obtain ⟨h1, h2⟩ := hfit l (List.mem_cons_of_mem _ hl)
                exact ⟨h1, by omega⟩)

/-- C1: the loop of `parse` on the file `[Version]`, `version = 1`, `[VertexShader]`,
`void main()` with an empty body (each line with its terminator), without definitions to
substitute, for the schema `sampleSchema`: for every line buffer that holds the longest
line and its terminator, and enough fuel, every `parseLine` and the final `endSection`
return true; the document then holds one `Version` section whose field `version` was
assigned the integer 1 (read back as 1 by `getSubState`) and one `VertexShader` section
whose text is the body line with its line terminator. -/
theorem parse_two_section_file (fuel : Nat) (lineBuf : List Char) (hbuf : 15 < lineBuf.length) :
    parseLoop sampleEnv [] (fuel + 5)
        "[Version]\nversion = 1\n[VertexShader]\nvoid main()\x7b\x7d\n".toList lineBuf
        (VfxParser.create (Document.create sampleEnv))
      = some (.ok (true,
          { m_vfxDoc :=
              { m_sections :=
                  [[], [⟨sampleInfo (some "Version".toList), 1,
                          [("version".toList, .int 1)], []⟩],
                   [], [⟨sampleInfo (some "VertexShader".toList), 3, [],
                          "void main()\x7b\x7d\n".toList⟩],
                   [], []]
                m_sectionList := [(1, 0), (3, 0)]
                m_errorMsg := []
                m_fileName := [] }
            m_isValidVfxFile := false
            m_currentSection := some (3, 0)
            m_currentLineNum := 4
            m_currentSectionLineNum := 4
            m_currentSectionStringBuffer := ⟨[], false⟩ }))
    ∧ sampleEnv.getSubState
        ⟨sampleInfo (some "Version".toList), 1, [("version".toList, .int 1)], []⟩ = 1 := by
  refine ⟨?_, by decide⟩
  have h := parseLoop_without_definitions sampleEnv
    ["[Version]\n".toList, "version = 1\n".toList, "[VertexShader]\n".toList,
      "void main()\x7b\x7d\n".toList]
    "[Version]\nversion = 1\n[VertexShader]\nvoid main()\x7b\x7d\n".toList lineBuf
    (VfxParser.create (Document.create sampleEnv)) fuel (by decide)
    (by
      intro l hl
      simp only [List.mem_cons, List.mem_singleton, List.not_mem_nil, or_false] at hl
      rcases hl with h | h | h | h <;> subst h <;> refine ⟨by decide, ?_⟩ <;>
        simp only [String.toList, List.length_cons, List.length_nil] <;> omega)
  simp only [List.length_cons, List.length_nil] at h
  rw [h]
  decide

/-- C1, at an instance: a zero-filled line buffer of `MaxLineBufSize` bytes. -/
theorem parse_two_section_file_witness :
    parseLoop sampleEnv [] (0 + 5)
        "[Version]\nversion = 1\n[VertexShader]\nvoid main()\x7b\x7d\n".toList
        (List.replicate sampleEnv.MaxLineBufSize NUL)
        (VfxParser.create (Document.create sampleEnv))
      = some (.ok (true,
          { m_vfxDoc :=
              { m_sections :=
                  [[], [⟨sampleInfo (some "Version".toList), 1,
                          [("version".toList, .int 1)], []⟩],
                   [], [⟨sampleInfo (some "VertexShader".toList), 3, [],
                          "void main()\x7b\x7d\n".toList⟩],
                   [], []]
                m_sectionList := [(1, 0), (3, 0)]
                m_errorMsg := []
                m_fileName := [] }
            m_isValidVfxFile := false
            m_currentSection := some (3, 0)
            m_currentLineNum := 4
            m_currentSectionLineNum := 4
            m_currentSectionStringBuffer := ⟨[], false⟩ }))
    ∧ sampleEnv.getSubState
        ⟨sampleInfo (some "Version".toList), 1, [("version".toList, .int 1)], []⟩ = 1 :=
  parse_two_section_file 0 (List.replicate sampleEnv.MaxLineBufSize NUL) (by
    rw [List.length_replicate]
    decide)

theorem strchr_cut_eq_beforeComment (line : CStr) :
    (match strchr line ';' with
      | some comments => line.take comments
      | none => line) = beforeComment line := by
  induction line with
  | nil => rfl
  | cons x xs ih =>
    unfold beforeComment at ih ⊢
    simp only [strchr, List.takeWhile_cons]
    by_cases hx : x = ';'
    · simp [hx]
    · simp only [hx, ↓reduceIte, bne_iff_ne, ne_eq, not_false_eq_true, decide_True]
      cases hs : strchr xs ';' with
      | none =>
        simp only [hs] at ih
        simp only [Option.map_none']
        rw [← ih]
      | some i =>
        simp only [hs] at ih
        simp only [Option.map_some', List.take_succ_cons]
        rw [ih]

theorem strchr_beforeComment (line : CStr) : strchr (beforeComment line) ';' = none := by
  induction line with
  | nil => rfl
  | cons x xs ih =>
    unfold beforeComment at ih ⊢
    simp only [List.takeWhile_cons]
    by_cases hx : x = ';'
    · simp [hx, strchr]
    · simp [hx, strchr, ih]

theorem beforeComment_idem (line : CStr) : beforeComment (beforeComment line) = beforeComment line := by
  have h := strchr_cut_eq_beforeComment (beforeComment line)
  rw [strchr_beforeComment] at h
  exact h.symm

theorem parseLine_trimmed {S : Type} (E : Env S) (p : VfxParser S) (line : CStr)
    (h : trimsComments E { p with m_currentLineNum := p.m_currentLineNum + 1 } = .ok true) :
    parseLine E line p =
      if (beforeComment line).head? = some '[' then
        match endSection E { p with m_currentLineNum := p.m_currentLineNum + 1 } with
        | .error f => .error f
        | .ok (false, p2) => .ok (false, p2)
        | .ok (true, p2) => beginSection E (beforeComment line) p2
      else
        .ok (true, { p with
          m_currentLineNum := p.m_currentLineNum + 1
          m_currentSectionStringBuffer :=
            p.m_currentSectionStringBuffer.insert (beforeComment line) }) := by
  unfold parseLine
  simp only [h, ↓reduceIte, strchr_cut_eq_beforeComment]

theorem parseLine_untrimmed {S : Type} (E : Env S) (p : VfxParser S) (line : CStr)
    (h : trimsComments E { p with m_currentLineNum := p.m_currentLineNum + 1 } = .ok false)
    (hline : line.head? ≠ some '[') :
    parseLine E line p =
      .ok (true, { p with
        m_currentLineNum := p.m_currentLineNum + 1
        m_currentSectionStringBuffer := p.m_currentSectionStringBuffer.insert line }) := by
  unfold parseLine
  simp only [h, Bool.false_eq_true, ↓reduceIte, hline]

theorem trimsComments_of_not_inShaderSource {S : Type} (E : Env S) (p : VfxParser S)
    (hwf : ValidPointer p) (h : ¬ inShaderSource E p) :
    trimsComments E { p with m_currentLineNum := p.m_currentLineNum + 1 } = .ok true := by
  unfold trimsComments
  cases hc : p.m_currentSection with
  | none => rfl
  | some ptr =>
    simp only
    cases hs : p.m_vfxDoc.sectionAt ptr with
    | none =>
      have := hwf ptr hc
      rw [hs] at this
      simp at this
    | some s =>
      simp only
      cases hb : E.isShaderSourceSection s with
      | false => rfl
      | true => exact absurd ⟨ptr, s, hc, hs, hb⟩ h

theorem trimsComments_of_inShaderSource {S : Type} (E : Env S) (p : VfxParser S)
    (h : inShaderSource E p) :
    trimsComments E { p with m_currentLineNum := p.m_currentLineNum + 1 } = .ok false := by
  obtain ⟨ptr, s, hc, hs, hb⟩ := h
  unfold trimsComments
  simp only [hc, hs, hb, Bool.not_true]

/-- C9: on a parser whose current-section pointer is valid (null, or pointing to a section
of the document, as `parseLine` keeps it), `parseLine` cuts the line immediately before its first `;` exactly when the
current section is not a shader-source section, no open section included. Outside a
shader-source section the call does what it does on the cut line, and a cut line that is not
a header is appended to the section buffer as cut; inside a shader-source section a line
that is not a header is appended exactly as read, a `;` and the text after it included. -/
theorem parseLine_comment_scope {S : Type} (E : Env S) (p : VfxParser S) (line : CStr)
    (hwf : ValidPointer p) :
    (¬ inShaderSource E p →
      parseLine E line p = parseLine E (beforeComment line) p ∧
      ((beforeComment line).head? ≠ some '[' →
        parseLine E line p = .ok (true, { p with
          m_currentLineNum := p.m_currentLineNum + 1
          m_currentSectionStringBuffer :=
            p.m_currentSectionStringBuffer.insert (beforeComment line) }))) ∧
    (inShaderSource E p → line.head? ≠ some '[' →
      parseLine E line p = .ok (true, { p with
        m_currentLineNum := p.m_currentLineNum + 1
        m_currentSectionStringBuffer := p.m_currentSectionStringBuffer.insert line })) := by
  constructor
  · intro hns
    have ht := trimsComments_of_not_inShaderSource E p hwf hns
    constructor
    · rw [parseLine_trimmed E p line ht, parseLine_trimmed E p (beforeComment line) ht,
        beforeComment_idem]
    · intro hh
      rw [parseLine_trimmed E p line ht, if_neg hh]
  · intro hs hh
    exact parseLine_untrimmed E p line (trimsComments_of_inShaderSource E p hs) hh

theorem inVertexShader_reached :
    parseLines sampleEnv ["[VertexShader]\n".toList] (VfxParser.create (Document.create sampleEnv))
      = .ok (true, inVertexShader) := by
  decide

theorem inSample_reached :
    parseLines sampleEnv ["[Sample]\n".toList] (VfxParser.create (Document.create sampleEnv))
      = .ok (true, inSample) := by
  decide

/-- C9, at an instance: the line `x = 1; y` inside the `VertexShader` section, which keeps
it whole, and inside the `Sample` section, which keeps `x = 1`. -/
theorem parseLine_comment_scope_witness :
    parseLine sampleEnv "x = 1; y\n".toList inVertexShader
      = .ok (true, { inVertexShader with
          m_currentLineNum := 2
          m_currentSectionStringBuffer := ⟨"x = 1; y\n".toList, true⟩ })
    ∧ parseLine sampleEnv "x = 1; y\n".toList inSample
      = .ok (true, { inSample with
          m_currentLineNum := 2
          m_currentSectionStringBuffer := ⟨"x = 1".toList, true⟩ }) := by
  have hv : inShaderSource sampleEnv inVertexShader :=
    ⟨(3, 0), ⟨sampleInfo (some "VertexShader".toList), 1, [], []⟩, rfl, by decide, by decide⟩
  have hs : ¬ inShaderSource sampleEnv inSample := by
    rintro ⟨ptr, s, h1, h2, h3⟩
    have hp : ptr = (5, 0) := by
      have : some (5, 0) = some ptr := h1
      exact (Option.some.inj this).symm
    subst hp
    have hs2 : s = ⟨sampleInfo (some "Sample".toList), 1, [], []⟩ := by
      have : some (⟨sampleInfo (some "Sample".toList), 1, [], []⟩ : SectionObj) = some s := h2
      exact (Option.some.inj this).symm
    subst hs2
    exact absurd h3 (by decide)
  have hwfv : ValidPointer inVertexShader := by
    intro ptr h
    have hp : ptr = (3, 0) := (Option.some.inj h).symm
    subst hp
    decide
  have hwfs : ValidPointer inSample := by
    intro ptr h
    have hp : ptr = (5, 0) := (Option.some.inj h).symm
    subst hp
    decide
  exact ⟨(parseLine_comment_scope sampleEnv inVertexShader "x = 1; y\n".toList hwfv).2 hv
      (by decide),
    ((parseLine_comment_scope sampleEnv inSample "x = 1; y\n".toList hwfs).1 hs).2 (by decide)⟩

/-- C2: in the key-value section `Sample`, the body `a = 1 ; note` / `b = 2` dispatches the
single pair (`a`, `1 b = 2`) when the section closes, and the same body with the comment
deleted dispatches (`a`, `1`) and then (`b`, `2`): the cut that removes the comment removes
the line terminator with it, so the next line is read as part of this one. -/
theorem comment_swallows_line_terminator :
    (parseLinesThenEnd sampleEnv ["a = 1 ; note\n".toList, "b = 2\n".toList] inSample).map
        (fun r => (r.1, (r.2.m_vfxDoc.m_sections.getD 5 []).map (fun s => s.fields)))
      = .ok (true, [[("a".toList, .string "1 b = 2".toList)]])
    ∧ (parseLinesThenEnd sampleEnv ["a = 1 \n".toList, "b = 2\n".toList] inSample).map
        (fun r => (r.1, (r.2.m_vfxDoc.m_sections.getD 5 []).map (fun s => s.fields)))
      = .ok (true, [[("a".toList, .string "1".toList), ("b".toList, .string "2".toList)]]) := by
  constructor <;> decide

/-- C3: in the section `Sample`, `parseKeyValue` returns false for the key `zzz`, which the
section does not have, and for the enum name `BOGUS`, which the table does not have; yet
on the body `zzz = 1` / `mode = BOGUS` / `n = 2` the section closes with the result true,
the later line `n = 2` is processed (the field `n` is assigned 2), and the two diagnostics
stay in the error accumulator: the result of `parseKeyValue` is not used. -/
theorem unknown_identifier_does_not_abort :
    (parseKeyValue sampleEnv "zzz".toList "1".toList 2
        ⟨sampleInfo (some "Sample".toList), 1, [], []⟩ []).map (fun r => r.1) = .ok false
    ∧ (parseKeyValue sampleEnv "mode".toList "BOGUS".toList 3
        ⟨sampleInfo (some "Sample".toList), 1, [], []⟩ []).map (fun r => r.1) = .ok false
    ∧ (parseLinesThenEnd sampleEnv
          ["zzz = 1\n".toList, "mode = BOGUS\n".toList, "n = 2\n".toList] inSample).map
        (fun r => (r.1, (r.2.m_vfxDoc.m_sections.getD 5 []).map (fun s => s.fields),
          r.2.m_vfxDoc.m_errorMsg))
      = .ok (true, [[("n".toList, .int 2)]],
          [⟨2, "Invalid member name: zzz".toList⟩, ⟨3, "unknow enum".toList⟩]) := by
  refine ⟨by decide, by decide, by rfl⟩

/-- C4, as stated, fails: for the schema `sampleSchema`, in which `Sample` has at most two
instances, the third header `[Sample]` makes `beginSection` return true, as does the header
`[Bogus]` of a name outside the schema; each leaves no section open, and no diagnostic
is recorded. -/
theorem beginSection_third_instance_returns_true :
    ((parseLines sampleEnv ["[Sample]\n".toList, "[Sample]\n".toList]
        (VfxParser.create (Document.create sampleEnv))).bind
      (fun r => beginSection sampleEnv "[Sample]\n".toList r.2)).map
        (fun r => (r.1, r.2.m_currentSection, r.2.m_vfxDoc.m_errorMsg,
          (r.2.m_vfxDoc.m_sections.getD 5 []).length))
      = .ok (true, none, [], 2)
    ∧ (beginSection sampleEnv "[Bogus]\n".toList
        (VfxParser.create (Document.create sampleEnv))).map
        (fun r => (r.1, r.2.m_currentSection, r.2.m_vfxDoc.m_errorMsg))
      = .ok (true, none, []) := by
  constructor <;> decide

/-- C4 (amended): when a `[Name]` header names a section type whose vector already holds as
many sections as the type allows (a name that yields no section has a type that allows
none), `beginSection` returns true and records no diagnostic: it creates no section,
leaves the document as it was and sets the current section to null. The `endSection` that
follows then does nothing and returns true, and a following line whose text before `;` is
not a header is appended to the section buffer and reaches no section. -/
theorem beginSection_without_free_section {S : Type} (E : Env S) (p : VfxParser S)
    (line : CStr) (bracketBack : Nat) (sectionName : Option CStr) (bucket : List S)
    (hhead : line.head? = some '[')
    (hbracket : strchr line ']' = some bracketBack)
    (hname : (strtok ((line.take bracketBack).drop 1) [',']).head? = sectionName)
    (hbucket : p.m_vfxDoc.m_sections[E.getSectionType sectionName]? = some bucket)
    (hcap : E.getMaxSectionCount (E.getSectionType sectionName) ≤ bucket.length) :
    beginSection E line p = .ok (true, { p with m_currentSection := none })
    ∧ endSection E { p with m_currentSection := none }
        = .ok (true, { p with m_currentSection := none })
    ∧ ∀ next : CStr, (beforeComment next).head? ≠ some '[' →
        parseLine E next { p with m_currentSection := none }
          = .ok (true, { p with
              m_currentSection := none
              m_currentLineNum := p.m_currentLineNum + 1
              m_currentSectionStringBuffer :=
                p.m_currentSectionStringBuffer.insert (beforeComment next) }) := by
  refine ⟨?_, ?_, ?_⟩
  · unfold beginSection
    simp only [hhead, ne_eq, not_true_eq_false, ↓reduceIte, hbracket, hname,
      Document.getFreeSection, hbucket]
    rw [if_neg (by omega)]
  · simp only [endSection]
  · intro next hnext
    rw [parseLine_trimmed E _ next (by simp only [trimsComments]), if_neg hnext]

/-- C4 (amended), at an instance: the third header `[Sample]` of the schema
`sampleSchema`, after two sections of the type. -/
theorem beginSection_without_free_section_witness :
    beginSection sampleEnv "[Sample]\n".toList
        { inSample with m_vfxDoc := { inSample.m_vfxDoc with
            m_sections := [[], [], [], [], [],
              [⟨sampleInfo (some "Sample".toList), 1, [], []⟩,
               ⟨sampleInfo (some "Sample".toList), 2, [], []⟩]] } }
      = .ok (true,
        { inSample with
          m_vfxDoc := { inSample.m_vfxDoc with
            m_sections := [[], [], [], [], [],
              [⟨sampleInfo (some "Sample".toList), 1, [], []⟩,
               ⟨sampleInfo (some "Sample".toList), 2, [], []⟩]] }
          m_currentSection := none }) :=
  (beginSection_without_free_section sampleEnv
    { inSample with m_vfxDoc := { inSample.m_vfxDoc with
        m_sections := [[], [], [], [], [],
          [⟨sampleInfo (some "Sample".toList), 1, [], []⟩,
           ⟨sampleInfo (some "Sample".toList), 2, [], []⟩]] } }
    "[Sample]\n".toList 7 (some "Sample".toList)
    [⟨sampleInfo (some "Sample".toList), 1, [], []⟩,
     ⟨sampleInfo (some "Sample".toList), 2, [], []⟩]
    (by decide) (by decide) (by decide) (by decide) (by decide)).1

/-! ## Integer literals: properties -/

/-- Reading a digit character gives the digit back, and a digit character is neither
whitespace, nor a sign, nor the letter of the hexadecimal mark. -/
theorem digitChar_facts : ∀ d, d < 16 →
    digitValue (Nat.digitChar d) = some d ∧ isspace (Nat.digitChar d) = false ∧
    Nat.digitChar d ≠ '-' ∧ Nat.digitChar d ≠ '+' ∧ Nat.digitChar d ≠ 'x' ∧
    Nat.digitChar d ≠ 'X' ∧ (Nat.digitChar d = '0' → d = 0) := by
  decide

/-- Source: `strtol` and `strtoul` read digits while they are below the base: a run of
digits below the base is read to its end, and the reading goes on in the rest. -/
theorem readDigits_digits (base : Nat) (hb : base ≤ 16) (L : List Nat)
    (hL : ∀ d ∈ L, d < base) (rest : CStr) (acc : Nat) :
    readDigits base (L.map Nat.digitChar ++ rest) acc
      = readDigits base rest (L.foldl (fun a d => a * base + d) acc) := by
  induction L generalizing acc with
  | nil => rfl
  | cons d L ih =>
    have hd : d < base := hL d (List.mem_cons_self _ _)
    have hv := (digitChar_facts d (Nat.lt_of_lt_of_le hd hb)).1
    simp only [List.map_cons, List.cons_append, readDigits, hv, if_pos hd, List.foldl_cons]
    exact ih (fun x hx => hL x (List.mem_cons_of_mem _ hx)) _

/-- The digits that `Nat.toDigitsCore` writes, given enough fuel: a non-empty run of digits
below the base, in front of the digits written before, whose value is the number and whose
first digit is not zero unless the number is zero. -/
theorem toDigitsCore_digits (base : Nat) (hb : 2 ≤ base) (fuel : Nat) :
    ∀ (n : Nat) (ds : List Char), n < fuel →
      ∃ (d : Nat) (L : List Nat), (∀ x ∈ d :: L, x < base) ∧ (0 < n → 0 < d) ∧
        Nat.toDigitsCore base fuel n ds = (d :: L).map Nat.digitChar ++ ds ∧
        ∀ acc, (d :: L).foldl (fun a x => a * base + x) acc
          = acc * base ^ (L.length + 1) + n := by
  induction fuel with
  | zero => intro n ds h; exact absurd h (Nat.not_lt_zero _)
  | succ fuel ih =>
    intro n ds hn
    rw [Nat.toDigitsCore]
    by_cases hz : n / base = 0
    · have hlt : n < base := (Nat.div_eq_zero_iff (by omega)).mp hz
      refine ⟨n, [], ?_, fun h => h, ?_, ?_⟩
      · intro x hx
        simp only [List.mem_singleton] at hx
        omega
      · simp only [hz, if_true, Nat.mod_eq_of_lt hlt, List.map_cons, List.map_nil,
          List.cons_append, List.nil_append]
      · intro acc
        simp [List.foldl]
    · have hge : base ≤ n := by
        by_contra hc
        exact hz ((Nat.div_eq_zero_iff (by omega)).mpr (by omega))
      have hdivlt : n / base < n := Nat.div_lt_self (by omega) (by omega)
      obtain ⟨d, L, hall, hpos, hcore, hval⟩ :=
        ih (n / base) (Nat.digitChar (n % base) :: ds) (by omega)
      refine ⟨d, L ++ [n % base], ?_, fun _ => hpos (Nat.pos_of_ne_zero hz), ?_, ?_⟩
      · intro x hx
        rw [← List.cons_append, List.mem_append] at hx
        rcases hx with hx | hx
        · exact hall x hx
        · simp only [List.mem_singleton] at hx
          rw [hx]
          exact Nat.mod_lt _ (by omega)
      · simp only [hz, if_false]
        rw [hcore]
        simp only [List.map_cons, List.map_append, List.map_nil, List.cons_append,
          List.append_assoc, List.nil_append]
      · intro acc
        rw [← List.cons_append, List.foldl_append, hval acc]
        simp only [List.foldl_cons, List.foldl_nil, List.length_append, List.length_singleton]
        rw [Nat.add_mul, Nat.mul_assoc, ← pow_succ, Nat.add_assoc, Nat.div_add_mod' n base]

/-- The digits of `Nat.toDigits`: a non-empty run of digits below the base whose value is
the number and whose first digit is not zero unless the number is zero. -/
theorem toDigits_digits (base : Nat) (hb : 2 ≤ base) (n : Nat) :
    ∃ (d : Nat) (L : List Nat), (∀ x ∈ d :: L, x < base) ∧ (0 < n → 0 < d) ∧
      Nat.toDigits base n = (d :: L).map Nat.digitChar ∧
      (d :: L).foldl (fun a x => a * base + x) 0 = n := by
  obtain ⟨d, L, hall, hpos, hcore, hval⟩ :=
    toDigitsCore_digits base hb (n + 1) n [] (Nat.lt_succ_self n)
  refine ⟨d, L, hall, hpos, ?_, ?_⟩
  · rw [Nat.toDigits, hcore, List.append_nil]
  · rw [hval 0]
    omega

/-- A decimal digit character is a character between `0` and `9`, and is neither a `.` nor
a bracket nor a blank. -/
theorem digitChar_decimal : ∀ d, d < 10 →
    ('0' ≤ Nat.digitChar d ∧ Nat.digitChar d ≤ '9') ∧ Nat.digitChar d ≠ '.' ∧
    Nat.digitChar d ≠ '[' ∧ Nat.digitChar d ≠ ']' ∧ isTrimSpace (Nat.digitChar d) = false := by
  decide

/-- Source: `strtol(text, nullptr, 10)` on the decimal digits of a number, followed by a text
at which the reading stops. -/
theorem strtoParts_decimal (d : Nat) (L : List Nat) (hL : ∀ x ∈ d :: L, x < 10)
    (rest : CStr) :
    strtoParts ((d :: L).map Nat.digitChar ++ rest) 10
      = (false, readDigits 10 rest ((d :: L).foldl (fun a x => a * 10 + x) 0)) := by
  have hd : d < 16 := Nat.lt_of_lt_of_le (hL d (List.mem_cons_self _ _)) (by decide)
  obtain ⟨_, hsp, hm, hp, _, _, _⟩ := digitChar_facts d hd
  have hread := readDigits_digits 10 (by decide) (d :: L) hL rest 0
  simp only [List.map_cons, List.cons_append] at hread
  simp only [strtoParts, List.map_cons, List.cons_append, List.dropWhile_cons, hsp,
    List.head?_cons]
  simp [hm, hp, hread]

/-- Source: `strtol(text, nullptr, 0)` and `strtoul(text, nullptr, 0)` on decimal digits that
are the single digit 0 or do not begin with the digit 0. -/
theorem strtoParts_auto_decimal (d : Nat) (L : List Nat) (hL : ∀ x ∈ d :: L, x < 10)
    (hz : d = 0 → L = []) :
    strtoParts ((d :: L).map Nat.digitChar) 0
      = (false, (d :: L).foldl (fun a x => a * 10 + x) 0) := by
  have hd : d < 16 := Nat.lt_of_lt_of_le (hL d (List.mem_cons_self _ _)) (by decide)
  obtain ⟨_, hsp, hm, hp, _, _, hzero⟩ := digitChar_facts d hd
  by_cases h0 : d = 0
  · rw [h0, hz h0]
    decide
  · have hread : readDigits 10 ((d :: L).map Nat.digitChar ++ []) 0
      = (d :: L).foldl (fun a x => a * 10 + x) 0 := readDigits_digits 10 (by decide) (d :: L) hL [] 0
    simp only [List.map_cons, List.append_nil] at hread
    have hne : Nat.digitChar d ≠ '0' := fun h => h0 (hzero h)
    simp only [strtoParts, List.map_cons, List.dropWhile_cons, hsp, List.head?_cons]
    simp [hm, hp, hne, hread]

/-- Source: `strtol(text, nullptr, 0)` on a minus sign and decimal digits that do not begin
with the digit 0. -/
theorem strtoParts_auto_negative (d : Nat) (L : List Nat) (hL : ∀ x ∈ d :: L, x < 10)
    (hz : 0 < d) :
    strtoParts ('-' :: (d :: L).map Nat.digitChar) 0
      = (true, (d :: L).foldl (fun a x => a * 10 + x) 0) := by
  have hd : d < 16 := Nat.lt_of_lt_of_le (hL d (List.mem_cons_self _ _)) (by decide)
  obtain ⟨_, _, _, _, _, _, hzero⟩ := digitChar_facts d hd
  have hread : readDigits 10 ((d :: L).map Nat.digitChar ++ []) 0
      = (d :: L).foldl (fun a x => a * 10 + x) 0 := readDigits_digits 10 (by decide) (d :: L) hL [] 0
  simp only [List.map_cons, List.append_nil] at hread
  have hne : Nat.digitChar d ≠ '0' := fun h => Nat.lt_irrefl 0 (hzero h ▸ hz)
  have hs : isspace '-' = false := by decide
  simp only [strtoParts, List.map_cons, List.dropWhile_cons, hs, List.head?_cons]
  simp [hne, hread]

/-- Source: `strtoul(text, nullptr, 0)` on `0x` and hexadecimal digits. -/
theorem strtoParts_auto_hex (d : Nat) (L : List Nat) (hL : ∀ x ∈ d :: L, x < 16) :
    strtoParts ('0' :: 'x' :: (d :: L).map Nat.digitChar) 0
      = (false, (d :: L).foldl (fun a x => a * 16 + x) 0) := by
  have hd : d < 16 := hL d (List.mem_cons_self _ _)
  obtain ⟨hv, _, _, _, _, _, _⟩ := digitChar_facts d hd
  have hread : readDigits 16 ((d :: L).map Nat.digitChar ++ []) 0
      = (d :: L).foldl (fun a x => a * 16 + x) 0 := readDigits_digits 16 (by decide) (d :: L) hL [] 0
  simp only [List.map_cons, List.append_nil] at hread
  have hs : isspace '0' = false := by decide
  simp only [strtoParts, List.map_cons, List.dropWhile_cons, hs, List.head?_cons]
  simp [hread, startsWithDigit, hv, hd]

theorem decimalText_eq_toString (n : Int) : decimalText n = (toString n).toList := by
  cases n with
  | ofNat m => rfl
  | negSucc m => rfl

/-! ## Key-value lines: properties -/

theorem strchr_append_stop (a b : CStr) (c : Char) (ha : c ∉ a) :
    strchr (a ++ c :: b) c = some a.length := by
  induction a with
  | nil => simp [strchr]
  | cons x xs ih =>
    have hx : x ≠ c := fun h => ha (h ▸ List.mem_cons_self _ _)
    have h := ih (fun h => ha (List.mem_cons_of_mem _ h))
    show strchr (x :: (xs ++ c :: b)) c = some (xs.length + 1)
    simp only [strchr, if_neg hx, h, Option.map_some']

theorem strchr_none (a : CStr) (c : Char) (ha : c ∉ a) : strchr a c = none := by
  induction a with
  | nil => rfl
  | cons x xs ih =>
    have hx : x ≠ c := fun h => ha (h ▸ List.mem_cons_self _ _)
    simp only [strchr, if_neg hx, ih (fun h => ha (List.mem_cons_of_mem _ h)),
      Option.map_none']

theorem strchr_eq_none_iff (s : CStr) (c : Char) : strchr s c = none ↔ c ∉ s := by
  constructor
  · intro h hm
    obtain ⟨a, b, rfl⟩ := List.append_of_mem hm
    induction a with
    | nil => simp [strchr] at h
    | cons x xs ih =>
      simp only [List.cons_append, strchr] at h
      split at h
      · simp at h
      · exact ih (by simpa using h) (by simp)
  · exact strchr_none s c

/-- Source: `extractKeyAndValue` with the delimiter `=` fails exactly on a line without `=`
and on a line that ends with its first `=`; whitespace after the `=` is no failure. -/
theorem extractKeyAndValue_fails_iff (line : CStr) (lineNum : Nat) (errorMsg : ErrorMsg) :
    (extractKeyAndValue line lineNum '=' errorMsg).1 = none
      ↔ ('=' ∉ line ∨ ∃ before, '=' ∉ before ∧ line = before ++ ['=']) := by
  unfold extractKeyAndValue
  cases hs : strchr line '=' with
  | none =>
    simp only [true_iff]
    exact Or.inl ((strchr_eq_none_iff line '=').mp hs)
  | some e =>
    obtain ⟨hsplit, hnot, hlt⟩ := strchr_split line '=' e hs
    have hmem : '=' ∈ line := by
      rw [hsplit]
      simp
    simp only []
    split
    · next hv =>
      simp only [reduceCtorEq, false_iff, not_or, not_not, not_exists, not_and]
      refine ⟨hmem, fun before hb hline => ?_⟩
      have h1 := strchr_append_stop before [] '=' hb
      rw [← hline, hs, Option.some.injEq] at h1
      apply hv
      rw [hline, h1]
      simp
    · next hv =>
      simp only [true_iff]
      refine Or.inr ⟨line.take e, hnot, ?_⟩
      have hnil : line.drop (e + 1) = [] := by
        by_contra hne
        exact hv hne
      rw [hnil] at hsplit
      exact hsplit

/-- C11, as stated, fails: on a line whose `=` is followed by whitespace only (`key = `,
or `key =` before a carriage return), the value is empty once trimmed, yet
`extractKeyAndValue` succeeds, with an empty value and no diagnostic; on `key =` it fails
with `Expect value after =` and on `key` with `Expect =`. In the section `Sample` the line
`n = ` so assigns 0 to the field `n`, without a diagnostic. -/
theorem extractKeyAndValue_blank_value_succeeds :
    extractKeyAndValue "key = ".toList 7 '=' [] = (some ("key".toList, []), [])
    ∧ extractKeyAndValue "key =\r".toList 7 '=' [] = (some ("key".toList, []), [])
    ∧ extractKeyAndValue "key =".toList 7 '=' []
        = (none, [⟨7, "Expect value after =".toList⟩])
    ∧ extractKeyAndValue "key".toList 7 '=' [] = (none, [⟨7, "Expect =".toList⟩])
    ∧ (parseLinesThenEnd sampleEnv ["n = \n".toList] inSample).map
        (fun r => (r.1, (r.2.m_vfxDoc.m_sections.getD 5 []).map (fun s => s.fields),
          r.2.m_vfxDoc.m_errorMsg))
      = .ok (true, [[("n".toList, .int 0)]], []) := by
  refine ⟨by decide, by decide, by decide, by decide, by rfl⟩

/-- C11, amended: `extractKeyAndValue` with the delimiter `=` fails if and only if the line
has no `=` or nothing at all follows its first `=` (the text after it is empty before it is
trimmed); on a line without `=` it records `Expect =`, on a line that ends with its first
`=` it records `Expect value after =`; in every other case it succeeds, records nothing, and
the value is the text after the first `=` with its leading and trailing whitespace
removed, which is empty when that text is whitespace only. -/
theorem extractKeyAndValue_fails_iff_nothing_follows (line : CStr) (lineNum : Nat)
    (errorMsg : ErrorMsg) :
    ((extractKeyAndValue line lineNum '=' errorMsg).1 = none
      ↔ ('=' ∉ line ∨ ∃ before, '=' ∉ before ∧ line = before ++ ['=']))
    ∧ ('=' ∉ line → extractKeyAndValue line lineNum '=' errorMsg
        = (none, PARSE_ERROR errorMsg lineNum "Expect =".toList))
    ∧ (∀ before, '=' ∉ before → line = before ++ ['='] →
        extractKeyAndValue line lineNum '=' errorMsg
          = (none, PARSE_ERROR errorMsg lineNum "Expect value after =".toList))
    ∧ (∀ before after, '=' ∉ before → after ≠ [] → line = before ++ '=' :: after →
        ∃ key, extractKeyAndValue line lineNum '=' errorMsg
          = (some (key, stripBlanks after), errorMsg)) := by
  refine ⟨extractKeyAndValue_fails_iff line lineNum errorMsg, ?_, ?_, ?_⟩
  · intro h
    simp only [extractKeyAndValue, strchr_none line '=' h]
    rfl
  · intro before hb hline
    have hs := strchr_append_stop before [] '=' hb
    rw [← hline] at hs
    have hdrop : line.drop (before.length + 1) = [] := by
      rw [hline]
      simp
    simp only [extractKeyAndValue, hs, hdrop, ne_eq, not_true_eq_false, if_false]
    rfl
  · intro before after hb hafter hline
    have hs := strchr_append_stop before after '=' hb
    rw [← hline] at hs
    have hdrop : line.drop (before.length + 1) = after := by
      rw [hline]
      simp
    refine ⟨trimStringEnd (((line.set before.length NUL).drop
      (line.length - (trimStringBeginning line).length)).takeWhile (fun c => c != NUL)), ?_⟩
    simp only [extractKeyAndValue, hs, hdrop, ne_eq, hafter, not_false_eq_true, if_true]
    rw [trimStringEnd_eq (trimStringBeginning after), trimStringBeginning_eq after]
    rfl

/-- C11, amended, at instances: `key = ` succeeds with the empty value, `key =` and `key`
fail with their diagnostics. -/
theorem extractKeyAndValue_fails_iff_nothing_follows_witness :
    stripBlanks " \t".toList = []
    ∧ (∃ key, extractKeyAndValue "key = \t".toList 7 '=' []
        = (some (key, stripBlanks " \t".toList), []))
    ∧ extractKeyAndValue "key =".toList 7 '=' []
        = (none, PARSE_ERROR [] 7 "Expect value after =".toList)
    ∧ extractKeyAndValue "key".toList 7 '=' [] = (none, PARSE_ERROR [] 7 "Expect =".toList) :=
  ⟨by decide,
    (extractKeyAndValue_fails_iff_nothing_follows "key = \t".toList 7 []).2.2.2
      "key ".toList " \t".toList (by decide) (by decide) rfl,
    (extractKeyAndValue_fails_iff_nothing_follows "key =".toList 7 []).2.2.1
      "key ".toList (by decide) rfl,
    (extractKeyAndValue_fails_iff_nothing_follows "key".toList 7 []).2.1 (by decide)⟩

/-! ## Key paths: properties -/

theorem strtokFrom_no_delim (delims : List Char) (a rest cur : CStr)
    (ha : ∀ c ∈ a, c ∉ delims) :
    strtokFrom delims (a ++ rest) cur = strtokFrom delims rest (cur ++ a) := by
  induction a generalizing cur with
  | nil => simp
  | cons x xs ih =>
    have hx : x ∉ delims := ha x (List.mem_cons_self _ _)
    have h := ih (cur ++ [x]) (fun c hc => ha c (List.mem_cons_of_mem _ hc))
    show strtokFrom delims (x :: (xs ++ rest)) cur = _
    simp only [strtokFrom, if_neg hx]
    rw [h]
    simp

/-- Source: `strtok(key, ".")` on a text without `.`: one token, the text. -/
theorem strtok_one (a : CStr) (ha : ∀ c ∈ a, c ≠ '.') (hne : a ≠ []) :
    strtok a ['.'] = [a] := by
  have h := strtokFrom_no_delim ['.'] a [] [] (fun c hc => by simpa using ha c hc)
  rw [List.append_nil, List.nil_append] at h
  rw [strtok, h]
  simp [strtokFrom, hne]

/-- Source: `strtok(key, ".")` on two texts without `.`, joined by a `.`: the two texts. -/
theorem strtok_two (a b : CStr) (ha : ∀ c ∈ a, c ≠ '.') (hb : ∀ c ∈ b, c ≠ '.')
    (hane : a ≠ []) (hbne : b ≠ []) :
    strtok (a ++ '.' :: b) ['.'] = [a, b] := by
  have h := strtokFrom_no_delim ['.'] a ('.' :: b) [] (fun c hc => by simpa using ha c hc)
  have hb1 := strtokFrom_no_delim ['.'] b [] [] (fun c hc => by simpa using hb c hc)
  rw [List.append_nil, List.nil_append] at hb1
  rw [strtok, h, List.nil_append]
  simp only [strtokFrom, List.mem_singleton, if_true, if_neg hane, hb1, if_neg hbne]

/-- A text that begins with a character that is not a blank is its own
`trimStringBeginning`. -/
theorem trimStringBeginning_id (c : Char) (s : CStr) (hc : isTrimSpace c = false) :
    trimStringBeginning (c :: s) = c :: s := by
  simp [trimStringBeginning, hc]

/-- A text that ends with a character that is not a blank is its own `trimStringEnd`. -/
theorem trimStringEnd_id (s : CStr) (c : Char) (hc : isTrimSpace c = false) :
    trimStringEnd (s ++ [c]) = s ++ [c] := by
  rw [trimStringEnd_eq, List.reverse_append, List.reverse_singleton, List.singleton_append,
    List.dropWhile_cons, ← isTrimSpace_eq_isBlank, hc]
  simp

theorem isArrayAccessLoop_digits (ds rest : CStr) (p : Nat)
    (hds : ∀ c ∈ ds, '0' ≤ c ∧ c ≤ '9') :
    isArrayAccessLoop (p + ds.length) p (ds ++ rest) = true := by
  induction ds generalizing p with
  | nil => cases rest <;> simp [isArrayAccessLoop]
  | cons c cs ih =>
    have hp : ¬ p = p + (c :: cs).length := by simp
    have hc := hds c (List.mem_cons_self _ _)
    have hrec := ih (p + 1) (fun x hx => hds x (List.mem_cons_of_mem _ hx))
    rw [show p + 1 + cs.length = p + (c :: cs).length by simp; omega] at hrec
    show isArrayAccessLoop (p + (c :: cs).length) p (c :: (cs ++ rest)) = true
    simp only [isArrayAccessLoop, if_neg hp, hc, and_self, true_or, if_true, hrec]

/-- The decimal digits of a number are characters between `0` and `9`, none a `.`, a
bracket or a blank. -/
theorem toDigits_decimal (k : Nat) : ∀ c ∈ Nat.toDigits 10 k,
    ('0' ≤ c ∧ c ≤ '9') ∧ c ≠ '.' ∧ c ≠ '[' ∧ c ≠ ']' ∧ isTrimSpace c = false := by
  obtain ⟨d, L, hall, _, htext, _⟩ := toDigits_digits 10 (by decide) k
  intro c hc
  rw [htext, List.mem_map] at hc
  obtain ⟨x, hx, rfl⟩ := hc
  exact digitChar_decimal x (hall x hx)

/-- Source: `strtol(text, nullptr, 10)` on the decimal digits of a number below 2^63,
followed by `]`. -/
theorem strtol_index (k : Nat) (hk : k < 2 ^ 63) :
    strtol (Nat.toDigits 10 k ++ [']']) 10 = (k : Int) := by
  obtain ⟨d, L, hall, _, htext, hval⟩ := toDigits_digits 10 (by decide) k
  have hparts := strtoParts_decimal d L hall [']']
  rw [hval, ← htext] at hparts
  have hr : readDigits 10 [']'] k = k := by
    simp only [readDigits]
    rfl
  rw [hr] at hparts
  have hge : ¬ k ≥ 2 ^ 63 := Nat.not_le.mpr hk
  simp only [strtol, hparts, Bool.false_eq_true, if_false, if_neg hge]

/-- A name of a path segment is its own `trimStringEnd`. -/
theorem trimStringEnd_plain (name : CStr) (hname : PlainName name) :
    trimStringEnd name = name := by
  obtain ⟨init, last, hlast⟩ := ( List.eq_nil_or_concat name).resolve_left hname.1
  rw [List.concat_eq_append] at hlast
  have hmem : last ∈ name := by
    rw [hlast]
    simp
  rw [hlast]
  exact trimStringEnd_id _ _ (hname.2 last hmem).2.2.2

/-- A segment written in a key is not empty, has no `.`, and is its own trimmed text. -/
theorem segmentText_plain (name : CStr) (index : Option Nat) (hname : PlainName name) :
    segmentText name index ≠ [] ∧ (∀ c ∈ segmentText name index, c ≠ '.') ∧
    trimStringEnd (trimStringBeginning (segmentText name index))
      = segmentText name index := by
  obtain ⟨c, cs, hcs⟩ := List.exists_cons_of_ne_nil hname.1
  have hc : isTrimSpace c = false :=
    (hname.2 c (hcs ▸ List.mem_cons_self _ _)).2.2.2
  cases index with
  | none =>
    refine ⟨hname.1, fun x hx => (hname.2 x hx).1, ?_⟩
    simp only [segmentText]
    rw [hcs, trimStringBeginning_id c cs hc, ← hcs]
    exact trimStringEnd_plain name hname
  | some k =>
    refine ⟨by simp [segmentText], ?_, ?_⟩
    · intro x hx
      simp only [segmentText] at hx
      rcases List.mem_append.mp hx with hx | hx
      · rcases List.mem_append.mp hx with hx | hx
        · exact (hname.2 x hx).1
        · rcases List.mem_cons.mp hx with hx | hx
          · rw [hx]; decide
          · exact (toDigits_decimal k x hx).2.1
      · rw [List.mem_singleton.mp hx]; decide
    · simp only [segmentText]
      rw [hcs, List.cons_append, List.cons_append, trimStringBeginning_id c _ hc,
        ← List.cons_append]
      exact trimStringEnd_id _ _ (by decide)

/-- Source: the array access of `parseKey` on a segment without index: there is none, the
token is the name. -/
theorem isArrayAccess_name (name : CStr) (hname : PlainName name) :
    isArrayAccess name = false := by
  have h : strchr name '[' = none :=
    strchr_none name '[' (fun hm => (hname.2 _ hm).2.1 rfl)
  simp only [isArrayAccess, h]

/-- Source: the array access of `parseKey` on a segment with an index below 2^32:
`isArrayAccess` holds, `parseArrayAccess` gives the index and the position of `[`, and
the text before the `[`, trimmed at its end, is the name. -/
theorem parseArrayAccess_segment (name : CStr) (k : Nat) (hname : PlainName name)
    (hk : k < 2 ^ 32) (lineNum : Nat) (errorMsg : ErrorMsg) :
    isArrayAccess (segmentText name (some k)) = true ∧
    parseArrayAccess (segmentText name (some k)) lineNum errorMsg
      = (true, k, some name.length, errorMsg) ∧
    trimStringEnd ((segmentText name (some k)).take name.length) = name := by
  have hl : strchr (name ++ '[' :: (Nat.toDigits 10 k ++ [']'])) '[' = some name.length :=
    strchr_append_stop name _ '[' (fun hm => (hname.2 _ hm).2.1 rfl)
  have hnot : ']' ∉ name ++ '[' :: Nat.toDigits 10 k := by
    intro hm
    simp only [List.mem_append, List.mem_cons] at hm
    rcases hm with hm | hm | hm
    · exact (hname.2 _ hm).2.2.1 rfl
    · exact absurd hm (by decide)
    · exact (toDigits_decimal k _ hm).2.2.2.1 rfl
  have hr : strchr (name ++ '[' :: (Nat.toDigits 10 k ++ [']'])) ']'
      = some (name.length + 1 + (Nat.toDigits 10 k).length) := by
    have h := strchr_append_stop (name ++ '[' :: Nat.toDigits 10 k) [] ']' hnot
    simp only [List.append_assoc, List.cons_append, List.length_append, List.length_cons] at h
    rw [h]
    congr 1
    omega
  have hdrop : (name ++ '[' :: (Nat.toDigits 10 k ++ [']'])).drop (name.length + 1)
      = Nat.toDigits 10 k ++ [']'] := by
    rw [show name ++ '[' :: (Nat.toDigits 10 k ++ [']'])
      = (name ++ ['[']) ++ (Nat.toDigits 10 k ++ [']']) by simp]
    rw [show name.length + 1 = (name ++ ['[']).length by simp]
    exact List.drop_left _ _
  have htake : (name ++ '[' :: (Nat.toDigits 10 k ++ [']'])).take name.length = name :=
    List.take_left _ _
  have hseg : segmentText name (some k) = name ++ '[' :: (Nat.toDigits 10 k ++ [']']) := by
    simp [segmentText]
  have hend : trimStringEnd name = name := trimStringEnd_plain name hname
  refine ⟨?_, ?_, ?_⟩
  · rw [hseg]
    simp only [isArrayAccess, hl, hr, hdrop]
    exact isArrayAccessLoop_digits _ _ _ (fun c hc => (toDigits_decimal k c hc).1)
  · rw [hseg]
    simp only [parseArrayAccess, hl, hr, hdrop, strtol_index k (by omega)]
    have : toWord32 (k : Int) = k := by
      simp only [toWord32]
      omega
    rw [this]
  · rw [hseg, htake, hend]

/-- Source: one turn of the loop of `parseKey` on a segment as written in a key: the array
access is taken off, the name is looked up by `isSection` in the object reached so far, and
the turn ends the loop with the result false, records the name of a terminal member, or
descends by `getPtrOfSubSection`; the loop then goes on with the next token, whichever of
the last two it was. -/
theorem parseKeyLoop_segment {S : Type} (E : Env S) (lineNum size : Nat) (name : CStr)
    (index : Option Nat) (hname : PlainName name) (hk : index.getD 0 < 2 ^ 32)
    (rest : List CStr) (st : KeyState S) :
    parseKeyLoop E lineNum size (segmentText name index :: rest) st
      = (let r := E.isSection st.root st.tempSectionObj lineNum name st.errorMsg
         if !r.1 then
           .ok { st with result := false, parsedArrayIndex := index.getD 0,
                         errorMsg := r.2.2.2 }
         else if !r.2.1 then
           if name.length < size then
             parseKeyLoop E lineNum size rest
               { st with result := true, isSection := false,
                         parsedArrayIndex := index.getD 0,
                         memberNameBuffer := some name, errorMsg := r.2.2.2 }
           else .error .assertFailed
         else
           let r1 := E.getPtrOfSubSection st.root st.tempSectionObj lineNum name r.2.2.1
             (index.getD 0) r.2.2.2
           if !r1.1 then
             .ok { st with result := false, root := r1.2.1, isSection := true,
                           parsedArrayIndex := index.getD 0, errorMsg := r1.2.2 }
           else
             parseKeyLoop E lineNum size rest
               { st with result := true, root := r1.2.1,
                         tempSectionObj := st.tempSectionObj ++ [(name, index.getD 0)],
                         isSection := true, parsedArrayIndex := index.getD 0,
                         errorMsg := r1.2.2 }) := by
  cases index with
  | none =>
    rw [parseKeyLoop]
    simp only [segmentText, isArrayAccess_name name hname, Bool.false_eq_true, if_false,
      Option.getD_none]
  | some k =>
    obtain ⟨hacc, hparse, htrim⟩ := parseArrayAccess_segment name k hname hk lineNum st.errorMsg
    rw [parseKeyLoop]
    simp only [hacc, hparse, if_true, Option.getD_some, htrim]

/-- Source: `parseKey` on a key of two segments, as written in a key and joined by a `.`:
the loop of `parseKey` runs on the two segments. -/
theorem parseKey_two_segments {S : Type} (E : Env S) (first second : CStr)
    (i j : Option Nat) (lineNum size : Nat) (root : S) (errorMsg : ErrorMsg)
    (hfirst : PlainName first) (hsecond : PlainName second)
    (hlen : (segmentText first i ++ '.' :: segmentText second j).length < E.MaxKeyBufSize) :
    parseKey E (segmentText first i ++ '.' :: segmentText second j) lineNum root size errorMsg
      = parseKeyLoop E lineNum size [segmentText first i, segmentText second j]
          ⟨true, root, [], false, 0, none, errorMsg⟩ := by
  obtain ⟨hne1, hdot1, htrim1⟩ := segmentText_plain first i hfirst
  obtain ⟨hne2, hdot2, _⟩ := segmentText_plain second j hsecond
  rw [parseKey, if_pos hlen, strtok_two _ _ hdot1 hdot2 hne1 hne2]
  simp only [htrim1]

/-- C12: for a key `sub[i].field[j]`, each index written in decimal (a 32-bit unsigned
number) or left out, the key shorter than `MaxKeyBufSize` and `field` shorter than the
member-name buffer, where `isSection` finds `sub` to be a sub-section member of the base
section, `getPtrOfSubSection` gives its child of the index written on `sub` (0 when none is
written), and `isSection` finds `field` to be a terminal member of that child: `parseKey`
returns true, with that child as the target section, `field` as the member name, and as
array index the index written on `field`, 0 when none is written. -/
theorem parseKey_resolves_subsection_field {S : Type} (E : Env S) (sub field : CStr)
    (i j : Option Nat) (lineNum size : Nat) (root root1 : S) (mt mt2 : MemberType)
    (err err1 err2 err3 : ErrorMsg)
    (hsub : PlainName sub) (hfield : PlainName field)
    (hi : i.getD 0 < 2 ^ 32) (hj : j.getD 0 < 2 ^ 32)
    (hlen : (segmentText sub i ++ '.' :: segmentText field j).length < E.MaxKeyBufSize)
    (hsize : field.length < size)
    (h1 : E.isSection root [] lineNum sub err = (true, true, mt, err1))
    (h2 : E.getPtrOfSubSection root [] lineNum sub mt (i.getD 0) err1 = (true, root1, err2))
    (h3 : E.isSection root1 [(sub, i.getD 0)] lineNum field err2 = (true, false, mt2, err3)) :
    parseKey E (segmentText sub i ++ '.' :: segmentText field j) lineNum root size err
      = .ok ⟨true, root1, [(sub, i.getD 0)], false, j.getD 0, some field, err3⟩ := by
  rw [parseKey_two_segments E sub field i j lineNum size root err hsub hfield hlen,
    parseKeyLoop_segment E lineNum size sub i hsub hi]
  simp only [h1, h2, Bool.not_true, Bool.false_eq_true, if_false, List.nil_append]
  rw [parseKeyLoop_segment E lineNum size field j hfield hj]
  simp only [h3, Bool.not_true, Bool.not_false, Bool.false_eq_true, if_false, if_true,
    if_pos hsize, parseKeyLoop]

/-- C12, at the instance of the specification: in the schema `pipelineFields` the key
`stages[2].entryPoint` resolves to the third child of `stages`, the member `entryPoint` and
the index 0. -/
theorem parseKey_resolves_subsection_field_witness :
    parseKey pipelineEnv "stages[2].entryPoint".toList 1 ⟨[]⟩ 256 []
      = .ok ⟨true, ⟨[]⟩, [("stages".toList, 2)], false, 0, some "entryPoint".toList, []⟩ :=
  parseKey_resolves_subsection_field pipelineEnv "stages".toList "entryPoint".toList
    (some 2) none 1 256 ⟨[]⟩ ⟨[]⟩ (.other 0) .MemberTypeString [] [] [] []
    ⟨by decide, by decide⟩ ⟨by decide, by decide⟩ (by decide) (by decide) (by decide)
    (by decide) (by rfl) (by rfl) (by rfl)

/-- C13, as stated, fails: in the schema `pipelineFields`, whose top-level section has the
terminal fields `count` and `scale`, the key `count.scale` makes `parseKey` return the
member name `scale`, not `count`, and on the key `count[3].zzz` the segment `zzz` is looked
up: `parseKey` returns false with the diagnostic `Invalid member name: zzz`. -/
theorem parseKey_segment_after_terminal_is_looked_up :
    parseKey pipelineEnv "count.scale".toList 1 ⟨[]⟩ 256 []
      = .ok ⟨true, ⟨[]⟩, [], false, 0, some "scale".toList, []⟩
    ∧ parseKey pipelineEnv "count[3].zzz".toList 1 ⟨[]⟩ 256 []
      = .ok ⟨false, ⟨[]⟩, [], false, 0, some "count".toList,
          [⟨1, "Invalid member name: zzz".toList⟩]⟩ := by
  constructor <;> rfl

/-- C13, amended: `parseKey` does not stop at a segment that names a terminal field. For a
key `first[i].second[j]` (each index a 32-bit unsigned number in decimal or left out, the
key shorter than `MaxKeyBufSize`, the names shorter than the member-name buffer) whose
segment `first` names a terminal member of the base section, the segment `second` is looked
up in the same section: when it names a terminal member too, `parseKey` returns true with
the member name `second` and the index written on `second`; when the lookup fails,
`parseKey` returns false with the diagnostic of that lookup. -/
theorem parseKey_goes_on_after_terminal {S : Type} (E : Env S) (first second : CStr)
    (i j : Option Nat) (lineNum size : Nat) (root : S) (mt : MemberType)
    (err err1 : ErrorMsg)
    (hfirst : PlainName first) (hsecond : PlainName second)
    (hi : i.getD 0 < 2 ^ 32) (hj : j.getD 0 < 2 ^ 32)
    (hlen : (segmentText first i ++ '.' :: segmentText second j).length < E.MaxKeyBufSize)
    (hsize : first.length < size)
    (h1 : E.isSection root [] lineNum first err = (true, false, mt, err1)) :
    (∀ mt2 err2, E.isSection root [] lineNum second err1 = (true, false, mt2, err2) →
      second.length < size →
      parseKey E (segmentText first i ++ '.' :: segmentText second j) lineNum root size err
        = .ok ⟨true, root, [], false, j.getD 0, some second, err2⟩)
    ∧ (∀ b mt2 err2, E.isSection root [] lineNum second err1 = (false, b, mt2, err2) →
      parseKey E (segmentText first i ++ '.' :: segmentText second j) lineNum root size err
        = .ok ⟨false, root, [], false, j.getD 0, some first, err2⟩) := by
  have hkey := parseKey_two_segments E first second i j lineNum size root err hfirst hsecond hlen
  rw [parseKeyLoop_segment E lineNum size first i hfirst hi] at hkey
  simp only [h1, Bool.not_true, Bool.not_false, Bool.false_eq_true, if_false, if_true,
    if_pos hsize] at hkey
  rw [parseKeyLoop_segment E lineNum size second j hsecond hj] at hkey
  constructor
  · intro mt2 err2 h2 hsize2
    rw [hkey]
    simp only [h2, Bool.not_true, Bool.not_false, Bool.false_eq_true, if_false, if_true,
      if_pos hsize2, parseKeyLoop]
  · intro b mt2 err2 h2
    rw [hkey]
    simp only [h2, Bool.not_false, if_true]

/-- C13, amended, at an instance: in the schema `pipelineFields` the key `count.scale`
gives the member name `scale`, and the key `count[3].zzz` gives false with the diagnostic
of the lookup of `zzz`. -/
theorem parseKey_goes_on_after_terminal_witness :
    parseKey pipelineEnv "count.scale".toList 1 ⟨[]⟩ 256 []
      = .ok ⟨true, ⟨[]⟩, [], false, 0, some "scale".toList, []⟩
    ∧ parseKey pipelineEnv "count[3].zzz".toList 1 ⟨[]⟩ 256 []
      = .ok ⟨false, ⟨[]⟩, [], false, 0, some "count".toList,
          [⟨1, "Invalid member name: zzz".toList⟩]⟩ :=
  ⟨(parseKey_goes_on_after_terminal pipelineEnv "count".toList "scale".toList none none 1 256
      ⟨[]⟩ .MemberTypeInt [] [] ⟨by decide, by decide⟩ ⟨by decide, by decide⟩ (by decide)
      (by decide) (by decide) (by decide) (by rfl)).1 .MemberTypeFloat [] (by rfl) (by decide),
   (parseKey_goes_on_after_terminal pipelineEnv "count".toList "zzz".toList (some 3) none 1
      256 ⟨[]⟩ .MemberTypeInt [] [] ⟨by decide, by decide⟩ ⟨by decide, by decide⟩ (by decide)
      (by decide) (by decide) (by decide) (by rfl)).2 false (.other 0)
      [⟨1, "Invalid member name: zzz".toList⟩] (by rfl)⟩

/-- C14: in the schema `pipelineFields` the key `stages[2].entryPoint` resolves, and so it
does with blanks around its first segment (` stages[2] \t.entryPoint`); with a blank before
or after its last segment (`stages[2]. entryPoint`, `stages[2].entryPoint `) `parseKey`
returns false, since the lookup is made with the blank in the name: only the first segment
is trimmed. In a section the line `stages[2]. entryPoint = main` so assigns nothing. -/
theorem parseKey_trims_first_segment_only :
    parseKey pipelineEnv " stages[2] \t.entryPoint".toList 1 ⟨[]⟩ 256 []
      = parseKey pipelineEnv "stages[2].entryPoint".toList 1 ⟨[]⟩ 256 []
    ∧ parseKey pipelineEnv "stages[2].entryPoint".toList 1 ⟨[]⟩ 256 []
      = .ok ⟨true, ⟨[]⟩, [("stages".toList, 2)], false, 0, some "entryPoint".toList, []⟩
    ∧ parseKey pipelineEnv "stages[2]. entryPoint".toList 1 ⟨[]⟩ 256 []
      = .ok ⟨false, ⟨[]⟩, [("stages".toList, 2)], true, 0, none,
          [⟨1, "Invalid member name:  entryPoint".toList⟩]⟩
    ∧ parseKey pipelineEnv "stages[2].entryPoint ".toList 1 ⟨[]⟩ 256 []
      = .ok ⟨false, ⟨[]⟩, [("stages".toList, 2)], true, 0, none,
          [⟨1, "Invalid member name: entryPoint ".toList⟩]⟩
    ∧ (parseKeyValue pipelineEnv "stages[2].entryPoint".toList "main".toList 1 ⟨[]⟩ []
        = .ok (true, ⟨[([("stages".toList, 2)], "entryPoint".toList, .string "main".toList)]⟩,
            [])
      ∧ parseKeyValue pipelineEnv "stages[2]. entryPoint".toList "main".toList 1 ⟨[]⟩ []
        = .ok (false, ⟨[]⟩, [⟨1, "Invalid member name:  entryPoint".toList⟩])) := by
  refine ⟨by rfl, by rfl, by rfl, by rfl, by rfl, by rfl⟩

/-- C15: on the empty key, and on keys of `.` characters only, `strtok` finds no token and
`parseKey` passes the null pointer to `trimStringBeginning`, which reads through it: the
call does not return false, it is a null dereference. The line `= 5` of a key-value
section has the empty key and so brings the parser there. -/
theorem parseKey_empty_path_null_dereference :
    parseKey pipelineEnv [] 1 ⟨[]⟩ 256 [] = .error .nullDeref
    ∧ parseKey pipelineEnv ".".toList 1 ⟨[]⟩ 256 [] = .error .nullDeref
    ∧ parseKey pipelineEnv "...".toList 1 ⟨[]⟩ 256 [] = .error .nullDeref
    ∧ (extractKeyAndValue "= 5".toList 1 '=' []).1 = some ([], "5".toList)
    ∧ parseLinesThenEnd sampleEnv ["= 5\n".toList] inSample = .error .nullDeref := by
  refine ⟨by rfl, by rfl, by rfl, by decide, by rfl⟩

/-! ## Assignment: properties -/

/-- C16: in the schema `pipelineFields` the lines `values[2] = 7`, `values[0] = 7` and
`values = 7` make the same call of `set`, with the section, the name `values` and the
value 7; `parseKey` returns the index 2 for the first of them, and `parseKeyValue` does not
pass it on, so the element that the key names is not what selects the element written. -/
theorem parseKeyValue_drops_array_index :
    (parseKey pipelineEnv "values[2]".toList 1 ⟨[]⟩ 256 []).map (fun st => st.parsedArrayIndex)
      = .ok 2
    ∧ parseKeyValue pipelineEnv "values[2]".toList "7".toList 1 ⟨[]⟩ []
      = .ok (true, ⟨[([], "values".toList, .int 7)]⟩, [])
    ∧ parseKeyValue pipelineEnv "values[0]".toList "7".toList 1 ⟨[]⟩ []
      = .ok (true, ⟨[([], "values".toList, .int 7)]⟩, [])
    ∧ parseKeyValue pipelineEnv "values".toList "7".toList 1 ⟨[]⟩ []
      = .ok (true, ⟨[([], "values".toList, .int 7)]⟩, []) := by
  refine ⟨by rfl, by rfl, by rfl, by rfl⟩

/-- C17: for the field `scale` of the schema `pipelineFields`, whose type is
`MemberTypeFloat`, and whatever the conversions `strtod`, to 32-bit float and to 16-bit
float are, `parseKeyValue` assigns a 16-bit float, the one that `parseFloat16` stores (the
text rounded to 32 bits and then to 16 bits by `FromFloat32`), not the 32-bit float that
`parseFloat` stores. -/
theorem parseKeyValue_float_field_uses_parseFloat16 (strtod : CStr → Nat)
    (doubleToFloat FromFloat32 : Nat → Nat) :
    pipelineEnv.getMemberType ⟨[]⟩ [] 1 "scale".toList [] = (true, .MemberTypeFloat, [])
    ∧ parseKeyValue { pipelineEnv with
          strtod := strtod, doubleToFloat := doubleToFloat, FromFloat32 := FromFloat32 }
        "scale".toList "1.5".toList 1 ⟨[]⟩ []
      = .ok (true, ⟨[([], "scale".toList,
          .float16 (FromFloat32 (doubleToFloat (strtod "1.5".toList)) % 2 ^ 16))]⟩, [])
    ∧ (parseFloat16 { pipelineEnv with
          strtod := strtod, doubleToFloat := doubleToFloat, FromFloat32 := FromFloat32 }
        "1.5".toList IUFValue.zero).2.word0
      = FromFloat32 (doubleToFloat (strtod "1.5".toList)) % 2 ^ 16
    ∧ (parseFloat { pipelineEnv with
          strtod := strtod, doubleToFloat := doubleToFloat, FromFloat32 := FromFloat32 }
        "1.5".toList IUFValue.zero).2.word0
      = doubleToFloat (strtod "1.5".toList) % 2 ^ 32 := by
  have h16 : (parseFloat16 { pipelineEnv with
          strtod := strtod, doubleToFloat := doubleToFloat, FromFloat32 := FromFloat32 }
        "1.5".toList IUFValue.zero).2.word0
      = FromFloat32 (doubleToFloat (strtod "1.5".toList)) % 2 ^ 16 := by
    simp [parseFloat16, IUFValue.set16, IUFValue.word0, IUFValue.zero]
  have hkv : parseKeyValue { pipelineEnv with
          strtod := strtod, doubleToFloat := doubleToFloat, FromFloat32 := FromFloat32 }
        "scale".toList "1.5".toList 1 ⟨[]⟩ []
      = .ok (true, ⟨[([], "scale".toList,
          .float16 ((parseFloat16 { pipelineEnv with
              strtod := strtod, doubleToFloat := doubleToFloat, FromFloat32 := FromFloat32 }
            "1.5".toList IUFValue.zero).2.word0 % 2 ^ 16))]⟩, []) := by
    rfl
  refine ⟨by rfl, ?_, h16, by rfl⟩
  rw [hkv, h16, Nat.mod_mod]

/-! ## Integer values: properties -/

/-- Source: `strstr` finds a needle exactly when the text contains it as a substring. -/
theorem strstr_isSome_iff (s needle : CStr) :
    (strstr s needle).isSome = true ↔ needle <:+: s := by
  induction s with
  | nil =>
    simp only [strstr, List.infix_nil]
    split <;> simp [*]
  | cons c cs ih =>
    simp only [strstr, List.infix_cons_iff]
    split
    · next hp => simp [( List.isPrefixOf_iff_prefix.mp hp)]
    · next hp =>
      have hnp : ¬ needle <+: c :: cs := fun h => hp ( List.isPrefixOf_iff_prefix.mpr h)
      simp only [Option.isSome_map', ih, hnp, false_or]

/-- C19: `parseInt` returns true; it sets the flag `isHex` if and only if the token
contains the substring `0x`, and then stores the unsigned number read by `strtoul` with
automatic base, cut to 32 bits; otherwise it stores the signed number read by `strtol` with
automatic base (so `10` is read as ten and `010`, with a leading 0, as octal eight), in
two's complement. In both cases the length is 1, the flags `isInt64`, `isFloat` and
`isDouble` are cleared, and only the first word of the value changes. -/
theorem parseInt_selects_rule_by_hex_mark (str : CStr) (output : IUFValue) :
    ∃ v, parseInt str output = (true, v)
      ∧ (v.props.isHex = true ↔ "0x".toList <:+: str)
      ∧ ("0x".toList <:+: str → v.words = output.words.set 0 (strtoul str 0 % 2 ^ 32))
      ∧ (¬ "0x".toList <:+: str →
          v.words = output.words.set 0 (toWord32 (strtol str 0) % 2 ^ 32))
      ∧ v.props.length = 1 ∧ v.props.isInt64 = false ∧ v.props.isFloat = false
      ∧ v.props.isDouble = false
      ∧ strtol "10".toList 0 = 10 ∧ strtol "010".toList 0 = 8 ∧ strtol "-3".toList 0 = -3
      ∧ strtoul "0x10".toList 0 = 16 := by
  refine ⟨_, rfl, ?_, ?_, ?_, rfl, rfl, rfl, rfl, by decide, by decide, by decide, by decide⟩
  · rw [← strstr_isSome_iff]
  · intro h
    have hs := (strstr_isSome_iff str "0x".toList).mpr h
    simp only [hs, if_true, IUFValue.set32]
  · intro h
    have hs : (strstr str "0x".toList).isSome = false := by
      rw [← Bool.not_eq_true]
      exact fun hh => h ((strstr_isSome_iff str "0x".toList).mp hh)
    simp only [hs, Bool.false_eq_true, if_false, IUFValue.set32]

/-- C19, at instances: `0x10` is read as hex, `010` as signed octal. -/
theorem parseInt_selects_rule_by_hex_mark_witness :
    parseInt "0x10".toList IUFValue.zero
      = (true, ⟨[16, 0, 0, 0], ⟨1, false, false, false, false, true⟩⟩)
    ∧ parseInt "010".toList IUFValue.zero
      = (true, ⟨[8, 0, 0, 0], ⟨1, false, false, false, false, false⟩⟩)
    ∧ ∃ v, parseInt "-3".toList IUFValue.zero = (true, v) ∧ v.props.isHex = false :=
  ⟨by decide, by decide,
    (parseInt_selects_rule_by_hex_mark "-3".toList IUFValue.zero).elim
      (fun v hv => ⟨v, hv.1, by
        cases hh : v.props.isHex with
        | false => rfl
        | true => exact absurd (hv.2.1.mp hh) (by decide)⟩)⟩

/-- Source: the loop of the vector parsers, with a store to the 32-bit component of the
token's number: within the capacity it stores the number of each token, cut to 32 bits, at
the component of the token's position, and changes nothing else. -/
theorem vecLoop_set32 (capacity : Nat) (val : CStr → Nat) (toks : List CStr) :
    ∀ (result : Bool) (numberId : Nat) (output : IUFValue),
      numberId + toks.length ≤ capacity → capacity ≤ output.words.length →
      ∃ v, vecLoop capacity (fun i tok out => out.set32 i (val tok)) toks result numberId output
          = .ok (result || !toks.isEmpty, numberId + toks.length, v)
        ∧ v.props = output.props ∧ v.words.length = output.words.length
        ∧ (∀ i, i < numberId → v.words[i]? = output.words[i]?)
        ∧ (∀ i tok, toks[i]? = some tok → v.words[numberId + i]? = some (val tok % 2 ^ 32)) := by
  induction toks with
  | nil =>
    intro result numberId output _ _
    exact ⟨output, by simp [vecLoop], rfl, rfl, fun _ _ => rfl, fun i tok h => by simp at h⟩
  | cons t ts ih =>
    intro result numberId output hcap hlen
    have hlt : numberId < capacity := by
      simp only [List.length_cons] at hcap
      omega
    obtain ⟨v, hv, hprops, hwlen, hlow, hstore⟩ :=
      ih true (numberId + 1) (output.set32 numberId (val t))
        (by simp only [List.length_cons] at hcap; omega)
        (by simp only [IUFValue.set32, List.length_set]; exact hlen)
    refine ⟨v, ?_, ?_, ?_, ?_, ?_⟩
    · simp only [vecLoop, if_pos hlt, hv, List.length_cons, List.isEmpty_cons, Bool.not_false,
        Bool.or_true, Bool.true_or]
      congr 3
      omega
    · rw [hprops]
      rfl
    · rw [hwlen]
      simp only [IUFValue.set32, List.length_set]
    · intro i hi
      rw [hlow i (by omega)]
      simp only [IUFValue.set32]
      rw [List.getElem?_set_ne (by omega)]
    · intro i tok htok
      cases i with
      | zero =>
        simp only [List.getElem?_cons_zero, Option.some.injEq] at htok
        rw [Nat.add_zero, hlow numberId (Nat.lt_succ_self _), ← htok]
        simp only [IUFValue.set32]
        rw [List.getElem?_set_self (by omega)]
      | succ i =>
        simp only [List.getElem?_cons_succ] at htok
        have := hstore i tok htok
        rw [show numberId + (i + 1) = numberId + 1 + i by omega]
        exact this

/-- C18: on a literal of at most four components (the tokens that `strtok` cuts at commas
and spaces), `parseIVec4` sets the flag `isHex` if and only if the literal contains the
substring `0x` somewhere, records the number of components as length, and stores for each
component, cut to 32 bits: the unsigned number read by `strtoul` when the literal contains
`0x`, whether the component does or not, and the signed number read by `strtol`, in two's
complement, when the literal does not contain it. -/
theorem parseIVec4_hex_rule_covers_every_component (str : CStr) (output : IUFValue)
    (hcount : (strtok str [',', ' ']).length ≤ 4) (hwords : output.words.length = 4) :
    ∃ (result : Bool) (v : IUFValue), parseIVec4 str output = .ok (result, v)
      ∧ (v.props.isHex = true ↔ "0x".toList <:+: str)
      ∧ v.props.length = (strtok str [',', ' ']).length
      ∧ ("0x".toList <:+: str → ∀ (i : Nat) (tok : CStr), (strtok str [',', ' '])[i]? = some tok →
          v.words[i]? = some (strtoul tok 0 % 2 ^ 32))
      ∧ (¬ "0x".toList <:+: str → ∀ (i : Nat) (tok : CStr), (strtok str [',', ' '])[i]? = some tok →
          v.words[i]? = some (toWord32 (strtol tok 0))) := by
  have hmod : ∀ z : Int, toWord32 z % 2 ^ 32 = toWord32 z := by
    intro z
    simp only [toWord32]
    omega
  have hlenmod : (strtok str [',', ' ']).length % 2 ^ 16 = (strtok str [',', ' ']).length :=
    Nat.mod_eq_of_lt (by omega)
  by_cases h : "0x".toList <:+: str
  · have hs := (strstr_isSome_iff str "0x".toList).mpr h
    obtain ⟨v, hv, _, _, _, hstore⟩ :=
      vecLoop_set32 4 (fun tok => strtoul tok 0) (strtok str [',', ' ']) false 0 output
        (by omega) (by omega)
    refine ⟨false || !(strtok str [',', ' ']).isEmpty,
      { v with props := { v.props with
          isInt64 := false, isFloat := false, isDouble := false, isHex := true,
          length := (0 + (strtok str [',', ' ']).length) % 2 ^ 16 } }, ?_, ?_, ?_, ?_, ?_⟩
    · simp only [parseIVec4, hs, if_true, hv]
    · exact ⟨fun _ => h, fun _ => rfl⟩
    · simp only [Nat.zero_add, hlenmod]
    · intro _ i tok htok
      have := hstore i tok htok
      rw [Nat.zero_add] at this
      exact this
    · intro hn
      exact absurd h hn
  · have hs : (strstr str "0x".toList).isSome = false := by
      rw [← Bool.not_eq_true]
      exact fun hh => h ((strstr_isSome_iff str "0x".toList).mp hh)
    obtain ⟨v, hv, _, _, _, hstore⟩ :=
      vecLoop_set32 4 (fun tok => toWord32 (strtol tok 0)) (strtok str [',', ' ']) false 0
        output (by omega) (by omega)
    refine ⟨false || !(strtok str [',', ' ']).isEmpty,
      { v with props := { v.props with
          isInt64 := false, isFloat := false, isDouble := false, isHex := false,
          length := (0 + (strtok str [',', ' ']).length) % 2 ^ 16 } }, ?_, ?_, ?_, ?_, ?_⟩
    · simp only [parseIVec4, hs, Bool.false_eq_true, if_false, hv]
    · exact ⟨fun hh => Bool.noConfusion hh, fun hh => absurd hh h⟩
    · simp only [Nat.zero_add, hlenmod]
    · intro hy
      exact absurd hy h
    · intro _ i tok htok
      have := hstore i tok htok
      rw [Nat.zero_add, hmod] at this
      exact this

/-- C18, at the instance of the specification: the literal `0x0A, -3` gives the unsigned
components 10 and 0xFFFFFFFD, the length 2 and the flag `isHex`; the general statement
applies to it. -/
theorem parseIVec4_hex_rule_covers_every_component_witness :
    parseIVec4 "0x0A, -3".toList IUFValue.zero
      = .ok (true, ⟨[10, 4294967293, 0, 0], ⟨2, false, false, false, false, true⟩⟩)
    ∧ strtoul "-3".toList 0 % 2 ^ 32 = 4294967293
    ∧ ∃ (result : Bool) (v : IUFValue), parseIVec4 "0x0A, -3".toList IUFValue.zero = .ok (result, v)
      ∧ (v.props.isHex = true ↔ "0x".toList <:+: "0x0A, -3".toList)
      ∧ v.props.length = (strtok "0x0A, -3".toList [',', ' ']).length
      ∧ ("0x".toList <:+: "0x0A, -3".toList →
          ∀ (i : Nat) (tok : CStr), (strtok "0x0A, -3".toList [',', ' '])[i]? = some tok →
            v.words[i]? = some (strtoul tok 0 % 2 ^ 32))
      ∧ (¬ "0x".toList <:+: "0x0A, -3".toList →
          ∀ (i : Nat) (tok : CStr), (strtok "0x0A, -3".toList [',', ' '])[i]? = some tok →
            v.words[i]? = some (toWord32 (strtol tok 0))) :=
  ⟨by decide, by decide,
    parseIVec4_hex_rule_covers_every_component "0x0A, -3".toList IUFValue.zero
      (by decide) (by decide)⟩

/-- Source: the first word that `parseInt` stores, and its flag `isHex`. -/
theorem parseInt_word0 (str : CStr) (output : IUFValue) (hwords : 0 < output.words.length) :
    (parseInt str output).2.word0
        = (if (strstr str "0x".toList).isSome then strtoul str 0 % 2 ^ 32
           else toWord32 (strtol str 0) % 2 ^ 32)
      ∧ (parseInt str output).2.props.isHex = (strstr str "0x".toList).isSome := by
  obtain ⟨w, ws, hw⟩ := List.exists_cons_of_ne_nil (List.ne_nil_of_length_pos hwords)
  constructor
  · simp only [parseInt, IUFValue.word0, IUFValue.set32, hw]
    split <;> rfl
  · rfl

/-- A text of decimal digits, with or without a minus sign before them, does not contain
the substring `0x`. -/
theorem strstr_decimal (sign : CStr) (hsign : 'x' ∉ sign) (m : Nat) :
    (strstr (sign ++ Nat.toDigits 10 m) "0x".toList).isSome = false := by
  rw [← Bool.not_eq_true, strstr_isSome_iff]
  intro h
  have hx : 'x' ∈ sign ++ Nat.toDigits 10 m := h.subset (by decide)
  rcases List.mem_append.mp hx with hx | hx
  · exact hsign hx
  · exact absurd (toDigits_decimal m 'x' hx).1 (by decide)

/-- C20: through `parseInt`, into a value with a first word, the decimal text of a signed
32-bit number `n` stores exactly `n` (the word stored, read as a signed 32-bit number, is
`n`, and the flag `isHex` is not set), and `0x` followed by the hexadecimal digits of an
unsigned 32-bit number `u` stores exactly `u`, with the flag `isHex` set. -/
theorem parseInt_round_trip (output : IUFValue) (hwords : 0 < output.words.length) :
    (∀ n : Int, -2 ^ 31 ≤ n → n < 2 ^ 31 →
      asInt32 (parseInt (decimalText n) output).2.word0 = n
        ∧ (parseInt (decimalText n) output).2.props.isHex = false)
    ∧ (∀ u : Nat, u < 2 ^ 32 →
      (parseInt (hexText u) output).2.word0 = u
        ∧ (parseInt (hexText u) output).2.props.isHex = true) := by
  constructor
  · intro n hlo hhi
    cases n with
    | ofNat m =>
      have hm : m < 2 ^ 31 := by
        have : (m : Int) < 2 ^ 31 := hhi
        omega
      obtain ⟨hword, hflag⟩ := parseInt_word0 (Nat.toDigits 10 m) output hwords
      have hs := strstr_decimal [] (by decide) m
      rw [List.nil_append] at hs
      obtain ⟨d, L, hall, hpos, htext, hval⟩ := toDigits_digits 10 (by decide) m
      have hz : d = 0 → L = [] := by
        intro hd
        have hm0 : m = 0 := by
          by_contra hne
          exact absurd (hpos (Nat.pos_of_ne_zero hne)) (by omega)
        have h0 : Nat.toDigits 10 0 = ['0'] := by decide
        rw [hm0, h0] at htext
        have hlen := congrArg List.length htext
        simp only [List.length_cons, List.length_nil, List.length_map] at hlen
        exact List.eq_nil_of_length_eq_zero (by omega)
      have hparts := strtoParts_auto_decimal d L hall hz
      rw [hval, ← htext] at hparts
      have hstrtol : strtol (Nat.toDigits 10 m) 0 = (m : Int) := by
        have hge : ¬ m ≥ 2 ^ 63 := by omega
        simp only [strtol, hparts, Bool.false_eq_true, if_false, if_neg hge]
      have hw32 : toWord32 (m : Int) % 2 ^ 32 = m := by
        simp only [toWord32]
        omega
      refine ⟨?_, ?_⟩
      · show asInt32 (parseInt (Nat.toDigits 10 m) output).2.word0 = Int.ofNat m
        rw [hword, hs]
        simp only [Bool.false_eq_true, if_false, hstrtol, hw32, asInt32, if_pos hm]
        rfl
      · show (parseInt (Nat.toDigits 10 m) output).2.props.isHex = false
        rw [hflag, hs]
    | negSucc m =>
      have hm : m + 1 ≤ 2 ^ 31 := by
        have h := hlo
        rw [Int.negSucc_eq] at h
        omega
      obtain ⟨hword, hflag⟩ := parseInt_word0 ('-' :: Nat.toDigits 10 (m + 1)) output hwords
      have hs := strstr_decimal ['-'] (by decide) (m + 1)
      rw [List.singleton_append] at hs
      obtain ⟨d, L, hall, hpos, htext, hval⟩ := toDigits_digits 10 (by decide) (m + 1)
      have hparts := strtoParts_auto_negative d L hall (hpos (Nat.succ_pos m))
      rw [hval, ← htext] at hparts
      have hstrtol : strtol ('-' :: Nat.toDigits 10 (m + 1)) 0 = -((m + 1 : Nat) : Int) := by
        have hgt : ¬ m + 1 > 2 ^ 63 := by omega
        simp only [strtol, hparts, if_true, if_neg hgt]
      have hw32 : toWord32 (-((m + 1 : Nat) : Int)) % 2 ^ 32 = 2 ^ 32 - (m + 1) := by
        simp only [toWord32]
        omega
      have hnlt : ¬ 2 ^ 32 - (m + 1) < 2 ^ 31 := by omega
      refine ⟨?_, ?_⟩
      · show asInt32 (parseInt ('-' :: Nat.toDigits 10 (m + 1)) output).2.word0
            = Int.negSucc m
        rw [hword, hs]
        simp only [Bool.false_eq_true, if_false, hstrtol, hw32, asInt32, if_neg hnlt]
        rw [Int.negSucc_eq]
        omega
      · show (parseInt ('-' :: Nat.toDigits 10 (m + 1)) output).2.props.isHex = false
        rw [hflag, hs]
  · intro u hu
    obtain ⟨hword, hflag⟩ := parseInt_word0 (hexText u) output hwords
    have hs : (strstr (hexText u) "0x".toList).isSome = true := by
      rw [strstr_isSome_iff]
      exact ( List.prefix_append "0x".toList (Nat.toDigits 16 u)).isInfix
    obtain ⟨d, L, hall, _, htext, hval⟩ := toDigits_digits 16 (by decide) u
    have hparts := strtoParts_auto_hex d L hall
    rw [hval, ← htext] at hparts
    have hstrtoul : strtoul (hexText u) 0 = u := by
      have hge : ¬ u ≥ 2 ^ 64 := by omega
      simp only [strtoul, hexText, hparts, Bool.false_eq_true, if_false, if_neg hge]
    refine ⟨?_, ?_⟩
    · rw [hword, hs, if_pos rfl, hstrtoul]
      exact Nat.mod_eq_of_lt hu
    · rw [hflag, hs]

/-- C20, at the instances of the specification: the decimal text of -3 is `-3` and stores
-3, and the hexadecimal text of 16 is `0x10` and stores 16. -/
theorem parseInt_round_trip_witness :
    (decimalText (-3) = "-3".toList ∧ hexText 16 = "0x10".toList)
    ∧ (asInt32 (parseInt (decimalText (-3)) IUFValue.zero).2.word0 = -3
        ∧ (parseInt (decimalText (-3)) IUFValue.zero).2.props.isHex = false)
    ∧ ((parseInt (hexText 16) IUFValue.zero).2.word0 = 16
        ∧ (parseInt (hexText 16) IUFValue.zero).2.props.isHex = true) :=
  ⟨⟨by decide, by decide⟩,
    (parseInt_round_trip IUFValue.zero (by decide)).1 (-3) (by decide) (by decide),
    (parseInt_round_trip IUFValue.zero (by decide)).2 16 (by decide)⟩


/-! ## Vectors and arrays: properties -/

/-- Source: the loop of the vector parsers within the capacity: it ends without a failed
assertion, with the count of the tokens added to `numberId`, and with the result true when
there is a token. -/
theorem vecLoop_count (capacity : Nat) (store : Nat → CStr → IUFValue → IUFValue)
    (toks : List CStr) :
    ∀ (result : Bool) (numberId : Nat) (output : IUFValue),
      numberId + toks.length ≤ capacity →
      ∃ v, vecLoop capacity store toks result numberId output
        = .ok (result || !toks.isEmpty, numberId + toks.length, v) := by
  induction toks with
  | nil =>
    intro result numberId output _
    exact ⟨output, by simp [vecLoop]⟩
  | cons t ts ih =>
    intro result numberId output hcap
    simp only [List.length_cons] at hcap
    obtain ⟨v, hv⟩ := ih true (numberId + 1) (store numberId t output) (by omega)
    refine ⟨v, ?_⟩
    simp only [vecLoop, if_pos (show numberId < capacity by omega), hv, List.length_cons,
      List.isEmpty_cons, Bool.not_false, Bool.or_true, Bool.true_or]
    congr 3
    omega

/-- C21: each of the fixed-vector parsers, on a literal whose components (the tokens that
`strtok` cuts at commas and spaces) are no more than the vector holds, returns true exactly
when there is at least one component, and records the count of the components as the
length of the value: four at most for `parseIVec4`, `parseFVec4` and `parseF16Vec4`, two
at most for `parseI64Vec2` and `parseDVec2`. -/
theorem vector_length_is_component_count {S : Type} (E : Env S) (str : CStr)
    (output : IUFValue) :
    ((strtok str [',', ' ']).length ≤ 4 →
      ∃ v, parseIVec4 str output = .ok (!(strtok str [',', ' ']).isEmpty, v)
        ∧ v.props.length = (strtok str [',', ' ']).length)
    ∧ ((strtok str [',', ' ']).length ≤ 2 →
      ∃ v, parseI64Vec2 str output = .ok (!(strtok str [',', ' ']).isEmpty, v)
        ∧ v.props.length = (strtok str [',', ' ']).length)
    ∧ ((strtok str [',', ' ']).length ≤ 4 →
      ∃ v, parseFVec4 E str output = .ok (!(strtok str [',', ' ']).isEmpty, v)
        ∧ v.props.length = (strtok str [',', ' ']).length)
    ∧ ((strtok str [',', ' ']).length ≤ 4 →
      ∃ v, parseF16Vec4 E str output = .ok (!(strtok str [',', ' ']).isEmpty, v)
        ∧ v.props.length = (strtok str [',', ' ']).length)
    ∧ ((strtok str [',', ' ']).length ≤ 2 →
      ∃ v, parseDVec2 E str output = .ok (!(strtok str [',', ' ']).isEmpty, v)
        ∧ v.props.length = (strtok str [',', ' ']).length) := by
  have hmod : ∀ n : Nat, n ≤ 4 → (0 + n) % 2 ^ 16 = n := by
    intro n hn
    rw [Nat.zero_add]
    exact Nat.mod_eq_of_lt (by omega)
  refine ⟨?_, ?_, ?_, ?_, ?_⟩
  · intro h
    obtain ⟨v, hv⟩ := vecLoop_count 4 (fun numberId number out =>
        if (strstr str "0x".toList).isSome then out.set32 numberId (strtoul number 0)
        else out.set32 numberId (toWord32 (strtol number 0)))
      (strtok str [',', ' ']) false 0 output (by omega)
    simp only [parseIVec4, hv, Bool.false_or]
    exact ⟨_, rfl, hmod _ h⟩
  · intro h
    obtain ⟨v, hv⟩ := vecLoop_count 2 (fun numberId number out =>
        if (strstr str "0x".toList).isSome then out.set64 numberId (strtoul number 0)
        else out.set64 numberId (toWord64 (strtol number 0)))
      (strtok str [',', ' ']) false 0 output (by omega)
    simp only [parseI64Vec2, hv, Bool.false_or]
    exact ⟨_, rfl, hmod _ (by omega)⟩
  · intro h
    obtain ⟨v, hv⟩ := vecLoop_count 4 (fun numberId number out =>
        out.set32 numberId (E.doubleToFloat (E.strtod number)))
      (strtok str [',', ' ']) false 0 output (by omega)
    simp only [parseFVec4, hv, Bool.false_or]
    exact ⟨_, rfl, hmod _ h⟩
  · intro h
    obtain ⟨v, hv⟩ := vecLoop_count 4 (fun numberId number out =>
        out.set16 numberId (E.FromFloat32 (E.doubleToFloat (E.strtod number))))
      (strtok str [',', ' ']) false 0 output (by omega)
    simp only [parseF16Vec4, hv, Bool.false_or]
    exact ⟨_, rfl, hmod _ h⟩
  · intro h
    obtain ⟨v, hv⟩ := vecLoop_count 2 (fun numberId number out =>
        out.set64 numberId (E.strtod number))
      (strtok str [',', ' ']) false 0 output (by omega)
    simp only [parseDVec2, hv, Bool.false_or]
    exact ⟨_, rfl, hmod _ (by omega)⟩

/-- C21, at instances: `1 2` is accepted as an integer vector of length 2, the empty
literal is refused with length 0, and the general statement applies to `1 2`. -/
theorem vector_length_is_component_count_witness :
    parseIVec4 "1 2".toList IUFValue.zero
      = .ok (true, ⟨[1, 2, 0, 0], ⟨2, false, false, false, false, false⟩⟩)
    ∧ parseIVec4 [] IUFValue.zero
      = .ok (false, ⟨[0, 0, 0, 0], ⟨0, false, false, false, false, false⟩⟩)
    ∧ ∃ v, parseI64Vec2 "7".toList IUFValue.zero
        = .ok (!(strtok "7".toList [',', ' ']).isEmpty, v)
      ∧ v.props.length = (strtok "7".toList [',', ' ']).length :=
  ⟨by decide, by decide,
    (vector_length_is_component_count sampleEnv "7".toList IUFValue.zero).2.1 (by decide)⟩

/-- C23: on a literal of at most three components, `parseBinding` returns true exactly when
there is a component, records the count of the components as length, sets `isHex` exactly
when the literal contains `0x`, and stores at the position of each component: the set id
`VfxVertexBufferSetId` for a component that is exactly `vb`, `VfxIndexBufferSetId` for one
that is exactly `ib`, whether the literal contains `0x` or not, and for every other
component the number of the integer-vector rule (read by `strtoul` when the literal
contains `0x`, by `strtol` otherwise), each cut to 32 bits. -/
theorem parseBinding_resolves_vb_and_ib {S : Type} (E : Env S) (str : CStr)
    (output : IUFValue) (hcount : (strtok str [',', ' ']).length ≤ 3)
    (hwords : output.words.length = 4) :
    ∃ (v : IUFValue),
      parseBinding E str output = .ok (!(strtok str [',', ' ']).isEmpty, v)
      ∧ v.props.length = (strtok str [',', ' ']).length
      ∧ (v.props.isHex = true ↔ "0x".toList <:+: str)
      ∧ ∀ (i : Nat) (tok : CStr), (strtok str [',', ' '])[i]? = some tok →
          (tok = "vb".toList → v.words[i]? = some (E.VfxVertexBufferSetId % 2 ^ 32))
          ∧ (tok = "ib".toList → v.words[i]? = some (E.VfxIndexBufferSetId % 2 ^ 32))
          ∧ (tok ≠ "vb".toList → tok ≠ "ib".toList → "0x".toList <:+: str →
              v.words[i]? = some (strtoul tok 0 % 2 ^ 32))
          ∧ (tok ≠ "vb".toList → tok ≠ "ib".toList → ¬ "0x".toList <:+: str →
              v.words[i]? = some (toWord32 (strtol tok 0))) := by
  have hstore : (fun (numberId : Nat) (number : CStr) (out : IUFValue) =>
        if number = "vb".toList then out.set32 numberId E.VfxVertexBufferSetId
        else if number = "ib".toList then out.set32 numberId E.VfxIndexBufferSetId
        else if (strstr str "0x".toList).isSome then out.set32 numberId (strtoul number 0)
        else out.set32 numberId (toWord32 (strtol number 0)))
      = (fun numberId number out => out.set32 numberId
          (if number = "vb".toList then E.VfxVertexBufferSetId
           else if number = "ib".toList then E.VfxIndexBufferSetId
           else if (strstr str "0x".toList).isSome then strtoul number 0
           else toWord32 (strtol number 0))) := by
    funext numberId number out
    split
    · rfl
    · split
      · rfl
      · split <;> rfl
  obtain ⟨v, hv, _, _, _, hval⟩ :=
    vecLoop_set32 3 (fun number =>
        if number = "vb".toList then E.VfxVertexBufferSetId
        else if number = "ib".toList then E.VfxIndexBufferSetId
        else if (strstr str "0x".toList).isSome then strtoul number 0
        else toWord32 (strtol number 0))
      (strtok str [',', ' ']) false 0 output (by omega) (by omega)
  refine ⟨{ v with props := { v.props with
      isInt64 := false, isFloat := false, isDouble := false,
      isHex := (strstr str "0x".toList).isSome,
      length := (0 + (strtok str [',', ' ']).length) % 2 ^ 16 } }, ?_, ?_, ?_, ?_⟩
  · simp only [parseBinding, hstore, hv, Bool.false_or]
  · simp only [Nat.zero_add]
    exact Nat.mod_eq_of_lt (by omega)
  · exact strstr_isSome_iff str "0x".toList
  · intro i tok htok
    have h := hval i tok htok
    rw [Nat.zero_add] at h
    refine ⟨?_, ?_, ?_, ?_⟩
    · intro ht
      rw [h, if_pos ht]
    · intro ht
      have hne : ¬ tok = "vb".toList := by
        rw [ht]
        decide
      rw [h, if_neg hne, if_pos ht]
    · intro h1 h2 hx
      rw [h, if_neg h1, if_neg h2, if_pos ((strstr_isSome_iff str "0x".toList).mpr hx)]
    · intro h1 h2 hx
      have hs : ¬ (strstr str "0x".toList).isSome = true :=
        fun hh => hx ((strstr_isSome_iff str "0x".toList).mp hh)
      rw [h, if_neg h1, if_neg h2, if_neg hs]
      simp only [toWord32]
      congr 1
      omega

/-- C23, at an instance: `vb, 0x10, ib` gives the two set ids around 16, the length 3 and
the flag `isHex`; the general statement applies to it. -/
theorem parseBinding_resolves_vb_and_ib_witness :
    parseBinding sampleEnv "vb, 0x10, ib".toList IUFValue.zero
      = .ok (true, ⟨[4294967280, 16, 4294967281, 0], ⟨3, false, false, false, false, true⟩⟩)
    ∧ ∃ (v : IUFValue),
      parseBinding sampleEnv "vb, 0x10, ib".toList IUFValue.zero
        = .ok (!(strtok "vb, 0x10, ib".toList [',', ' ']).isEmpty, v)
      ∧ v.props.length = (strtok "vb, 0x10, ib".toList [',', ' ']).length
      ∧ (v.props.isHex = true ↔ "0x".toList <:+: "vb, 0x10, ib".toList)
      ∧ ∀ (i : Nat) (tok : CStr), (strtok "vb, 0x10, ib".toList [',', ' '])[i]? = some tok →
          (tok = "vb".toList → v.words[i]? = some (sampleEnv.VfxVertexBufferSetId % 2 ^ 32))
          ∧ (tok = "ib".toList → v.words[i]? = some (sampleEnv.VfxIndexBufferSetId % 2 ^ 32))
          ∧ (tok ≠ "vb".toList → tok ≠ "ib".toList → "0x".toList <:+: "vb, 0x10, ib".toList →
              v.words[i]? = some (strtoul tok 0 % 2 ^ 32))
          ∧ (tok ≠ "vb".toList → tok ≠ "ib".toList →
              ¬ "0x".toList <:+: "vb, 0x10, ib".toList →
              v.words[i]? = some (toWord32 (strtol tok 0))) :=
  ⟨by decide,
    parseBinding_resolves_vb_and_ib sampleEnv "vb, 0x10, ib".toList IUFValue.zero
      (by decide) (by decide)⟩

/-- Source: `strtok` on two texts joined by a delimiter: the tokens of the first, then the
tokens of the second. -/
theorem strtokFrom_join (delims : List Char) (d : Char) (hd : d ∈ delims) (a b : CStr) :
    ∀ cur : CStr, strtokFrom delims (a ++ d :: b) cur
      = strtokFrom delims a cur ++ strtokFrom delims b [] := by
  induction a with
  | nil =>
    intro cur
    simp only [List.nil_append, strtokFrom, if_pos hd]
    split <;> simp
  | cons c cs ih =>
    intro cur
    show strtokFrom delims (c :: (cs ++ d :: b)) cur = _
    simp only [strtokFrom]
    split
    · split
      · exact ih []
      · rw [ih [], List.cons_append]
    · exact ih (cur ++ [c])

theorem parseIArrayLoop_append (isSign : Bool) (toks1 toks2 : List CStr) :
    ∀ bufMem : List Nat, parseIArrayLoop isSign (toks1 ++ toks2) bufMem
      = parseIArrayLoop isSign toks2 (parseIArrayLoop isSign toks1 bufMem) := by
  induction toks1 with
  | nil => intro bufMem; rfl
  | cons t ts ih =>
    intro bufMem
    simp only [List.cons_append, parseIArrayLoop]
    exact ih _

theorem bytesOf_length (n w : Nat) : (bytesOf n w).length = n := by
  induction n generalizing w with
  | zero => rfl
  | succ n ih => simp [bytesOf, ih]

/-- Source: `parseIArray` appends to the buffer what it appends to the empty buffer: four
bytes for each token. -/
theorem parseIArrayLoop_keeps_buffer (isSign : Bool) (toks : List CStr) :
    ∀ bufMem : List Nat, parseIArrayLoop isSign toks bufMem
        = bufMem ++ parseIArrayLoop isSign toks []
      ∧ (parseIArrayLoop isSign toks []).length = 4 * toks.length := by
  induction toks with
  | nil => intro bufMem; simp [parseIArrayLoop]
  | cons t ts ih =>
    intro bufMem
    simp only [parseIArrayLoop, List.nil_append, List.length_cons]
    constructor
    · rw [(ih (bufMem ++ _)).1, (ih (bytesOf 4 _)).1, List.append_assoc]
    · rw [(ih (bytesOf 4 _)).1, List.length_append, (ih []).2, bytesOf_length]
      omega

/-- Source: `parseIArray` in an empty buffer: for each token in turn the four bytes of its
32-bit number, read by `strtoul` when the token contains `0x` or the array is unsigned, by
`strtol` otherwise. -/
theorem parseIArrayLoop_elements (isSign : Bool) (toks : List CStr) :
    parseIArrayLoop isSign toks []
      = toks.flatMap (fun number => bytesOf 4
          (if (strstr number "0x".toList).isSome || !isSign then strtoul number 0 % 2 ^ 32
           else toWord32 (strtol number 0))) := by
  induction toks with
  | nil => rfl
  | cons t ts ih =>
    simp only [parseIArrayLoop, List.nil_append, List.flatMap_cons]
    rw [(parseIArrayLoop_keeps_buffer isSign ts _).1, ih]

theorem bytesOf_four (w : Nat) : bytesOf 4 w = nativeBytes32 w := by
  simp only [bytesOf, nativeBytes32, Nat.div_div_eq_div_mul]

/-- C25: `parseIArray` returns true and only appends: the bytes already in the buffer stay
as a prefix, followed by what the literal gives in an empty buffer, four bytes for each
component, which are the bytes of its 32-bit number in native byte order (the low byte
first); and parsing one literal and then another into the same buffer gives the same bytes
as parsing the two literals joined by a comma. So `1,2` and then `3,4` give in an empty
buffer what `1,2,3,4` gives, the bytes `1 0 0 0 2 0 0 0 3 0 0 0 4 0 0 0` of the four elements
1, 2, 3, 4; and the signed literal `-2 0x10` gives the bytes `254 255 255 255 16 0 0 0`. -/
theorem parseIArray_only_appends (isSign : Bool) (str str2 : CStr) (bufMem : List Nat) :
    (parseIArray str isSign bufMem).1 = true
    ∧ (parseIArray str isSign bufMem).2 = bufMem ++ (parseIArray str isSign []).2
    ∧ (parseIArray str isSign []).2.length = 4 * (strtok str [',', ' ']).length
    ∧ (parseIArray str isSign []).2
        = (strtok str [',', ' ']).flatMap (fun number => nativeBytes32
            (if (strstr number "0x".toList).isSome || !isSign then strtoul number 0 % 2 ^ 32
             else toWord32 (strtol number 0)))
    ∧ (parseIArray str2 isSign (parseIArray str isSign bufMem).2).2
        = (parseIArray (str ++ ',' :: str2) isSign bufMem).2
    ∧ (parseIArray "3,4".toList isSign (parseIArray "1,2".toList isSign []).2).2
        = [1, 0, 0, 0, 2, 0, 0, 0, 3, 0, 0, 0, 4, 0, 0, 0]
    ∧ (parseIArray "1,2,3,4".toList isSign []).2
        = [1, 0, 0, 0, 2, 0, 0, 0, 3, 0, 0, 0, 4, 0, 0, 0]
    ∧ (parseIArray "-2 0x10".toList true []).2 = [254, 255, 255, 255, 16, 0, 0, 0] := by
  refine ⟨rfl, (parseIArrayLoop_keeps_buffer isSign _ bufMem).1,
    (parseIArrayLoop_keeps_buffer isSign _ []).2, ?_, ?_, ?_, ?_, ?_⟩
  · have h := parseIArrayLoop_elements isSign (strtok str [',', ' '])
    simp only [bytesOf_four] at h
    exact h
  · simp only [parseIArray, strtok]
    rw [strtokFrom_join [',', ' '] ',' (by decide) str str2 [], parseIArrayLoop_append]
  · cases isSign <;> decide
  · cases isSign <;> decide
  · decide

/-- C25, at an instance: the literal `3,4` parsed into the buffer that holds the bytes of
the elements 1 and 2 leaves them in front and adds the bytes of 3 and 4. -/
theorem parseIArray_only_appends_witness :
    (parseIArray "3,4".toList true [1, 0, 0, 0, 2, 0, 0, 0]).2
        = [1, 0, 0, 0, 2, 0, 0, 0] ++ (parseIArray "3,4".toList true []).2
    ∧ (parseIArray "3,4".toList true [1, 0, 0, 0, 2, 0, 0, 0]).2
        = [1, 0, 0, 0, 2, 0, 0, 0, 3, 0, 0, 0, 4, 0, 0, 0] :=
  ⟨(parseIArray_only_appends true "3,4".toList [] [1, 0, 0, 0, 2, 0, 0, 0]).2.1, by decide⟩

/-! ## Scalars: properties -/

/-- C22, as stated, fails: for the token `0x8000000000000000`, which is neither `true` nor
`false`, `parseBool` stores the word 0xFFFFFFFF (the signed reading of `strtol`, which
stops at its largest number) and `parseInt` stores 0 (the unsigned reading of `strtoul`,
cut to 32 bits); in the schema of `flagEnv` the line `enable = 0x8000000000000000` so
assigns true to the bool field `enable`. -/
theorem parseBool_differs_from_parseInt :
    (parseBool "0x8000000000000000".toList IUFValue.zero).2.word0 = 4294967295
    ∧ (parseInt "0x8000000000000000".toList IUFValue.zero).2.word0 = 0
    ∧ parseKeyValue flagEnv "enable".toList "0x8000000000000000".toList 1 ⟨[]⟩ []
      = .ok (true, ⟨[([], "enable".toList, .uint8 1)]⟩, []) := by
  refine ⟨by decide, by decide, by rfl⟩

/-- Source: the case `MemberTypeBool` of `parseKeyValue`: when `parseKey` resolves the key to a
member whose type is bool, the value is parsed by `parseBool` and `set` is called with 1
when the integer stored is not zero, with 0 when it is. -/
theorem parseKeyValue_bool {S : Type} (E : Env S) (key valueStr : CStr) (lineNum : Nat)
    (sectionObject : S) (errorMsg errorMsg1 : ErrorMsg) (st : KeyState S) (memberName : CStr)
    (hkey : parseKey E key lineNum sectionObject E.MaxKeyBufSize errorMsg = .ok st)
    (hresult : st.result = true) (hname : st.memberNameBuffer = some memberName)
    (htype : E.getMemberType st.root st.tempSectionObj lineNum memberName st.errorMsg
      = (true, .MemberTypeBool, errorMsg1)) :
    parseKeyValue E key valueStr lineNum sectionObject errorMsg
      = .ok ((E.set st.root st.tempSectionObj lineNum memberName
            (.uint8 (if (parseBool valueStr IUFValue.zero).2.word0 ≠ 0 then 1 else 0))).1,
          (E.set st.root st.tempSectionObj lineNum memberName
            (.uint8 (if (parseBool valueStr IUFValue.zero).2.word0 ≠ 0 then 1 else 0))).2,
          errorMsg1) := by
  simp only [parseKeyValue, hkey, hresult, hname, htype, Bool.not_true, Bool.false_eq_true,
    if_false]

/-- Source: the signed reading of `strtol` and the unsigned reading of `strtoul` of a token
whose number is below 2^63 in magnitude have the same low 32 bits. -/
theorem strtol_strtoul_low_word (str : CStr) (h : (strtoParts str 0).2 < 2 ^ 63) :
    toWord32 (strtol str 0) = strtoul str 0 % 2 ^ 32 := by
  simp only [strtol, strtoul, toWord32]
  cases hn : (strtoParts str 0).1 <;> simp only [hn, Bool.false_eq_true, if_false, if_true]
  · rw [if_neg (by omega), if_neg (by omega)]
    omega
  · rw [if_neg (by omega), if_neg (by omega)]
    omega

/-- C22, amended: `parseBool` succeeds on every input and stores 1 for the token `true`, 0
for the token `false`, and for every other token the signed integer that `strtol` reads
with automatic base, which is the integer that `parseInt` stores for the token when the
token does not contain `0x` or its number is below 2^63 in magnitude; and `parseKeyValue`,
for a key resolved to a member of the type bool, then assigns 1 exactly when the integer
stored is not zero, 0 otherwise. -/
theorem parseBool_stores_signed_reading {S : Type} (E : Env S) (key valueStr : CStr)
    (lineNum : Nat) (sectionObject : S) (errorMsg errorMsg1 : ErrorMsg) (st : KeyState S)
    (memberName : CStr) (output : IUFValue) (hwords : 0 < output.words.length)
    (hkey : parseKey E key lineNum sectionObject E.MaxKeyBufSize errorMsg = .ok st)
    (hresult : st.result = true) (hname : st.memberNameBuffer = some memberName)
    (htype : E.getMemberType st.root st.tempSectionObj lineNum memberName st.errorMsg
      = (true, .MemberTypeBool, errorMsg1)) :
    (parseBool valueStr output).1 = true
    ∧ (valueStr = "true".toList → (parseBool valueStr output).2.word0 = 1)
    ∧ (valueStr = "false".toList → (parseBool valueStr output).2.word0 = 0)
    ∧ (valueStr ≠ "true".toList → valueStr ≠ "false".toList →
        (parseBool valueStr output).2.word0 = toWord32 (strtol valueStr 0)
        ∧ ((¬ "0x".toList <:+: valueStr ∨ (strtoParts valueStr 0).2 < 2 ^ 63) →
          (parseBool valueStr output).2.word0 = (parseInt valueStr output).2.word0))
    ∧ parseKeyValue E key valueStr lineNum sectionObject errorMsg
      = .ok ((E.set st.root st.tempSectionObj lineNum memberName
            (.uint8 (if (parseBool valueStr IUFValue.zero).2.word0 ≠ 0 then 1 else 0))).1,
          (E.set st.root st.tempSectionObj lineNum memberName
            (.uint8 (if (parseBool valueStr IUFValue.zero).2.word0 ≠ 0 then 1 else 0))).2,
          errorMsg1) := by
  obtain ⟨w, ws, hw⟩ := List.exists_cons_of_ne_nil (List.ne_nil_of_length_pos hwords)
  have hmod : toWord32 (strtol valueStr 0) % 2 ^ 32 = toWord32 (strtol valueStr 0) := by
    simp only [toWord32]
    omega
  refine ⟨rfl, ?_, ?_, ?_,
    parseKeyValue_bool E key valueStr lineNum sectionObject errorMsg errorMsg1 st memberName
      hkey hresult hname htype⟩
  · intro h
    simp [parseBool, h, IUFValue.set32, IUFValue.word0, hw]
  · intro h
    simp [parseBool, h, IUFValue.set32, IUFValue.word0, hw]
  · intro h1 h2
    have hb : (parseBool valueStr output).2.word0 = toWord32 (strtol valueStr 0) := by
      simp only [parseBool, if_neg h1, if_neg h2, IUFValue.set32, IUFValue.word0, hw,
        List.set_cons_zero, List.getD_cons_zero, hmod]
    refine ⟨hb, ?_⟩
    intro hcase
    rw [hb, (parseInt_word0 valueStr output hwords).1]
    split
    · next hs =>
      rcases hcase with hc | hc
      · exact absurd ((strstr_isSome_iff valueStr "0x".toList).mp hs) hc
      · exact strtol_strtoul_low_word valueStr hc
    · exact hmod.symm

/-- C22, amended, at an instance: in the schema of `flagEnv` the line `enable = 010`, whose
value is read as octal eight by `parseBool` and by `parseInt` alike, assigns true. -/
theorem parseBool_stores_signed_reading_witness :
    (parseBool "010".toList IUFValue.zero).2.word0 = 8
    ∧ (parseBool "010".toList IUFValue.zero).2.word0
        = (parseInt "010".toList IUFValue.zero).2.word0
    ∧ parseKeyValue flagEnv "enable".toList "010".toList 1 ⟨[]⟩ []
      = .ok (true, ⟨[([], "enable".toList, .uint8 1)]⟩, []) :=
  have h := parseBool_stores_signed_reading flagEnv "enable".toList "010".toList 1 ⟨[]⟩ [] []
    ⟨true, ⟨[]⟩, [], false, 0, some "enable".toList, []⟩ "enable".toList IUFValue.zero
    (by decide) (by rfl) rfl rfl (by rfl)
  ⟨(h.2.2.2.1 (by decide) (by decide)).1.trans (by decide),
    (h.2.2.2.1 (by decide) (by decide)).2 (Or.inl (by decide)),
    h.2.2.2.2⟩

/-- C24: for the name `BOGUS`, which the enum table of `sampleEnv` does not have,
`parseEnumName` returns false, leaves the value unchanged and appends a parse error for the
line, whose text is `unknow enum`, not `unknown enum`; for the name `ON`, which the table
has, it returns true, stores the integer of the table and appends nothing. -/
theorem parseEnumName_diagnostic_text :
    parseEnumName sampleEnv "BOGUS".toList 3 IUFValue.zero []
      = (false, IUFValue.zero, [⟨3, "unknow enum".toList⟩])
    ∧ "unknow enum".toList ≠ "unknown enum".toList
    ∧ parseEnumName sampleEnv "ON".toList 3 IUFValue.zero []
      = (true, ⟨[1, 0, 0, 0], ⟨0, false, false, false, false, false⟩⟩, []) := by
  refine ⟨by decide, by decide, by decide⟩

/-! ## Sections: properties -/

/-- C26: in the shader-source section `VertexShader` of `sampleSchema`, the lines
`void main()` with its line terminator and `\x7b\x7d` without one, as a file gives them
whose last line has no terminator, are added on closing as `void main()` and `\x7b`, each
followed by a line terminator: the last character of the last line is replaced by the
terminator, since `getline` counts no terminator there and the store goes to
`lineBuffer[readCount - 1]`. With a terminator after the last line nothing is lost. -/
theorem parseSectionShaderSource_drops_last_character :
    (parseLinesThenEnd sampleEnv ["void main()\n".toList, "\x7b\x7d".toList]
        inVertexShader).map
      (fun r => (r.1, (r.2.m_vfxDoc.m_sections.getD 3 []).map (fun s => s.text)))
      = .ok (true, ["void main()\n\x7b\n".toList])
    ∧ (parseLinesThenEnd sampleEnv ["void main()\n".toList, "\x7b\x7d\n".toList]
        inVertexShader).map
      (fun r => (r.1, (r.2.m_vfxDoc.m_sections.getD 3 []).map (fun s => s.text)))
      = .ok (true, ["void main()\n\x7b\x7d\n".toList])
    ∧ (parseSectionShaderSource sampleEnv
        { inVertexShader with m_currentSectionStringBuffer := ⟨"ab\ncd".toList, true⟩ }).map
      (fun p => (p.m_vfxDoc.m_sections.getD 3 []).map (fun s => s.text))
      = .ok ["ab\nc\n".toList] := by
  refine ⟨by rfl, by rfl, by rfl⟩

/-- C28: for every line that starts with `[` and contains no `]`, `beginSection` returns
false and appends the parse error `expect ]` with the current line number; the sections of
the document, its section list and the current section are as before, so no section is
created. When the line has no comment either and the close of the open section succeeds,
`parseLine` on the line returns false with that diagnostic, which ends the loop of
`parse`. -/
theorem beginSection_without_closing_bracket {S : Type} (E : Env S) (line : CStr)
    (p p2 : VfxParser S) (hhead : line.head? = some '[') (hbracket : ']' ∉ line)
    (hcomment : ';' ∉ line) (hvalid : ValidPointer p)
    (hend : endSection E { p with m_currentLineNum := p.m_currentLineNum + 1 }
      = .ok (true, p2)) :
    beginSection E line p
      = .ok (false, { p with m_vfxDoc := { p.m_vfxDoc with
          m_errorMsg := p.m_vfxDoc.m_errorMsg ++ [⟨p.m_currentLineNum, "expect ]".toList⟩] } })
    ∧ parseLine E line p
      = .ok (false, { p2 with m_vfxDoc := { p2.m_vfxDoc with
          m_errorMsg :=
            p2.m_vfxDoc.m_errorMsg ++ [⟨p2.m_currentLineNum, "expect ]".toList⟩] } }) := by
  have hb : ∀ q : VfxParser S, beginSection E line q
      = .ok (false, { q with m_vfxDoc := { q.m_vfxDoc with
          m_errorMsg := q.m_vfxDoc.m_errorMsg ++ [⟨q.m_currentLineNum, "expect ]".toList⟩] } }) := by
    intro q
    simp only [beginSection, hhead, ne_eq, not_true_eq_false, if_false,
      strchr_none line ']' hbracket, PARSE_ERROR]
  refine ⟨hb p, ?_⟩
  have hnone : strchr line ';' = none := strchr_none line ';' hcomment
  have hline : (if line.head? = some '[' then
        match endSection E { p with m_currentLineNum := p.m_currentLineNum + 1 } with
        | .error f => .error f
        | .ok (false, q) => .ok (false, q)
        | .ok (true, q) => beginSection E line q
      else
        (.ok (true, { p with
          m_currentLineNum := p.m_currentLineNum + 1
          m_currentSectionStringBuffer := p.m_currentSectionStringBuffer.insert line }) :
          Except Fault (Bool × VfxParser S)))
      = .ok (false, { p2 with m_vfxDoc := { p2.m_vfxDoc with
          m_errorMsg :=
            p2.m_vfxDoc.m_errorMsg ++ [⟨p2.m_currentLineNum, "expect ]".toList⟩] } }) := by
    rw [if_pos hhead, hend]
    exact hb p2
  unfold parseLine
  simp only [hnone]
  cases ht : trimsComments E { p with m_currentLineNum := p.m_currentLineNum + 1 } with
  | error f =>
    exfalso
    unfold trimsComments at ht
    cases hc : p.m_currentSection with
    | none => simp [hc] at ht
    | some ptr =>
      have hsome := hvalid ptr hc
      simp only [hc] at ht
      cases hs : p.m_vfxDoc.sectionAt ptr with
      | none => simp [hs] at hsome
      | some s => simp [hs] at ht
  | ok trim =>
    simp only []
    cases trim <;> exact hline

/-- C28, at an instance: in the open section `Sample` of `sampleSchema`, the line `[Sample`
on line 2 is refused by `beginSection` and by `parseLine`, with `expect ]` for line 2 and
the one section of the document as before. -/
theorem beginSection_without_closing_bracket_witness :
    beginSection sampleEnv "[Sample\n".toList inSample
      = .ok (false, { inSample with m_vfxDoc := { inSample.m_vfxDoc with
          m_errorMsg := [⟨1, "expect ]".toList⟩] } })
    ∧ parseLine sampleEnv "[Sample\n".toList inSample
      = .ok (false, { inSample with
          m_currentLineNum := 2
          m_currentSectionStringBuffer := ⟨[], false⟩
          m_vfxDoc := { inSample.m_vfxDoc with m_errorMsg := [⟨2, "expect ]".toList⟩] } }) :=
  beginSection_without_closing_bracket sampleEnv "[Sample\n".toList inSample
    { inSample with m_currentLineNum := 2, m_currentSectionStringBuffer := ⟨[], false⟩ }
    (by decide) (by decide) (by decide)
    (by
      intro ptr h
      have hp : ptr = (5, 0) := by
        simp only [inSample, Option.some.injEq] at h
        exact h.symm
      rw [hp]
      rfl)
    (by rfl)

/-- Source: `Document::getFreeSection`, on a document that has the bucket of the type of the
name: under the maximum count of the type a section is created and appended to the bucket
and to the section list, otherwise null is returned and the document is as before. -/
theorem getFreeSection_eq {S : Type} (E : Env S) (doc : Document S)
    (sectionName : Option CStr) (bucket : List S)
    (hbucket : doc.m_sections[E.getSectionType sectionName]? = some bucket) :
    doc.getFreeSection E sectionName
      = if bucket.length < E.getMaxSectionCount (E.getSectionType sectionName) then
          .ok (some (E.getSectionType sectionName, bucket.length),
            { doc with
              m_sections := doc.m_sections.set (E.getSectionType sectionName)
                (bucket ++ [E.createSection sectionName])
              m_sectionList := doc.m_sectionList
                ++ [(E.getSectionType sectionName, bucket.length)] })
        else .ok (none, doc) := by
  simp only [Document.getFreeSection, hbucket]

theorem getD_set_buckets {S : Type} (buckets : List (List S)) (t t1 : Nat)
    (bucket : List S) :
    (buckets.set t bucket).getD t1 []
      = if t = t1 ∧ t < buckets.length then bucket else buckets.getD t1 [] := by
  rw [List.getD_eq_getElem?_getD, List.getD_eq_getElem?_getD, List.getElem?_set]
  by_cases h : t = t1
  · subst h
    by_cases hl : t < buckets.length
    · simp [hl]
    · simp [hl, List.getElem?_eq_none (Nat.le_of_not_lt hl)]
  · simp [h]

/-- Source: one call of `Document::getFreeSection` keeps the buckets within the maximum
counts, keeps every section where it is, and extends the section list at its end. -/
theorem getFreeSection_keeps {S : Type} (E : Env S) (doc doc1 : Document S)
    (sectionName : Option CStr) (ptr : Option (SectionType × Nat))
    (h : doc.getFreeSection E sectionName = .ok (ptr, doc1)) :
    (doc.WithinCaps E → doc1.WithinCaps E)
    ∧ (∀ q s, doc.sectionAt q = some s → doc1.sectionAt q = some s)
    ∧ doc.m_sectionList <+: doc1.m_sectionList
    ∧ doc1.m_sections.length = doc.m_sections.length := by
  cases hb : doc.m_sections[E.getSectionType sectionName]? with
  | none => simp [Document.getFreeSection, hb] at h
  | some bucket =>
    have hlt : E.getSectionType sectionName < doc.m_sections.length := by
      by_contra hc
      rw [List.getElem?_eq_none (Nat.le_of_not_lt hc)] at hb
      exact Option.noConfusion hb
    have hget : doc.m_sections.getD (E.getSectionType sectionName) [] = bucket := by
      rw [List.getD_eq_getElem?_getD, hb]
      rfl
    rw [getFreeSection_eq E doc sectionName bucket hb] at h
    split at h
    · next hcap =>
      simp only [Except.ok.injEq, Prod.mk.injEq] at h
      obtain ⟨_, hdoc⟩ := h
      subst hdoc
      refine ⟨?_, ?_, List.prefix_append _ _, by simp⟩
      · intro hw t
        simp only [getD_set_buckets]
        split
        · next ht =>
          rw [← ht.1, List.length_append, List.length_singleton]
          omega
        · exact hw t
      · intro q s hq
        simp only [Document.sectionAt, getD_set_buckets] at hq ⊢
        split
        · next ht =>
          rw [← ht.1, hget] at hq
          have hlen : q.2 < bucket.length := by
            by_contra hc
            rw [List.getElem?_eq_none (Nat.le_of_not_lt hc)] at hq
            exact Option.noConfusion hq
          rw [List.getElem?_append_left hlen]
          exact hq
        · exact hq
    · simp only [Except.ok.injEq, Prod.mk.injEq] at h
      obtain ⟨_, hdoc⟩ := h
      subst hdoc
      exact ⟨fun hw => hw, fun _ _ hq => hq, List.prefix_refl _, rfl⟩

/-- Source: any sequence of calls of `Document::getFreeSection` keeps the buckets within the
maximum counts, keeps every section where it is, and extends the section list at its
end. -/
theorem getFreeSections_keeps {S : Type} (E : Env S) (names : List (Option CStr)) :
    ∀ (doc doc1 : Document S) (ptrs : List (Option (SectionType × Nat))),
      getFreeSections E names doc = .ok (ptrs, doc1) →
      (doc.WithinCaps E → doc1.WithinCaps E)
      ∧ (∀ q s, doc.sectionAt q = some s → doc1.sectionAt q = some s)
      ∧ doc.m_sectionList <+: doc1.m_sectionList
      ∧ doc1.m_sections.length = doc.m_sections.length := by
  induction names with
  | nil =>
    intro doc doc1 ptrs h
    simp only [getFreeSections, Except.ok.injEq, Prod.mk.injEq] at h
    obtain ⟨_, hdoc⟩ := h
    subst hdoc
    exact ⟨fun hw => hw, fun _ _ hq => hq, List.prefix_refl _, rfl⟩
  | cons n rest ih =>
    intro doc doc1 ptrs h
    simp only [getFreeSections] at h
    cases h1 : doc.getFreeSection E n with
    | error f => simp [h1] at h
    | ok r =>
      obtain ⟨ptr, docm⟩ := r
      simp only [h1] at h
      cases h2 : getFreeSections E rest docm with
      | error f => simp [h2] at h
      | ok r2 =>
        obtain ⟨ptrs2, doc2⟩ := r2
        simp only [h2, Except.ok.injEq, Prod.mk.injEq] at h
        obtain ⟨_, hdoc⟩ := h
        subst hdoc
        obtain ⟨a1, a2, a3, a4⟩ := getFreeSection_keeps E doc docm n ptr h1
        obtain ⟨b1, b2, b3, b4⟩ := ih docm doc2 ptrs2 h2
        exact ⟨fun hw => b1 (a1 hw), fun q s hq => b2 q s (a2 q s hq), a3.trans b3,
          b4.trans a4⟩

/-- Source: a sequence of calls of `Document::getFreeSection` with names whose types have a
bucket in the document returns. -/
theorem getFreeSections_returns {S : Type} (E : Env S) (names : List (Option CStr)) :
    ∀ (doc : Document S), (∀ n ∈ names, E.getSectionType n < doc.m_sections.length) →
      ∃ ptrs doc1, getFreeSections E names doc = .ok (ptrs, doc1) := by
  induction names with
  | nil => intro doc _; exact ⟨[], doc, rfl⟩
  | cons n rest ih =>
    intro doc hn
    have hlt := hn n (List.mem_cons_self _ _)
    have hb : doc.m_sections[E.getSectionType n]?
        = some (doc.m_sections[E.getSectionType n]) := List.getElem?_eq_getElem hlt
    have h1 := getFreeSection_eq E doc n _ hb
    obtain ⟨ptr, docm, hm⟩ : ∃ ptr docm, doc.getFreeSection E n = .ok (ptr, docm) := by
      rw [h1]
      split
      · exact ⟨_, _, rfl⟩
      · exact ⟨_, _, rfl⟩
    have hlen := (getFreeSection_keeps E doc docm n ptr hm).2.2.2
    obtain ⟨ptrs, doc2, h2⟩ := ih docm (fun x hx => by
      rw [hlen]
      exact hn x (List.mem_cons_of_mem _ hx))
    exact ⟨ptr :: ptrs, doc2, by simp only [getFreeSections, hm, h2]⟩

/-- C27: on a document that has the bucket of the type of the name, `Document::getFreeSection`
creates a section, appends it as the last element of the bucket and of the section list and
returns it exactly when the bucket holds fewer sections than the maximum count of the type;
otherwise it returns null and the document is as before. Hence any sequence of calls keeps
every bucket within its maximum count, as the buckets of a new document are, leaves the
sections already created in place, extends the section list at its end only, and returns
when the types of the names have a bucket. -/
theorem getFreeSection_enforces_cap {S : Type} (E : Env S) (doc : Document S)
    (sectionName : Option CStr) (bucket : List S)
    (hbucket : doc.m_sections[E.getSectionType sectionName]? = some bucket) :
    (bucket.length < E.getMaxSectionCount (E.getSectionType sectionName) →
      doc.getFreeSection E sectionName
        = .ok (some (E.getSectionType sectionName, bucket.length),
            { doc with
              m_sections := doc.m_sections.set (E.getSectionType sectionName)
                (bucket ++ [E.createSection sectionName])
              m_sectionList := doc.m_sectionList
                ++ [(E.getSectionType sectionName, bucket.length)] }))
    ∧ (E.getMaxSectionCount (E.getSectionType sectionName) ≤ bucket.length →
      doc.getFreeSection E sectionName = .ok (none, doc))
    ∧ (Document.create E).WithinCaps E
    ∧ (∀ (names : List (Option CStr)) (ptrs : List (Option (SectionType × Nat)))
        (doc1 : Document S), getFreeSections E names doc = .ok (ptrs, doc1) →
        (doc.WithinCaps E → doc1.WithinCaps E)
        ∧ (∀ q s, doc.sectionAt q = some s → doc1.sectionAt q = some s)
        ∧ doc.m_sectionList <+: doc1.m_sectionList)
    ∧ (∀ names : List (Option CStr),
        (∀ n ∈ names, E.getSectionType n < doc.m_sections.length) →
        ∃ ptrs doc1, getFreeSections E names doc = .ok (ptrs, doc1)) := by
  refine ⟨?_, ?_, ?_, ?_, fun names => getFreeSections_returns E names doc⟩
  · intro h
    rw [getFreeSection_eq E doc sectionName bucket hbucket, if_pos h]
  · intro h
    rw [getFreeSection_eq E doc sectionName bucket hbucket, if_neg (Nat.not_lt.mpr h)]
  · intro t
    simp only [Document.create, List.getD_eq_getElem?_getD]
    cases hg : (List.replicate E.SectionTypeNameNum ([] : List S))[t]? with
    | none => simp
    | some b =>
      have hb : b = [] := by
        obtain ⟨hlt, hget⟩ := List.getElem?_eq_some_iff.mp hg
        rw [← hget]
        exact List.getElem_replicate _ _
      simp [hb]
  · intro names ptrs doc1 h
    obtain ⟨a1, a2, a3, _⟩ := getFreeSections_keeps E names doc doc1 ptrs h
    exact ⟨a1, a2, a3⟩

/-- C27, at instances: in the schema `sampleSchema`, whose section `Sample` has at most
two instances, the call for `Sample` on a document with one such section appends the
second, and the call on a document with two returns null and leaves the document as it
is. -/
theorem getFreeSection_enforces_cap_witness :
    inSample.m_vfxDoc.getFreeSection sampleEnv (some "Sample".toList)
      = .ok (some (5, 1),
          { inSample.m_vfxDoc with
            m_sections := [[], [], [], [], [],
              [⟨sampleInfo (some "Sample".toList), 1, [], []⟩,
               ⟨sampleInfo (some "Sample".toList), 0, [], []⟩]]
            m_sectionList := [(5, 0), (5, 1)] })
    ∧ Document.getFreeSection sampleEnv
        { inSample.m_vfxDoc with
          m_sections := [[], [], [], [], [],
            [⟨sampleInfo (some "Sample".toList), 1, [], []⟩,
             ⟨sampleInfo (some "Sample".toList), 0, [], []⟩]]
          m_sectionList := [(5, 0), (5, 1)] }
        (some "Sample".toList)
      = .ok (none,
          { inSample.m_vfxDoc with
            m_sections := [[], [], [], [], [],
              [⟨sampleInfo (some "Sample".toList), 1, [], []⟩,
               ⟨sampleInfo (some "Sample".toList), 0, [], []⟩]]
            m_sectionList := [(5, 0), (5, 1)] }) :=
  ⟨(getFreeSection_enforces_cap sampleEnv inSample.m_vfxDoc (some "Sample".toList)
      [⟨sampleInfo (some "Sample".toList), 1, [], []⟩] (by rfl)).1 (by decide),
   (getFreeSection_enforces_cap sampleEnv
      { inSample.m_vfxDoc with
        m_sections := [[], [], [], [], [],
          [⟨sampleInfo (some "Sample".toList), 1, [], []⟩,
           ⟨sampleInfo (some "Sample".toList), 0, [], []⟩]]
        m_sectionList := [(5, 0), (5, 1)] }
      (some "Sample".toList)
      [⟨sampleInfo (some "Sample".toList), 1, [], []⟩,
       ⟨sampleInfo (some "Sample".toList), 0, [], []⟩] (by rfl)).2.1 (by decide)⟩

/-! ## Compilation: properties -/

theorem compilePairs_append {S : Type} (E : Env S) (l1 l2 : List (Nat × Nat)) :
    ∀ doc : Document S, compilePairs E (l1 ++ l2) doc
      = match compilePairs E l1 doc with
        | .error f => .error f
        | .ok (rets1, doc1) =>
          match compilePairs E l2 doc1 with
          | .error f => .error f
          | .ok (rets2, doc2) => .ok (rets1 ++ rets2, doc2) := by
  induction l1 with
  | nil =>
    intro doc
    simp only [List.nil_append, compilePairs]
    cases compilePairs E l2 doc with
    | error f => rfl
    | ok r => rfl
  | cons a rest ih =>
    intro doc
    obtain ⟨stage, i⟩ := a
    show compilePairs E ((stage, i) :: (rest ++ l2)) doc = _
    simp only [compilePairs]
    cases h1 : compilePair E stage i doc with
    | error f => rfl
    | ok r =>
      obtain ⟨ret, doc1⟩ := r
      simp only []
      rw [ih doc1]
      cases h2 : compilePairs E rest doc1 with
      | error f => rfl
      | ok r2 =>
        obtain ⟨rets, doc2⟩ := r2
        simp only []
        cases h3 : compilePairs E l2 doc2 with
        | error f => rfl
        | ok r3 => rfl

/-- A store to a section keeps the length of every bucket. -/
theorem setSectionAt_lengths {S : Type} (doc : Document S) (ptr : SectionType × Nat) (s : S)
    (t : Nat) :
    ((doc.setSectionAt ptr s).m_sections.getD t []).length
      = (doc.m_sections.getD t []).length := by
  simp only [Document.setSectionAt, getD_set_buckets]
  split
  · next h => rw [List.length_set, h.1]
  · rfl

theorem compilePair_lengths {S : Type} (E : Env S) (stage i : Nat) (doc doc1 : Document S)
    (ret : Bool) (h : compilePair E stage i doc = .ok (ret, doc1)) (t : Nat) :
    (doc1.m_sections.getD t []).length = (doc.m_sections.getD t []).length := by
  unfold compilePair at h
  split at h
  · simp only [Except.ok.injEq, Prod.mk.injEq] at h
    obtain ⟨_, hdoc⟩ := h
    rw [← hdoc]
    exact setSectionAt_lengths doc _ _ t
  · exact Except.noConfusion h

theorem compilePairs_lengths {S : Type} (E : Env S) (l : List (Nat × Nat)) :
    ∀ (doc doc1 : Document S) (rets : List Bool),
      compilePairs E l doc = .ok (rets, doc1) →
      ∀ t, (doc1.m_sections.getD t []).length = (doc.m_sections.getD t []).length := by
  induction l with
  | nil =>
    intro doc doc1 rets h t
    simp only [compilePairs, Except.ok.injEq, Prod.mk.injEq] at h
    rw [← h.2]
  | cons a rest ih =>
    intro doc doc1 rets h t
    obtain ⟨stage, i⟩ := a
    simp only [compilePairs] at h
    cases h1 : compilePair E stage i doc with
    | error f => simp [h1] at h
    | ok r =>
      obtain ⟨ret, docm⟩ := r
      simp only [h1] at h
      cases h2 : compilePairs E rest docm with
      | error f => simp [h2] at h
      | ok r2 =>
        obtain ⟨rets2, doc2⟩ := r2
        simp only [h2, Except.ok.injEq, Prod.mk.injEq] at h
        rw [← h.2, ih docm doc2 rets2 h2 t, compilePair_lengths E stage i doc docm ret h1 t]

theorem compileStage_cons {S : Type} (E : Env S) (stage : Nat) (src : S) (rest : List S)
    (i : Nat) (ret : Bool) (doc : Document S) :
    compileStage E stage (src :: rest) i ret doc
      = match (doc.m_sections.getD (E.SectionTypeVertexShaderInfo + stage) [])[i]? with
        | none => .error .assertFailed
        | some info =>
          compileStage E stage rest (i + 1)
            (ret && (E.compileShader src doc.m_fileName info doc.m_errorMsg).1)
            { (doc.setSectionAt (E.SectionTypeVertexShader + stage, i)
                (E.compileShader src doc.m_fileName info doc.m_errorMsg).2.1) with
              m_errorMsg := (E.compileShader src doc.m_fileName info doc.m_errorMsg).2.2 } := by
  rfl

theorem compilePair_eq {S : Type} (E : Env S) (stage i : Nat) (doc : Document S) (src : S)
    (hsrc : (doc.m_sections.getD (E.SectionTypeVertexShader + stage) [])[i]? = some src) :
    compilePair E stage i doc
      = match (doc.m_sections.getD (E.SectionTypeVertexShaderInfo + stage) [])[i]? with
        | none => .error .assertFailed
        | some info =>
          .ok ((E.compileShader src doc.m_fileName info doc.m_errorMsg).1,
            { (doc.setSectionAt (E.SectionTypeVertexShader + stage, i)
                (E.compileShader src doc.m_fileName info doc.m_errorMsg).2.1) with
              m_errorMsg := (E.compileShader src doc.m_fileName info doc.m_errorMsg).2.2 }) := by
  simp only [compilePair, Document.sectionAt, hsrc]
  cases (doc.m_sections.getD (E.SectionTypeVertexShaderInfo + stage) [])[i]? with
  | none => rfl
  | some info => rfl

/-- Source: the inner loop of `Document::compileShader` from the index `i` on is the sequence of
the invocations of `compilePair` for the indices from `i` on, and its flag the conjunction of
the flag it starts with and of all their flags. -/
theorem compileStage_eq {S : Type} (E : Env S) (stage : Nat) :
    ∀ (shaders : List S) (i : Nat) (ret : Bool) (doc : Document S),
      shaders = (doc.m_sections.getD (E.SectionTypeVertexShader + stage) []).drop i →
      compileStage E stage shaders i ret doc
        = (compilePairs E ((List.range' i shaders.length).map (fun j => (stage, j))) doc).map
            (fun r => (ret && r.1.all id, r.2)) := by
  intro shaders
  induction shaders with
  | nil =>
    intro i ret doc _
    simp [compileStage, compilePairs, Except.map]
  | cons src rest ih =>
    intro i ret doc hdrop
    have hsrc : (doc.m_sections.getD (E.SectionTypeVertexShader + stage) [])[i]? = some src := by
      have h0 := congrArg (fun l => l[0]?) hdrop
      simp only [List.getElem?_cons_zero, List.getElem?_drop, Nat.add_zero] at h0
      exact h0.symm
    have hrest : rest = (doc.m_sections.getD (E.SectionTypeVertexShader + stage) []).drop
        (i + 1) := by
      have h1 := congrArg List.tail hdrop
      simp only [List.tail_cons, List.tail_drop] at h1
      exact h1
    rw [compileStage_cons]
    simp only [List.length_cons, List.range'_succ, List.map_cons, compilePairs]
    rw [compilePair_eq E stage i doc src hsrc]
    cases hinfo : (doc.m_sections.getD (E.SectionTypeVertexShaderInfo + stage) [])[i]? with
    | none => rfl
    | some info =>
      simp only []
      have hrest1 : rest
          = (({ (doc.setSectionAt (E.SectionTypeVertexShader + stage, i)
                  (E.compileShader src doc.m_fileName info doc.m_errorMsg).2.1) with
                m_errorMsg := (E.compileShader src doc.m_fileName info doc.m_errorMsg).2.2 } :
              Document S).m_sections.getD (E.SectionTypeVertexShader + stage) []).drop
              (i + 1) := by
        simp only [Document.setSectionAt, getD_set_buckets]
        split
        · rw [List.drop_set_of_lt _ _ (Nat.lt_succ_self i)]
          exact hrest
        · exact hrest
      rw [ih (i + 1) _ _ hrest1]
      cases hp : compilePairs E (List.map (fun j => (stage, j)) (List.range' (i + 1) rest.length))
          ({ (doc.setSectionAt (E.SectionTypeVertexShader + stage, i)
                (E.compileShader src doc.m_fileName info doc.m_errorMsg).2.1) with
              m_errorMsg := (E.compileShader src doc.m_fileName info doc.m_errorMsg).2.2 } :
            Document S) with
      | error f => rfl
      | ok q =>
        obtain ⟨rets, doc2⟩ := q
        simp only [Except.map, List.all_cons, id, Bool.and_assoc]

/-- Source: the outer loop of `Document::compileShader` over `n` stages from `stage` on is the
sequence of the invocations of `compilePair` for every shader-source section of these stages,
in stage order and then section order. -/
theorem compileStages_eq {S : Type} (E : Env S) :
    ∀ (n stage : Nat) (ret : Bool) (doc : Document S),
      compileStages E n stage ret doc
        = (compilePairs E ((List.range' stage n).flatMap (fun st =>
            (List.range (doc.m_sections.getD (E.SectionTypeVertexShader + st) []).length).map
              (fun i => (st, i)))) doc).map
            (fun r => (ret && r.1.all id, r.2)) := by
  intro n
  induction n with
  | zero =>
    intro stage ret doc
    simp [compileStages, compilePairs, Except.map]
  | succ n ih =>
    intro stage ret doc
    simp only [compileStages, List.range'_succ, List.flatMap_cons]
    rw [compilePairs_append,
      compileStage_eq E stage _ 0 ret doc (List.drop_zero _).symm, ← List.range_eq_range']
    cases h1 : compilePairs E
        (List.map (fun i => (stage, i))
          (List.range (doc.m_sections.getD (E.SectionTypeVertexShader + stage) []).length))
        doc with
    | error f => rfl
    | ok q =>
      obtain ⟨rets1, doc1⟩ := q
      simp only [Except.map]
      rw [ih (stage + 1) (ret && rets1.all id) doc1]
      simp only [compilePairs_lengths E _ doc doc1 rets1 h1]
      cases h2 : compilePairs E ((List.range' (stage + 1) n).flatMap (fun st =>
          (List.range (doc.m_sections.getD (E.SectionTypeVertexShader + st) []).length).map
            (fun i => (st, i)))) doc1 with
      | error f => rfl
      | ok q2 =>
        obtain ⟨rets2, doc2⟩ := q2
        simp only [Except.map, List.all_append, Bool.and_assoc]

/-- The invocations of `compilePair` for pairs whose two sections the document has return,
with one flag for each pair. -/
theorem compilePairs_returns {S : Type} (E : Env S) (l : List (Nat × Nat)) :
    ∀ doc : Document S,
      (∀ q ∈ l, q.2 < (doc.m_sections.getD (E.SectionTypeVertexShader + q.1) []).length
        ∧ q.2 < (doc.m_sections.getD (E.SectionTypeVertexShaderInfo + q.1) []).length) →
      ∃ rets doc1, compilePairs E l doc = .ok (rets, doc1) ∧ rets.length = l.length := by
  induction l with
  | nil => intro doc _; exact ⟨[], doc, rfl, rfl⟩
  | cons a rest ih =>
    intro doc h
    obtain ⟨stage, i⟩ := a
    obtain ⟨h1, h2⟩ := h (stage, i) (List.mem_cons_self _ _)
    have hs : doc.sectionAt (E.SectionTypeVertexShader + stage, i)
        = some ((doc.m_sections.getD (E.SectionTypeVertexShader + stage) [])[i]) :=
      List.getElem?_eq_getElem h1
    have hi : doc.sectionAt (E.SectionTypeVertexShaderInfo + stage, i)
        = some ((doc.m_sections.getD (E.SectionTypeVertexShaderInfo + stage) [])[i]) :=
      List.getElem?_eq_getElem h2
    obtain ⟨ret, docm, hm⟩ : ∃ ret docm, compilePair E stage i doc = .ok (ret, docm) := by
      simp only [compilePair, hs, hi]
      exact ⟨_, _, rfl⟩
    obtain ⟨rets, doc1, hr, hlen⟩ := ih docm (fun q hq => by
      rw [compilePair_lengths E stage i doc docm ret hm,
        compilePair_lengths E stage i doc docm ret hm]
      exact h q (List.mem_cons_of_mem _ hq))
    exact ⟨ret :: rets, doc1, by simp only [compilePairs, hm, hr], by simp [hlen]⟩

/-- C29: `Document::compileShader` is the sequence of the invocations of the per-section
compile for every shader-source section of the document, in stage order and then section
order, the section `i` of a stage with the shader-info section `i` of the stage, each
invocation made whatever the flags of the earlier ones; its result is true if and only if
every flag is. When every stage has a shader-info section for each of its shader-source
sections (the assertion of the loop), it returns, after one invocation for each
shader-source section. -/
theorem compileShader_invokes_every_pair {S : Type} (E : Env S) (doc : Document S) :
    doc.compileShader E
      = (compilePairs E (shaderPairs E doc) doc).map (fun r => (r.1.all id, r.2))
    ∧ ((∀ stage, stage < E.ShaderStageCount →
          (doc.m_sections.getD (E.SectionTypeVertexShader + stage) []).length
            ≤ (doc.m_sections.getD (E.SectionTypeVertexShaderInfo + stage) []).length) →
        ∃ rets doc1, compilePairs E (shaderPairs E doc) doc = .ok (rets, doc1)
          ∧ rets.length = (shaderPairs E doc).length
          ∧ doc.compileShader E = .ok (rets.all id, doc1)) := by
  have hmain : doc.compileShader E
      = (compilePairs E (shaderPairs E doc) doc).map (fun r => (r.1.all id, r.2)) := by
    rw [Document.compileShader, compileStages_eq, shaderPairs, List.range_eq_range']
    simp only [Bool.true_and]
  refine ⟨hmain, ?_⟩
  intro hassert
  obtain ⟨rets, doc1, hr, hlen⟩ := compilePairs_returns E (shaderPairs E doc) doc (by
    intro q hq
    simp only [shaderPairs, List.mem_flatMap, List.mem_range, List.mem_map] at hq
    obtain ⟨stage, hstage, i, hi, hqi⟩ := hq
    rw [← hqi]
    exact ⟨hi, Nat.lt_of_lt_of_le hi (hassert stage hstage)⟩)
  exact ⟨rets, doc1, hr, hlen, by rw [hmain, hr]; rfl⟩

/-- C29, at an instance: on the document `twoStageDoc` the compile is refused for the first
section and is all the same invoked for the second section of the first stage and for the
section of the second stage, each with the shader-info section of its index; the result is
false and the one diagnostic is kept. -/
theorem compileShader_invokes_every_pair_witness :
    shaderPairs twoStageEnv twoStageDoc = [(0, 0), (0, 1), (1, 0)]
    ∧ twoStageDoc.compileShader twoStageEnv
      = .ok (false,
          { twoStageDoc with
            m_sections :=
              [[],
               [⟨⟨"VertexShader".toList, 1, 2, true, []⟩, 1, [], []⟩,
                ⟨⟨"VertexShader".toList, 1, 2, true, []⟩, 5, [("info".toList, .int 7)],
                  "b\n".toList⟩],
               [⟨⟨"FragmentShader".toList, 2, 2, true, []⟩, 9, [("info".toList, .int 11)],
                  "c\n".toList⟩],
               [⟨⟨"VertexShaderInfo".toList, 3, 2, false, []⟩, 3, [], []⟩,
                ⟨⟨"VertexShaderInfo".toList, 3, 2, false, []⟩, 7, [], []⟩],
               [⟨⟨"FragmentShaderInfo".toList, 4, 2, false, []⟩, 11, [], []⟩]]
            m_errorMsg := [⟨1, "empty shader".toList⟩] }) :=
  ⟨by decide, (compileShader_invokes_every_pair twoStageEnv twoStageDoc).1.trans (by rfl)⟩

/-! ## The end of the input: properties -/

/-- Source: when the loop of `parse` ends with the result true, the result and the parser are
those of the call of `endSection` made at the end of the input: every line before it was
substituted and parsed with the result true. -/
theorem parseLoop_true_closes {S : Type} (E : Env S) (macros : MacroDefinition) :
    ∀ (fuel : Nat) (file : CStr) (lineBuf : List Char) (p p2 : VfxParser S),
      parseLoop E macros fuel file lineBuf p = some (.ok (true, p2)) →
      ∃ q, endSection E q = .ok (true, p2) := by
  intro fuel
  induction fuel with
  | zero =>
    intro file lineBuf p p2 h
    simp [parseLoop] at h
  | succ fuel ih =>
    intro file lineBuf p p2 h
    simp only [parseLoop] at h
    split at h
    · simp only [Option.some.injEq] at h
      exact ⟨p, h⟩
    · split at h
      · simp at h
      · split at h
        · simp at h
        · simp at h
        · simp at h
        · split at h
          · simp at h
          · split at h
            · simp at h
            · simp at h
            · exact ih _ _ _ _ h

/-- Source: the loop of `parse` is its turns on the lines, and then, when every line was
substituted and parsed with the result true, the one call of `endSection` at the end of the
input. -/
theorem parseLoop_lines_then_close {S : Type} (E : Env S) (macros : MacroDefinition) :
    ∀ (fuel : Nat) (file : CStr) (lineBuf : List Char) (p : VfxParser S),
      parseLoop E macros fuel file lineBuf p
        = match substituteAndParseLines E macros fuel file lineBuf p with
          | some (.ok (true, q)) => some (endSection E q)
          | r => r := by
  intro fuel
  induction fuel with
  | zero => intro file lineBuf p; rfl
  | succ fuel ih =>
    intro file lineBuf p
    simp only [parseLoop, substituteAndParseLines]
    split
    · rfl
    · split
      · rfl
      · split
        · rfl
        · rfl
        · rfl
        · split
          · rfl
          · split
            · rfl
            · rfl
            · exact ih _ _ _

/-- C30: `parse` returns false when the file cannot be opened. Otherwise, after the loop over
the lines, which ends with the result of the call of `endSection` made at the end of the input
when every line was substituted and parsed with the result true, and with false at the
first line that was not: when the loop ends with false, `parse` returns false and neither
validation nor compilation is run; when it ends with true, validation is run, and when
validation fails `parse` returns false without compilation; when validation succeeds,
compilation is run and `parse` returns its result. So `parse` returns true exactly when the
loop, the close at the end of the input in it, validation and compilation all returned
true. On a file without definitions to substitute the loop is `parseLine` on each line in
turn followed by `endSection` once. With any definitions, each turn of the loop is pinned: at
the end of the input the loop ends with the result of `endSection`; when
`macroSubstituteLine` returns false on the line read, the loop ends with false at once,
with the diagnostics of the substitution, and so does it when `parseLine` returns false on
the substituted line; only when both return true does the loop go on with the rest of the
file. So the loop is these turns on the lines and then, when every line was substituted
and parsed with the result true, the one call of `endSection`. -/
theorem parse_end_of_input_order {S : Type} (E : Env S) (fuel : Nat) (lineBuf : List Char)
    (info : TestCaseInfo) (doc : Document S) (p : VfxParser S) :
    (info.contents = none →
      parse E fuel lineBuf info doc p
        = some (.ok (false, { p with m_vfxDoc := doc, m_isValidVfxFile := false })))
    ∧ (∀ file b p2, info.contents = some file →
        parseLoop E info.macros fuel file lineBuf
            { p with m_vfxDoc := { doc with m_fileName := info.vfxFile } }
          = some (.ok (b, p2)) →
        (b = false →
          parse E fuel lineBuf info doc p
            = some (.ok (false, { p2 with m_isValidVfxFile := false })))
        ∧ (b = true →
            (E.validate p2.m_vfxDoc.m_sections p2.m_vfxDoc.m_errorMsg).1 = false →
          parse E fuel lineBuf info doc p
            = some (.ok (false, { p2 with
                m_vfxDoc := { p2.m_vfxDoc with
                  m_errorMsg := (E.validate p2.m_vfxDoc.m_sections p2.m_vfxDoc.m_errorMsg).2 }
                m_isValidVfxFile := false })))
        ∧ (b = true →
            (E.validate p2.m_vfxDoc.m_sections p2.m_vfxDoc.m_errorMsg).1 = true →
          ∀ c doc1,
            Document.compileShader E { p2.m_vfxDoc with
                m_errorMsg := (E.validate p2.m_vfxDoc.m_sections p2.m_vfxDoc.m_errorMsg).2 }
              = .ok (c, doc1) →
            parse E fuel lineBuf info doc p
              = some (.ok (c, { p2 with m_vfxDoc := doc1, m_isValidVfxFile := c })))
        ∧ (b = true → ∃ q, endSection E q = .ok (true, p2)))
    ∧ (∀ p3, parse E fuel lineBuf info doc p = some (.ok (true, p3)) →
        ∃ file p2 doc1, info.contents = some file
          ∧ parseLoop E info.macros fuel file lineBuf
              { p with m_vfxDoc := { doc with m_fileName := info.vfxFile } }
            = some (.ok (true, p2))
          ∧ (E.validate p2.m_vfxDoc.m_sections p2.m_vfxDoc.m_errorMsg).1 = true
          ∧ Document.compileShader E { p2.m_vfxDoc with
                m_errorMsg := (E.validate p2.m_vfxDoc.m_sections p2.m_vfxDoc.m_errorMsg).2 }
              = .ok (true, doc1))
    ∧ (∀ (lines : List CStr) (file : CStr) (q : VfxParser S) (n : Nat),
        fgetsSplit E.MaxLineBufSize file lines = true →
        (∀ l ∈ lines, NUL ∉ l ∧ l.length < lineBuf.length) →
        parseLoop E [] (n + lines.length + 1) file lineBuf q
          = some (parseLinesThenEnd E lines q))
    ∧ (∀ (n : Nat) (file : CStr) (buf0 : List Char) (q : VfxParser S),
        (fgets E.MaxLineBufSize file = none →
          parseLoop E info.macros (n + 1) file buf0 q = some (endSection E q))
        ∧ (∀ (line file1 : CStr) (lineBuf1 : List Char),
            fgets E.MaxLineBufSize file = some (line, file1) →
            writeAt buf0 0 (line ++ [NUL]) = some lineBuf1 →
            (∀ (lineBuf2 : List Char) (errorMsg1 : ErrorMsg),
              macroSubstituteLine n lineBuf1 0 (q.m_currentLineNum + 1) info.macros
                  E.MaxLineBufSize q.m_vfxDoc.m_errorMsg
                = some (.ok (false, lineBuf2, errorMsg1)) →
              parseLoop E info.macros (n + 1) file buf0 q
                = some (.ok (false,
                    { q with m_vfxDoc := { q.m_vfxDoc with m_errorMsg := errorMsg1 } })))
            ∧ (∀ (lineBuf2 : List Char) (errorMsg1 : ErrorMsg) (linePtr : CStr),
              macroSubstituteLine n lineBuf1 0 (q.m_currentLineNum + 1) info.macros
                  E.MaxLineBufSize q.m_vfxDoc.m_errorMsg
                = some (.ok (true, lineBuf2, errorMsg1)) →
              cstrAt lineBuf2 0 = some linePtr →
              (∀ q1 : VfxParser S,
                parseLine E linePtr
                    { q with m_vfxDoc := { q.m_vfxDoc with m_errorMsg := errorMsg1 } }
                  = .ok (false, q1) →
                parseLoop E info.macros (n + 1) file buf0 q = some (.ok (false, q1)))
              ∧ (∀ q1 : VfxParser S,
                parseLine E linePtr
                    { q with m_vfxDoc := { q.m_vfxDoc with m_errorMsg := errorMsg1 } }
                  = .ok (true, q1) →
                parseLoop E info.macros (n + 1) file buf0 q
                  = parseLoop E info.macros n file1 lineBuf2 q1))))
    ∧ (∀ (n : Nat) (file : CStr) (buf0 : List Char) (q : VfxParser S),
        parseLoop E info.macros n file buf0 q
          = match substituteAndParseLines E info.macros n file buf0 q with
            | some (.ok (true, q1)) => some (endSection E q1)
            | r => r) := by
  refine ⟨?_, ?_, ?_, ?_, ?_, parseLoop_lines_then_close E info.macros⟩
  · intro h
    simp only [parse, h]
  · intro file b p2 hfile hloop
    refine ⟨?_, ?_, ?_, ?_⟩
    · intro hb
      subst hb
      simp only [parse, hfile, hloop]
    · intro hb hv
      subst hb
      simp only [parse, hfile, hloop, hv, Bool.not_false, if_true]
    · intro hb hv c doc1 hc
      subst hb
      simp only [parse, hfile, hloop, hv, Bool.not_true, Bool.false_eq_true, if_false, hc]
    · intro hb
      subst hb
      exact parseLoop_true_closes E info.macros fuel file lineBuf _ p2 hloop
  · intro p3 h
    cases hfile : info.contents with
    | none => simp [parse, hfile] at h
    | some file =>
      simp only [parse, hfile] at h
      cases hloop : parseLoop E info.macros fuel file lineBuf
          { p with m_vfxDoc := { doc with m_fileName := info.vfxFile } } with
      | none => simp [hloop] at h
      | some r =>
        cases r with
        | error f => simp [hloop] at h
        | ok r1 =>
          obtain ⟨b, p2⟩ := r1
          cases b with
          | false => simp [hloop] at h
          | true =>
            simp only [hloop] at h
            cases hv : (E.validate p2.m_vfxDoc.m_sections p2.m_vfxDoc.m_errorMsg).1 with
            | false => simp [hv] at h
            | true =>
              simp only [hv, Bool.not_true, Bool.false_eq_true, if_false] at h
              cases hc : Document.compileShader E { p2.m_vfxDoc with
                  m_errorMsg := (E.validate p2.m_vfxDoc.m_sections p2.m_vfxDoc.m_errorMsg).2 } with
              | error f => simp [hc] at h
              | ok r2 =>
                obtain ⟨c, doc1⟩ := r2
                simp only [hc, Option.some.injEq, Except.ok.injEq, Prod.mk.injEq] at h
                refine ⟨file, p2, doc1, rfl, hloop, hv, ?_⟩
                rw [hc, h.1]
  · intro lines file q n hsplit hfit
    exact parseLoop_without_definitions E lines file lineBuf q n hsplit hfit
  · intro n file buf0 q
    refine ⟨?_, ?_⟩
    · intro hf
      simp only [parseLoop, hf]
    · intro line file1 lineBuf1 hf hw
      refine ⟨?_, ?_⟩
      · intro lineBuf2 errorMsg1 hm
        simp only [parseLoop, hf, hw, hm]
      · intro lineBuf2 errorMsg1 linePtr hm hc
        refine ⟨?_, ?_⟩
        · intro q1 hp
          simp only [parseLoop, hf, hw, hm, hc, hp]
        · intro q1 hp
          simp only [parseLoop, hf, hw, hm, hc, hp]

/-- C30, at instances: the file of the two lines `[Sample]` and `n = 2` is parsed, closed,
validated and compiled, and `parse` returns true; the file of the line `[Sample`, a header
without `]`, ends the loop with false, and `parse` returns false with the parser as the
loop left it. With `FOO` defined as a text of 12 characters and a line buffer of 16 bytes,
the substitution fails on the third line of the file `[Sample]`, `n = 1`, `n = FOO`: the
loop ends there with false, the section is left open with its line `n = 1` unread, and
`parse` returns false with the diagnostic of the substitution only. -/
theorem parse_end_of_input_order_witness :
    parse sampleEnv 4 (List.replicate 32 NUL)
        ⟨"t.vfx".toList, some "[Sample]\nn = 2\n".toList, []⟩
        (Document.create sampleEnv) (VfxParser.create (Document.create sampleEnv))
      = some (.ok (true,
          { m_vfxDoc :=
              { m_sections := [[], [], [], [], [],
                  [⟨sampleInfo (some "Sample".toList), 1, [("n".toList, .int 2)], []⟩]]
                m_sectionList := [(5, 0)]
                m_errorMsg := []
                m_fileName := "t.vfx".toList }
            m_isValidVfxFile := true
            m_currentSection := some (5, 0)
            m_currentLineNum := 2
            m_currentSectionLineNum := 2
            m_currentSectionStringBuffer := ⟨[], false⟩ }))
    ∧ parse sampleEnv 4 (List.replicate 32 NUL)
        ⟨"t.vfx".toList, some "[Sample\n".toList, []⟩
        (Document.create sampleEnv) (VfxParser.create (Document.create sampleEnv))
      = some (.ok (false,
          { m_vfxDoc :=
              { m_sections := [[], [], [], [], [], []]
                m_sectionList := []
                m_errorMsg := [⟨1, "expect ]".toList⟩]
                m_fileName := "t.vfx".toList }
            m_isValidVfxFile := false
            m_currentSection := none
            m_currentLineNum := 1
            m_currentSectionLineNum := 0
            m_currentSectionStringBuffer := ⟨[], true⟩ }))
    ∧ parseLoop smallBufferEnv [("FOO".toList, "0123456789ab".toList)] 3 "n = FOO\n".toList
        ("n = 1\n".toList ++ List.replicate 10 NUL)
        { inSample with
          m_currentLineNum := 2
          m_currentSectionStringBuffer := ⟨"n = 1\n".toList, true⟩ }
      = some (.ok (false,
          { inSample with
            m_vfxDoc := { inSample.m_vfxDoc with m_errorMsg :=
              [⟨3, "Line length after macro substitution exceeds MaxLineBufSize.".toList⟩] }
            m_currentLineNum := 2
            m_currentSectionStringBuffer := ⟨"n = 1\n".toList, true⟩ }))
    ∧ parse smallBufferEnv 6 (List.replicate 16 NUL)
        ⟨"t.vfx".toList, some "[Sample]\nn = 1\nn = FOO\n".toList,
          [("FOO".toList, "0123456789ab".toList)]⟩
        (Document.create sampleEnv) (VfxParser.create (Document.create sampleEnv))
      = some (.ok (false,
          { inSample with
            m_vfxDoc := { inSample.m_vfxDoc with
              m_errorMsg :=
                [⟨3, "Line length after macro substitution exceeds MaxLineBufSize.".toList⟩]
              m_fileName := "t.vfx".toList }
            m_currentLineNum := 2
            m_currentSectionStringBuffer := ⟨"n = 1\n".toList, true⟩ })) :=
  ⟨((parse_end_of_input_order sampleEnv 4 (List.replicate 32 NUL)
        ⟨"t.vfx".toList, some "[Sample]\nn = 2\n".toList, []⟩
        (Document.create sampleEnv) (VfxParser.create (Document.create sampleEnv))).2.1
      "[Sample]\nn = 2\n".toList true
      { m_vfxDoc :=
          { m_sections := [[], [], [], [], [],
              [⟨sampleInfo (some "Sample".toList), 1, [("n".toList, .int 2)], []⟩]]
            m_sectionList := [(5, 0)]
            m_errorMsg := []
            m_fileName := "t.vfx".toList }
        m_isValidVfxFile := false
        m_currentSection := some (5, 0)
        m_currentLineNum := 2
        m_currentSectionLineNum := 2
        m_currentSectionStringBuffer := ⟨[], false⟩ }
      rfl (by rfl)).2.2.1 rfl (by rfl) true
      { m_sections := [[], [], [], [], [],
          [⟨sampleInfo (some "Sample".toList), 1, [("n".toList, .int 2)], []⟩]]
        m_sectionList := [(5, 0)]
        m_errorMsg := []
        m_fileName := "t.vfx".toList }
      (by rfl),
   ((parse_end_of_input_order sampleEnv 4 (List.replicate 32 NUL)
        ⟨"t.vfx".toList, some "[Sample\n".toList, []⟩
        (Document.create sampleEnv) (VfxParser.create (Document.create sampleEnv))).2.1
      "[Sample\n".toList false
      { m_vfxDoc :=
          { m_sections := [[], [], [], [], [], []]
            m_sectionList := []
            m_errorMsg := [⟨1, "expect ]".toList⟩]
            m_fileName := "t.vfx".toList }
        m_isValidVfxFile := false
        m_currentSection := none
        m_currentLineNum := 1
        m_currentSectionLineNum := 0
        m_currentSectionStringBuffer := ⟨[], true⟩ }
      rfl (by rfl)).1 rfl,
   (((parse_end_of_input_order smallBufferEnv 6 (List.replicate 16 NUL)
        ⟨"t.vfx".toList, some "[Sample]\nn = 1\nn = FOO\n".toList,
          [("FOO".toList, "0123456789ab".toList)]⟩
        (Document.create sampleEnv) (VfxParser.create (Document.create sampleEnv))).2.2.2.2.1
      2 "n = FOO\n".toList ("n = 1\n".toList ++ List.replicate 10 NUL)
      { inSample with
        m_currentLineNum := 2
        m_currentSectionStringBuffer := ⟨"n = 1\n".toList, true⟩ }).2
      "n = FOO\n".toList [] ("n = FOO\n".toList ++ List.replicate 8 NUL) (by rfl) (by rfl)).1
      ("n = FOO\n".toList ++ List.replicate 8 NUL)
      [⟨3, "Line length after macro substitution exceeds MaxLineBufSize.".toList⟩] (by rfl),
   by rfl⟩


/-! ## Line numbers, blank lines and text outside a section: properties -/

/-- C31: in the file of the schema `sampleSchema` whose lines are the header `[Sample]`, an
empty line and `zzz = 1`, the diagnostic of the third line carries the line number 2, the
same as in the file without the empty line, where the line is the second one: the empty
line is skipped without counting it. The line number recorded on the section is 1, that of
its header. -/
theorem parseSectionKeyValues_blank_line_not_counted :
    (parseLinesThenEnd sampleEnv ["[Sample]\n".toList, "\n".toList, "zzz = 1\n".toList]
        (VfxParser.create (Document.create sampleEnv))).map
      (fun r => (r.2.m_vfxDoc.m_errorMsg,
        (r.2.m_vfxDoc.m_sections.getD 5 []).map (fun s => s.lineNum)))
      = .ok ([⟨2, "Invalid member name: zzz".toList⟩], [1])
    ∧ (parseLinesThenEnd sampleEnv ["[Sample]\n".toList, "zzz = 1\n".toList]
        (VfxParser.create (Document.create sampleEnv))).map
      (fun r => (r.2.m_vfxDoc.m_errorMsg,
        (r.2.m_vfxDoc.m_sections.getD 5 []).map (fun s => s.lineNum)))
      = .ok ([⟨2, "Invalid member name: zzz".toList⟩], [1]) := by
  refine ⟨by rfl, by rfl⟩

/-! ## The lgc tool: properties -/

/-- C33: with `-o out.elf` and the input file `in.lgc`, the output of a module goes to the
standard output, whatever it holds and whatever `stem` is: `outputToFile` is set only when
`-o` is not given. Without `-o` the same input gives the file `in.elf`, `in.s` or `in.ll`. -/
theorem outputDestination_ignores_named_file (stem : CStr → CStr) (outBuffer : CStr) :
    outputDestination stem "out.elf".toList "in.lgc".toList outBuffer = .stdout
    ∧ outputDestination (fun _ => "in".toList) [] "in.lgc".toList "\ts_endpgm".toList
      = .file "in.s".toList
    ∧ outputDestination (fun _ => "in".toList) [] "in.lgc".toList "define".toList
      = .file "in.ll".toList
    ∧ outputDestination (fun _ => "in".toList) [] "-".toList "define".toList = .stdout := by
  refine ⟨by rfl, by decide, by decide, by decide⟩

/-! ## The integer parsers accept every input -/

theorem strtoParts_no_numeric_start (str : CStr)
    (hnum : startsWithDigit 10 (afterSign str) = false) :
    (strtoParts str 0).2 = 0 := by
  unfold strtoParts
  unfold afterSign at hnum
  simp only at hnum ⊢
  generalize (if ((str.dropWhile isspace).head? == some '-'
      || (str.dropWhile isspace).head? == some '+') = true
    then (str.dropWhile isspace).drop 1 else str.dropWhile isspace) = s2 at hnum ⊢
  cases s2 with
  | nil => simp [readDigits]
  | cons c cs =>
    have hc : c ≠ '0' := by
      intro h
      rw [h] at hnum
      revert hnum
      simp only [startsWithDigit]
      decide
    have hread : readDigits 10 (c :: cs) 0 = 0 := by
      simp only [startsWithDigit] at hnum
      simp only [readDigits]
      cases hd : digitValue c with
      | none => rfl
      | some d =>
        rw [hd] at hnum
        simp only [decide_eq_false_iff_not] at hnum
        simp only [if_neg hnum]
    simp [hc, hread]

/-- C39: `parseInt` returns true for every string, and `parseIArray` for every literal and
buffer. When the string has no numeric prefix, that is, the text after its leading blanks
and optional sign does not start with a decimal digit, `parseInt` stores the value 0 in
the first word, as it does for `abc`. For the empty literal `parseIArray` leaves the buffer
as it is. -/
theorem integer_parsers_accept_every_input (str : CStr) (output : IUFValue) (isSign : Bool)
    (bufMem : List Nat) :
    (parseInt str output).1 = true
    ∧ (startsWithDigit 10 (afterSign str) = false
        → (parseInt str output).2.words = output.words.set 0 0)
    ∧ (parseInt "abc".toList output).2.words = output.words.set 0 0
    ∧ (parseIArray str isSign bufMem).1 = true
    ∧ parseIArray [] isSign bufMem = (true, bufMem) := by
  have key : ∀ s : CStr, startsWithDigit 10 (afterSign s) = false
      → (parseInt s output).2.words = output.words.set 0 0 := by
    intro s hnum
    have h0 := strtoParts_no_numeric_start s hnum
    have hl : strtol s 0 = 0 := by
      unfold strtol
      rcases hp : strtoParts s 0 with ⟨neg, m⟩
      rw [hp] at h0
      simp only at h0
      subst h0
      cases neg <;> simp
    have hu : strtoul s 0 = 0 := by
      unfold strtoul
      rcases hp : strtoParts s 0 with ⟨neg, m⟩
      rw [hp] at h0
      simp only at h0
      subst h0
      cases neg <;> simp
    simp only [parseInt, hl, hu, IUFValue.set32, toWord32]
    split <;> rfl
  exact ⟨rfl, key str, key _ (by decide), rfl, rfl⟩

/-- C39, at an instance: the string `abc` has no numeric prefix, and `parseInt` stores 0. -/
theorem integer_parsers_accept_every_input_witness :
    startsWithDigit 10 (afterSign "abc".toList) = false
    ∧ (parseInt "abc".toList ⟨[7, 7, 7, 7], ⟨0, false, false, false, false, false⟩⟩).2.words
      = [0, 7, 7, 7] :=
  ⟨by decide,
    (integer_parsers_accept_every_input "abc".toList
      ⟨[7, 7, 7, 7], ⟨0, false, false, false, false, false⟩⟩ true []).2.1 (by decide)⟩

/-! ## Alignment to a power of two: properties -/

/-- The mask `~(2^k - 1)` of 32 bits clears the low `k` bits of a 32-bit value. -/
theorem and_mask_eq (y k : Nat) (hk : k < 32) (hy : y < 2 ^ 32) :
    y &&& (2 ^ 32 - 1 - (2 ^ k - 1)) = y / 2 ^ k * 2 ^ k := by
  have hpos : 0 < 2 ^ k := Nat.two_pow_pos k
  have hlt : 2 ^ k - 1 < 2 ^ 32 :=
    Nat.lt_of_lt_of_le (Nat.sub_lt hpos (by decide))
      (Nat.pow_le_pow_right (by decide) (Nat.le_of_lt hk))
  have hmask : 2 ^ 32 - 1 - (2 ^ k - 1) = 2 ^ 32 - ((2 ^ k - 1) + 1) := by omega
  rw [hmask]
  apply Nat.eq_of_testBit_eq
  intro i
  rw [Nat.testBit_and, Nat.testBit_two_pow_sub_succ hlt, Nat.testBit_two_pow_sub_one,
    Nat.mul_comm, Nat.testBit_mul_pow_two, ← Nat.shiftRight_eq_div_pow, Nat.testBit_shiftRight]
  by_cases hik : k ≤ i
  · have hadd : k + (i - k) = i := by omega
    by_cases hi : i < 32
    · simp [hik, hi, hadd, Nat.not_lt.mpr hik]
    · have hfalse : y.testBit i = false :=
        Nat.testBit_eq_false_of_lt
          (Nat.lt_of_lt_of_le hy (Nat.pow_le_pow_right (by decide) (Nat.not_lt.mp hi)))
      simp [hadd, hfalse]
  · simp [hik, Nat.lt_of_not_le hik]

/-- The value of `power2Align` for the alignment `2^k`. -/
theorem power2Align_eq (x k : Nat) (hk : k < 32) (hx : x + 2 ^ k - 1 < 2 ^ 32) :
    power2Align x (2 ^ k) = .ok ((x + (2 ^ k - 1)) / 2 ^ k * 2 ^ k) := by
  have hpos : 0 < 2 ^ k := Nat.two_pow_pos k
  have hassert : 2 ^ k ≠ 0 ∧ 2 ^ k &&& (2 ^ k - 1) = 0 :=
    ⟨Nat.ne_of_gt hpos, by rw [Nat.and_pow_two_sub_one_eq_mod, Nat.mod_self]⟩
  have hsmall : (2 ^ k - 1) % 2 ^ 32 = 2 ^ k - 1 := Nat.mod_eq_of_lt (by omega)
  have hy : (x + (2 ^ k - 1)) % 2 ^ 32 = x + (2 ^ k - 1) := Nat.mod_eq_of_lt (by omega)
  unfold power2Align
  rw [if_pos hassert, hsmall, hy, and_mask_eq _ k hk (by omega)]

/-- C40: for every alignment `align = 2^k` of 32 bits and every `x` with `x + align - 1 < 2^32`, the
assertion of `power2Align` holds and its result `r` is `(x + align - 1) & ~(align - 1)` in
32-bit arithmetic, a multiple of `align` with `x ≤ r < x + align`, not above any multiple
of `align` that is at least `x`; and `power2Align` of `r` is `r` again. -/
theorem power2Align_least_multiple (x k : Nat) (hk : k < 32) (hx : x + 2 ^ k - 1 < 2 ^ 32) :
    ∃ r : Nat, power2Align x (2 ^ k) = .ok r
      ∧ r = ((x + (2 ^ k - 1)) % 2 ^ 32) &&& (2 ^ 32 - 1 - (2 ^ k - 1))
      ∧ 2 ^ k ∣ r ∧ x ≤ r ∧ r < x + 2 ^ k
      ∧ (∀ m : Nat, 2 ^ k ∣ m → x ≤ m → r ≤ m)
      ∧ power2Align r (2 ^ k) = .ok r := by
  have hpos : 0 < 2 ^ k := Nat.two_pow_pos k
  have heq := power2Align_eq x k hk hx
  have hdm := Nat.div_add_mod (x + (2 ^ k - 1)) (2 ^ k)
  have hmod := Nat.mod_lt (x + (2 ^ k - 1)) hpos
  rw [Nat.mul_comm] at hdm
  have hy : (x + (2 ^ k - 1)) % 2 ^ 32 = x + (2 ^ k - 1) := Nat.mod_eq_of_lt (by omega)
  generalize hq : (x + (2 ^ k - 1)) / 2 ^ k = q at heq hdm
  have hle : x ≤ q * 2 ^ k := by omega
  have hlt : q * 2 ^ k < x + 2 ^ k := by omega
  refine ⟨q * 2 ^ k, heq, ?_, Dvd.intro_left q rfl, hle, hlt, ?_, ?_⟩
  · rw [hy, and_mask_eq _ k hk (by omega), hq]
  · rintro m ⟨n, rfl⟩ hxm
    rw [Nat.mul_comm]
    apply Nat.mul_le_mul_left
    by_contra hnq
    have hn1 : n + 1 ≤ q := by omega
    have := Nat.mul_le_mul_right (2 ^ k) hn1
    rw [Nat.add_mul, Nat.mul_comm n] at this
    omega
  · have h32 : q * 2 ^ k + 2 ^ k - 1 < 2 ^ 32 := by
      have hd : 2 ^ 32 = 2 ^ (32 - k) * 2 ^ k := by
        rw [← Nat.pow_add]
        congr 1
        omega
      have hq32 : q < 2 ^ (32 - k) := by
        by_contra hge
        have := Nat.mul_le_mul_right (2 ^ k) (Nat.not_lt.mp hge)
        omega
      have := Nat.mul_le_mul_right (2 ^ k) (Nat.succ_le_of_lt hq32)
      rw [Nat.succ_mul] at this
      omega
    have heq2 := power2Align_eq (q * 2 ^ k) k hk h32
    rw [heq2]
    congr 1
    have : (q * 2 ^ k + (2 ^ k - 1)) / 2 ^ k = q := by
      rw [Nat.mul_comm q, Nat.mul_add_div hpos]
      rw [Nat.div_eq_of_lt (Nat.sub_lt hpos (by decide))]
      rfl
    rw [this]

/-- C40, at an instance: 13 aligned to 8 is 16. -/
theorem power2Align_least_multiple_witness :
    3 < 32 ∧ 13 + 2 ^ 3 - 1 < 2 ^ 32
      ∧ ∃ r : Nat, power2Align 13 (2 ^ 3) = .ok r
        ∧ r = ((13 + (2 ^ 3 - 1)) % 2 ^ 32) &&& (2 ^ 32 - 1 - (2 ^ 3 - 1))
        ∧ 2 ^ 3 ∣ r ∧ 13 ≤ r ∧ r < 13 + 2 ^ 3
        ∧ (∀ m : Nat, 2 ^ 3 ∣ m → 13 ≤ m → r ≤ m)
        ∧ power2Align r (2 ^ 3) = .ok r :=
  ⟨by decide, by decide, power2Align_least_multiple 13 3 (by decide) (by decide)⟩

/-! ## Text outside a section: properties -/

theorem observable_section {S : Type} (p : VfxParser S) :
    p.observable.m_currentSection = p.m_currentSection
      ∧ p.observable.m_vfxDoc = p.m_vfxDoc := by
  unfold VfxParser.observable
  split <;> simp

/-- Two parsers that differ at most by the text buffered while no section is current go
through `parseLine` the same way. -/
theorem parseLine_observable {S : Type} (E : Env S) (line : CStr) (p q : VfxParser S)
    (h : p.observable = q.observable) :
    (parseLine E line p).map (fun r => (r.1, r.2.observable))
      = (parseLine E line q).map (fun r => (r.1, r.2.observable)) := by
  obtain ⟨doc, v, cur, ln, sln, b1⟩ := p
  obtain ⟨doc2, v2, cur2, ln2, sln2, b2⟩ := q
  cases cur with
  | some ptr =>
    cases cur2 with
    | some ptr2 =>
      simp only [VfxParser.observable] at h
      rw [h]
    | none =>
      simp only [VfxParser.observable, VfxParser.mk.injEq] at h
      exact absurd h.2.2.1 (by simp)
  | none =>
    cases cur2 with
    | some ptr2 =>
      simp only [VfxParser.observable, VfxParser.mk.injEq] at h
      exact absurd h.2.2.1 (by simp)
    | none =>
      simp only [VfxParser.observable, VfxParser.mk.injEq] at h
      obtain ⟨rfl, rfl, -, rfl, rfl, -⟩ := h
      simp only [parseLine, trimsComments, endSection]
      simp only [beginSection]
      repeat' split
      all_goals rfl

theorem endSection_observable {S : Type} (E : Env S) (p q : VfxParser S)
    (h : p.observable = q.observable) :
    (endSection E p).map (fun r => (r.1, r.2.observable))
      = (endSection E q).map (fun r => (r.1, r.2.observable)) := by
  obtain ⟨doc, v, cur, ln, sln, b1⟩ := p
  obtain ⟨doc2, v2, cur2, ln2, sln2, b2⟩ := q
  cases cur with
  | some ptr =>
    cases cur2 with
    | some ptr2 =>
      simp only [VfxParser.observable] at h
      rw [h]
    | none =>
      simp only [VfxParser.observable, VfxParser.mk.injEq] at h
      exact absurd h.2.2.1 (by simp)
  | none =>
    cases cur2 with
    | some ptr2 =>
      simp only [VfxParser.observable, VfxParser.mk.injEq] at h
      exact absurd h.2.2.1 (by simp)
    | none =>
      simp only [VfxParser.observable, VfxParser.mk.injEq] at h
      obtain ⟨rfl, rfl, -, rfl, rfl, -⟩ := h
      rfl

theorem parseLines_observable {S : Type} (E : Env S) (lines : List CStr) :
    ∀ p q : VfxParser S, p.observable = q.observable →
      (parseLines E lines p).map (fun r => (r.1, r.2.observable))
        = (parseLines E lines q).map (fun r => (r.1, r.2.observable)) := by
  induction lines with
  | nil =>
    intro p q h
    simp only [parseLines, Except.map, h]
  | cons line rest ih =>
    intro p q h
    have hl := parseLine_observable E line p q h
    simp only [parseLines]
    cases hp : parseLine E line p with
    | error f =>
      cases hq : parseLine E line q with
      | error g =>
        rw [hp, hq] at hl
        exact hl
      | ok r2 =>
        rw [hp, hq] at hl
        simp [Except.map] at hl
    | ok r1 =>
      cases hq : parseLine E line q with
      | error g =>
        rw [hp, hq] at hl
        simp [Except.map] at hl
      | ok r2 =>
        rw [hp, hq] at hl
        simp only [Except.map, Except.ok.injEq, Prod.mk.injEq] at hl
        obtain ⟨b1, p1⟩ := r1
        obtain ⟨b2, q1⟩ := r2
        simp only at hl
        obtain ⟨rfl, hobs⟩ := hl
        cases b1 with
        | false => simp only [Except.map, hobs]
        | true => exact ih p1 q1 hobs

theorem parseLinesThenEnd_observable {S : Type} (E : Env S) (lines : List CStr)
    (p q : VfxParser S) (h : p.observable = q.observable) :
    (parseLinesThenEnd E lines p).map (fun r => (r.1, r.2.observable))
      = (parseLinesThenEnd E lines q).map (fun r => (r.1, r.2.observable)) := by
  have hl := parseLines_observable E lines p q h
  simp only [parseLinesThenEnd]
  cases hp : parseLines E lines p with
  | error f =>
    cases hq : parseLines E lines q with
    | error g =>
      rw [hp, hq] at hl
      exact hl
    | ok r2 =>
      rw [hp, hq] at hl
      simp [Except.map] at hl
  | ok r1 =>
    cases hq : parseLines E lines q with
    | error g =>
      rw [hp, hq] at hl
      simp [Except.map] at hl
    | ok r2 =>
      rw [hp, hq] at hl
      simp only [Except.map, Except.ok.injEq, Prod.mk.injEq] at hl
      obtain ⟨b1, p1⟩ := r1
      obtain ⟨b2, q1⟩ := r2
      simp only at hl
      obtain ⟨rfl, hobs⟩ := hl
      cases b1 with
      | false => simp only [Except.map, hobs]
      | true => exact endSection_observable E p1 q1 hobs

/-- A line that does not start with `[`, while no section is current, only moves the line
number and the section buffer. -/
theorem parseLine_text_outside {S : Type} (E : Env S) (line : CStr) (p : VfxParser S)
    (hnone : p.m_currentSection = none) (htext : line.head? ≠ some '[') :
    ∃ b : StringStream, parseLine E line p
      = .ok (true, { p with
          m_currentLineNum := p.m_currentLineNum + 1
          m_currentSectionStringBuffer := b }) := by
  have hhead : ∀ n : Nat, (line.take n).head? ≠ some '[' := by
    intro n
    cases line with
    | nil => simp
    | cons c cs =>
      cases n with
      | zero => simp
      | succ m => simpa using htext
  simp only [parseLine, trimsComments, hnone]
  cases hs : strchr line ';' with
  | none =>
    simp only [if_true, if_neg htext]
    exact ⟨_, rfl⟩
  | some comments =>
    simp only [if_true, if_neg (hhead comments)]
    exact ⟨_, rfl⟩

theorem parseLines_text_outside {S : Type} (E : Env S) (texts : List CStr) :
    ∀ p : VfxParser S, p.m_currentSection = none →
      (∀ line ∈ texts, line.head? ≠ some '[') →
      ∃ b : StringStream, parseLines E texts p
        = .ok (true, { p with
            m_currentLineNum := p.m_currentLineNum + texts.length
            m_currentSectionStringBuffer := b }) := by
  induction texts with
  | nil =>
    intro p _ _
    exact ⟨p.m_currentSectionStringBuffer, rfl⟩
  | cons line rest ih =>
    intro p hnone htext
    obtain ⟨b, hb⟩ := parseLine_text_outside E line p hnone
      (htext line (List.mem_cons_self _ _))
    obtain ⟨b2, hb2⟩ := ih { p with
        m_currentLineNum := p.m_currentLineNum + 1
        m_currentSectionStringBuffer := b } hnone
      (fun l hl => htext l (List.mem_cons_of_mem _ hl))
    refine ⟨b2, ?_⟩
    simp only [parseLines, hb, hb2, List.length_cons]
    simp only [Nat.add_assoc, Nat.add_comm 1]

theorem parseLines_append_true {S : Type} (E : Env S) (first rest : List CStr) :
    ∀ p p1 : VfxParser S, parseLines E first p = .ok (true, p1) →
      parseLines E (first ++ rest) p = parseLines E rest p1 := by
  induction first with
  | nil =>
    intro p p1 h
    simp only [parseLines, Except.ok.injEq, Prod.mk.injEq, true_and] at h
    rw [h]
    rfl
  | cons line more ih =>
    intro p p1 h
    show parseLines E (line :: (more ++ rest)) p = _
    simp only [parseLines] at h ⊢
    cases hl : parseLine E line p with
    | error f => rw [hl] at h; simp at h
    | ok r =>
      obtain ⟨b, p2⟩ := r
      rw [hl] at h
      cases b with
      | false => simp at h
      | true => exact ih p2 p1 h

/-- C38: while no section is current, lines that do not start with `[` are accepted one
after the other and change only the line number and the section buffer: the document and
its sections are as before and no section is current. What the parser does with the lines
that follow, and with the end of the input, is what it does without these lines, at the
same line numbers: the results are equal and so are the parsers, the document included,
up to the contents of the section buffer while no section is current. -/
theorem text_outside_section_has_no_effect {S : Type} (E : Env S) (texts rest : List CStr)
    (p : VfxParser S) (hnone : p.m_currentSection = none)
    (htext : ∀ line ∈ texts, line.head? ≠ some '[') :
    (∃ p1 : VfxParser S, parseLines E texts p = .ok (true, p1)
        ∧ p1.m_vfxDoc = p.m_vfxDoc ∧ p1.m_currentSection = none)
      ∧ (parseLinesThenEnd E (texts ++ rest) p).map (fun r => (r.1, r.2.observable))
        = (parseLinesThenEnd E rest
            { p with m_currentLineNum := p.m_currentLineNum + texts.length }).map
          (fun r => (r.1, r.2.observable)) := by
  obtain ⟨b, hb⟩ := parseLines_text_outside E texts p hnone htext
  refine ⟨⟨_, hb, rfl, hnone⟩, ?_⟩
  have happ : parseLinesThenEnd E (texts ++ rest) p
      = parseLinesThenEnd E rest { p with
          m_currentLineNum := p.m_currentLineNum + texts.length
          m_currentSectionStringBuffer := b } := by
    simp only [parseLinesThenEnd, parseLines_append_true E texts rest p _ hb]
  rw [happ]
  apply parseLinesThenEnd_observable
  simp only [VfxParser.observable, hnone]

/-- C38, at an instance: in a file of the schema `sampleSchema`, the lines `n = 7` and
`stray` before the header `[Sample]` on line 3. -/
theorem text_outside_section_has_no_effect_witness :
    (VfxParser.create (Document.create sampleEnv)).m_currentSection = none
    ∧ (∀ line ∈ ["n = 7\n".toList, "stray\n".toList], line.head? ≠ some '[')
    ∧ (∃ p1 : VfxParser SectionObj,
        parseLines sampleEnv ["n = 7\n".toList, "stray\n".toList]
            (VfxParser.create (Document.create sampleEnv)) = .ok (true, p1)
          ∧ p1.m_vfxDoc = (VfxParser.create (Document.create sampleEnv)).m_vfxDoc
          ∧ p1.m_currentSection = none)
      ∧ (parseLinesThenEnd sampleEnv
            (["n = 7\n".toList, "stray\n".toList] ++ ["[Sample]\n".toList, "n = 1\n".toList])
            (VfxParser.create (Document.create sampleEnv))).map
          (fun r => (r.1, r.2.observable))
        = (parseLinesThenEnd sampleEnv ["[Sample]\n".toList, "n = 1\n".toList]
            { VfxParser.create (Document.create sampleEnv) with
              m_currentLineNum :=
                (VfxParser.create (Document.create sampleEnv)).m_currentLineNum
                  + ["n = 7\n".toList, "stray\n".toList].length }).map
          (fun r => (r.1, r.2.observable)) :=
  ⟨rfl, by decide,
    text_outside_section_has_no_effect sampleEnv ["n = 7\n".toList, "stray\n".toList]
      ["[Sample]\n".toList, "n = 1\n".toList] (VfxParser.create (Document.create sampleEnv))
      rfl (by decide)⟩

/-! ## Array access: properties -/

theorem getD_append_length (pre rest : CStr) (d : Char) :
    (pre ++ rest).getD pre.length d = rest.headD d := by
  induction pre with
  | nil => cases rest <;> rfl
  | cons x xs ih =>
    show (x :: (xs ++ rest)).getD (xs.length + 1) d = _
    rw [List.getD_cons_succ]
    exact ih

theorem charAt_append (pre t : CStr) :
    charAt (pre ++ t) pre.length = .ok (t.headD NUL) := by
  have hle : (0 : Int) ≤ (pre.length : Int) ∧ (pre.length : Int) ≤ ((pre ++ t).length : Int) := by
    constructor
    · exact Int.ofNat_nonneg _
    · simp
  simp only [charAt, if_pos hle, Int.toNat_ofNat]
  rw [List.append_assoc, getD_append_length]
  cases t <;> rfl

/-- The loop of `isArrayAccess` returns true exactly when the position of `]` is reached over
digits, spaces and tabs only. -/
theorem isArrayAccessLoop_iff (r : Nat) (s : CStr) :
    ∀ p : Nat, isArrayAccessLoop r p s = true
      ↔ p ≤ r ∧ r - p ≤ s.length
        ∧ ∀ c ∈ s.take (r - p), ('0' ≤ c ∧ c ≤ '9') ∨ c = ' ' ∨ c = '\t' := by
  induction s with
  | nil =>
    intro p
    simp only [isArrayAccessLoop, decide_eq_true_eq, List.length_nil, List.take_nil,
      List.not_mem_nil, false_implies, implies_true, and_true]
    omega
  | cons c cs ih =>
    intro p
    simp only [isArrayAccessLoop]
    by_cases hp : p = r
    · subst hp
      simp
    · rw [if_neg hp]
      by_cases hlt : p < r
      · obtain ⟨d, hd⟩ : ∃ d, r - p = d + 1 := ⟨r - p - 1, by omega⟩
        have hd1 : r - (p + 1) = d := by omega
        by_cases hc : ('0' ≤ c ∧ c ≤ '9') ∨ c = ' ' ∨ c = '\t'
        · rw [if_pos hc, ih (p + 1), hd, hd1]
          simp only [List.length_cons, List.take_succ_cons, List.mem_cons, forall_eq_or_imp]
          constructor
          · rintro ⟨_, h2, h3⟩
            exact ⟨by omega, by omega, hc, h3⟩
          · rintro ⟨_, h2, _, h3⟩
            exact ⟨by omega, by omega, h3⟩
        · rw [if_neg hc, hd]
          simp only [List.take_succ_cons, List.mem_cons, forall_eq_or_imp]
          constructor
          · intro h
            cases h
          · rintro ⟨_, _, h3, _⟩
            exact absurd h3 hc
      · have hfalse : ¬ p ≤ r := by omega
        constructor
        · intro h
          split at h
          · exact absurd (ih (p + 1) |>.mp h).1 (by omega)
          · cases h
        · intro h
          exact absurd h.1 hfalse

/-- The loop of `isArrayAccess` reads inside the string object and gives what the loop on
the list gives. -/
theorem isArrayAccessReads_eq (r : Nat) (t : CStr) :
    ∀ (pre : CStr) (steps : Nat), t.length + 1 ≤ steps →
      isArrayAccessReads (pre ++ t) r steps pre.length
        = .ok (isArrayAccessLoop r pre.length t) := by
  induction t with
  | nil =>
    intro pre steps hsteps
    obtain ⟨n, rfl⟩ : ∃ n, steps = n + 1 := ⟨steps - 1, by simp at hsteps; omega⟩
    simp only [isArrayAccessReads, charAt_append, List.headD_nil, isArrayAccessLoop]
    by_cases hp : pre.length = r
    · simp [hp]
    · rw [if_neg hp]
      have hnul : ¬ (('0' ≤ NUL ∧ NUL ≤ '9') ∨ NUL = ' ' ∨ NUL = '\t') := by decide
      simp [hnul, hp]
  | cons c cs ih =>
    intro pre steps hsteps
    obtain ⟨n, rfl⟩ : ∃ n, steps = n + 1 := ⟨steps - 1, by simp at hsteps; omega⟩
    have hrec := ih (pre ++ [c]) n (by simp at hsteps ⊢; omega)
    simp only [List.append_assoc, List.singleton_append, List.length_append,
      List.length_singleton] at hrec
    simp only [isArrayAccessReads, charAt_append, List.headD_cons, isArrayAccessLoop]
    by_cases hp : pre.length = r
    · simp [hp]
    · rw [if_neg hp, if_neg hp]
      by_cases hc : ('0' ≤ c ∧ c ≤ '9') ∨ c = ' ' ∨ c = '\t'
      · rw [if_pos hc, if_pos hc, hrec]
      · rw [if_neg hc, if_neg hc]

/-- C37, as the code has it: `isArrayAccess` accepts spaces and tabs inside the brackets, and
looks only at the first `[` and the first `]` of the string. -/
theorem isArrayAccess_accepts_blanks :
    isArrayAccess "a[ 1 ]".toList = true
    ∧ isArrayAccess "a[1\t2]".toList = true
    ∧ isArrayAccess "a[x][1]".toList = false
    ∧ isArrayAccess "]a[1]".toList = false := by
  decide

/-- C37, amended: `isArrayAccess` returns true only when the first `[` of the string is
followed by a run of decimal digits, spaces and tabs and then by the first `]` of the
string, and it does return true when that run holds at least one decimal digit. With its
reads checked against the bounds of the string object it returns the same result
within `length + 1` steps of its loop, for every string, so it terminates and reads nothing
past the terminator, also when the first `]` comes before the first `[`. -/
theorem isArrayAccess_first_brackets (str : CStr) :
    (isArrayAccess str = true →
      ∃ pre mid post : CStr, str = pre ++ '[' :: (mid ++ ']' :: post)
        ∧ '[' ∉ pre ∧ ']' ∉ pre ∧ ']' ∉ mid
        ∧ ∀ c ∈ mid, ('0' ≤ c ∧ c ≤ '9') ∨ c = ' ' ∨ c = '\t')
    ∧ (∀ pre mid post : CStr, str = pre ++ '[' :: (mid ++ ']' :: post) →
        '[' ∉ pre → ']' ∉ pre →
        (∀ c ∈ mid, ('0' ≤ c ∧ c ≤ '9') ∨ c = ' ' ∨ c = '\t') →
        (∃ c ∈ mid, '0' ≤ c ∧ c ≤ '9') → isArrayAccess str = true)
    ∧ isArrayAccessChecked str = .ok (isArrayAccess str) := by
  refine ⟨?_, ?_, ?_⟩
  · intro h
    unfold isArrayAccess at h
    cases hl : strchr str '[' with
    | none => rw [hl] at h; simp at h
    | some l =>
      cases hr : strchr str ']' with
      | none => rw [hl, hr] at h; simp at h
      | some r =>
        rw [hl, hr] at h
        simp only at h
        obtain ⟨hle, -, hall⟩ := (isArrayAccessLoop_iff r _ (l + 1)).mp h
        obtain ⟨hsl, hnl, -⟩ := strchr_split str '[' l hl
        obtain ⟨hsr, hnr, hrlen⟩ := strchr_split str ']' r hr
        have hmid : str.drop (l + 1)
            = (str.drop (l + 1)).take (r - (l + 1)) ++ ']' :: str.drop (r + 1) := by
          conv_lhs => rw [hsr]
          rw [List.drop_append_of_le_length (by rw [List.length_take]; omega)]
          rw [List.drop_take]
        refine ⟨str.take l, (str.drop (l + 1)).take (r - (l + 1)), str.drop (r + 1),
          ?_, hnl, ?_, ?_, hall⟩
        · rw [← hmid]
          exact hsl
        · intro hm
          apply hnr
          have : str.take l = (str.take r).take l := by
            rw [List.take_take, Nat.min_eq_left (by omega)]
          rw [this] at hm
          exact List.mem_of_mem_take hm
        · intro hm
          apply hnr
          rw [← List.drop_take] at hm
          exact List.mem_of_mem_drop hm
  · intro pre mid post hstr hnl hnr hall _
    have hl : strchr str '[' = some pre.length := by
      rw [hstr]
      exact strchr_append_stop pre _ '[' hnl
    have hnmid : ']' ∉ pre ++ '[' :: mid := by
      intro hm
      rcases List.mem_append.mp hm with h1 | h1
      · exact hnr h1
      · rcases List.mem_cons.mp h1 with h2 | h2
        · exact absurd h2 (by decide)
        · rcases hall _ h2 with h3 | h3 | h3
          · exact absurd h3 (by decide)
          · exact absurd h3 (by decide)
          · exact absurd h3 (by decide)
    have hr : strchr str ']' = some (pre.length + 1 + mid.length) := by
      have hs2 : str = (pre ++ '[' :: mid) ++ ']' :: post := by
        rw [hstr]
        simp
      rw [hs2, strchr_append_stop (pre ++ '[' :: mid) post ']' hnmid]
      congr 1
      simp only [List.length_append, List.length_cons]
      omega
    have hdrop : str.drop (pre.length + 1) = mid ++ ']' :: post := by
      rw [hstr]
      have : pre ++ '[' :: (mid ++ ']' :: post) = (pre ++ ['[']) ++ (mid ++ ']' :: post) := by
        simp
      rw [this, List.drop_append_of_le_length (by simp)]
      simp
    simp only [isArrayAccess, hl, hr, hdrop]
    rw [isArrayAccessLoop_iff]
    refine ⟨by omega, by simp, ?_⟩
    have : pre.length + 1 + mid.length - (pre.length + 1) = mid.length := by omega
    rw [this, List.take_left]
    exact hall
  · unfold isArrayAccessChecked isArrayAccess
    cases hl : strchr str '[' with
    | none => rfl
    | some l =>
      cases hr : strchr str ']' with
      | none => rfl
      | some r =>
        simp only
        obtain ⟨-, -, hlen⟩ := strchr_split str '[' l hl
        have h := isArrayAccessReads_eq r (str.drop (l + 1)) (str.take (l + 1)) (str.length + 1)
          (by simp)
        rw [List.take_append_drop, List.length_take, Nat.min_eq_left (by omega)] at h
        exact h

/-- C37, at an instance: the first brackets of `a[ 12 ]b` hold digits and spaces. -/
theorem isArrayAccess_first_brackets_witness :
    isArrayAccess "a[ 12 ]b".toList = true
    ∧ isArrayAccessChecked "]a[12".toList = .ok false :=
  ⟨(isArrayAccess_first_brackets "a[ 12 ]b".toList).2.1 "a".toList " 12 ".toList "b".toList
      (by decide) (by decide) (by decide) (by decide) (by decide),
    by decide⟩

/-! ## Trimming: properties -/

theorem head_dropWhile_false (p : Char → Bool) (l : CStr) :
    ∀ c : Char, (l.dropWhile p).head? = some c → p c = false := by
  induction l with
  | nil => intro c h; simp at h
  | cons x xs ih =>
    intro c h
    rw [List.dropWhile_cons] at h
    cases hx : p x with
    | true =>
      rw [hx] at h
      exact ih c h
    | false =>
      rw [hx] at h
      simp only [Bool.false_eq_true, if_false, List.head?_cons, Option.some.injEq] at h
      rw [← h]
      exact hx

theorem dropWhile_fixed (p : Char → Bool) (l : CStr)
    (h : ∀ c : Char, l.head? = some c → p c = false) : l.dropWhile p = l := by
  cases l with
  | nil => rfl
  | cons x xs =>
    rw [List.dropWhile_cons, h x rfl]
    rfl

theorem dropWhile_all (p : Char → Bool) (l : CStr) (h : ∀ c ∈ l, p c = true) :
    l.dropWhile p = [] := by
  induction l with
  | nil => rfl
  | cons x xs ih =>
    rw [List.dropWhile_cons, h x (List.mem_cons_self _ _)]
    exact ih (fun c hc => h c (List.mem_cons_of_mem _ hc))

theorem mem_takeWhile_true (p : Char → Bool) (l : CStr) :
    ∀ c ∈ l.takeWhile p, p c = true := by
  induction l with
  | nil => intro c h; simp at h
  | cons x xs ih =>
    intro c h
    rw [List.takeWhile_cons] at h
    cases hx : p x with
    | true =>
      rw [hx] at h
      rcases List.mem_cons.mp h with h1 | h1
      · rw [h1]; exact hx
      · exact ih c h1
    | false =>
      rw [hx] at h
      simp at h

/-- The loop of `trimStringBeginning` reads inside the string object and returns the offset
of the result. -/
theorem trimStringBeginningReads_eq (t : CStr) (ht : NUL ∉ t) :
    ∀ (pre : CStr) (steps : Nat), t.length + 1 ≤ steps →
      ∃ k : Nat, trimStringBeginningReads (pre ++ t) steps pre.length = .ok k
        ∧ k ≤ (pre ++ t).length ∧ (pre ++ t).drop k = trimStringBeginning t := by
  induction t with
  | nil =>
    intro pre steps hsteps
    obtain ⟨n, rfl⟩ : ∃ n, steps = n + 1 := ⟨steps - 1, by simp at hsteps; omega⟩
    refine ⟨pre.length, ?_, by simp, by simp [trimStringBeginning]⟩
    simp only [trimStringBeginningReads, charAt_append, List.headD_nil, if_true]
  | cons c cs ih =>
    intro pre steps hsteps
    obtain ⟨n, rfl⟩ : ∃ n, steps = n + 1 := ⟨steps - 1, by simp at hsteps; omega⟩
    have hc : c ≠ NUL := fun h => ht (h ▸ List.mem_cons_self _ _)
    obtain ⟨k, hk, hle, hdrop⟩ := ih (fun h => ht (List.mem_cons_of_mem _ h)) (pre ++ [c]) n
      (by simp at hsteps ⊢; omega)
    simp only [List.append_assoc, List.singleton_append, List.length_append,
      List.length_singleton] at hk hle hdrop
    simp only [trimStringBeginningReads, charAt_append, List.headD_cons, if_neg hc,
      trimStringBeginning]
    cases hb : isTrimSpace c with
    | true =>
      simp only [if_true]
      exact ⟨k, hk, by simpa using hle, hdrop⟩
    | false =>
      simp only [Bool.false_eq_true, if_false]
      exact ⟨pre.length, rfl, by simp, by simp⟩

/-- The loop of `trimStringEnd` reads inside the string and ends where the loop on the list
ends. -/
theorem trimStringEndReads_eq (s : CStr) :
    ∀ (n steps : Nat), n ≤ s.length → n + 1 ≤ steps →
      trimStringEndReads s steps ((n : Int) - 1) = .ok ((trimStringEndLoop s n : Int) - 1) := by
  intro n
  induction n with
  | zero =>
    intro steps _ hsteps
    obtain ⟨m, rfl⟩ : ∃ m, steps = m + 1 := ⟨steps - 1, by omega⟩
    simp [trimStringEndReads, trimStringEndLoop]
  | succ n ih =>
    intro steps hn hsteps
    obtain ⟨m, rfl⟩ : ∃ m, steps = m + 1 := ⟨steps - 1, by omega⟩
    have hrec := ih m (by omega) (by omega)
    have hcast : ((n + 1 : Nat) : Int) - 1 = (n : Int) := by omega
    have hge : (n : Int) ≥ 0 := Int.ofNat_nonneg _
    have hread : charAt s (n : Int) = .ok (s.getD n NUL) := by
      have hle : (0 : Int) ≤ (n : Int) ∧ (n : Int) ≤ (s.length : Int) := ⟨hge, by omega⟩
      simp only [charAt, if_pos hle, Int.toNat_ofNat]
      congr 1
      simp only [List.getD_eq_getElem?_getD]
      rw [List.getElem?_append_left (by omega)]
    rw [hcast]
    simp only [trimStringEndReads, if_pos hge, hread, trimStringEndLoop]
    cases hb : isTrimSpace (s.getD n NUL) with
    | true =>
      simp only [if_true]
      exact hrec
    | false =>
      simp only [Bool.false_eq_true, if_false]
      congr 1
      omega

/-- Source: `trimStringEnd` reads and stores inside the string object, and the string reads
afterwards as the result of the function on the list. -/
theorem trimStringEndChecked_eq (s : CStr) (hs : NUL ∉ s) :
    ∃ bytes : List Char, trimStringEndChecked s = .ok bytes
      ∧ bytes.length = s.length + 1
      ∧ bytes.takeWhile (fun c => c != NUL) = trimStringEnd s := by
  have hreads := trimStringEndReads_eq s s.length (s.length + 1) (le_refl _) (le_refl _)
  have hle := trimStringEndLoop_le s s.length
  have hne : ∀ x ∈ s, (x != NUL) = true := by
    intro x hx
    simp only [bne_iff_ne, ne_eq]
    intro h
    exact hs (h ▸ hx)
  have hstop : (NUL != NUL) = false := by decide
  unfold trimStringEndChecked
  simp only [hreads]
  by_cases hL : trimStringEndLoop s s.length = s.length
  · have hcond : ¬ ((trimStringEndLoop s s.length : Int) - 1 ≠ (s.length : Int) - 1) := by
      rw [hL]
      simp
    rw [if_neg hcond]
    refine ⟨_, rfl, by simp, ?_⟩
    rw [takeWhile_append_stop (fun c => c != NUL) s [] NUL hstop hne]
    unfold trimStringEnd
    rw [hL, List.take_length]
  · have hlt : trimStringEndLoop s s.length < s.length := by omega
    have hcond : (trimStringEndLoop s s.length : Int) - 1 ≠ (s.length : Int) - 1 := by omega
    have hin : (0 : Int) ≤ (trimStringEndLoop s s.length : Int) - 1 + 1
        ∧ (trimStringEndLoop s s.length : Int) - 1 + 1 ≤ (s.length : Int) := by
      constructor <;> omega
    have hnat : ((trimStringEndLoop s s.length : Int) - 1 + 1).toNat
        = trimStringEndLoop s s.length := by omega
    rw [if_pos hcond, if_pos hin, hnat]
    refine ⟨_, rfl, by simp, ?_⟩
    rw [List.set_eq_take_append_cons_drop,
      if_pos (by rw [List.length_append, List.length_singleton]; omega),
      List.take_append_of_le_length (by omega)]
    rw [takeWhile_append_stop (fun c => c != NUL) _ _ NUL hstop
      (fun x hx => hne x (List.mem_of_mem_take hx))]
    rfl

/-- C36: for every string, `trimStringBeginning` returns the string without its longest
leading run of blanks (space, tab, CR, LF) and `trimStringEnd` the string without its longest
trailing run: the string is the run followed by the result, respectively the result followed
by the run, the run holds blanks only and the result does not start, respectively end, with
a blank. Each function is idempotent and gives the empty string on a string of blanks (the
empty one included). With the accesses checked against the bounds of the string object,
the loop of `trimStringBeginning` ends within `length + 1` steps at the offset of its result,
and `trimStringEnd` leaves an object of the same size that reads as its result: neither
reads or stores outside the string object. -/
theorem trimming_removes_blank_runs (s : CStr) (hs : NUL ∉ s) :
    (∃ run : CStr, s = run ++ trimStringBeginning s ∧ (∀ c ∈ run, isBlank c = true)
        ∧ ∀ c : Char, (trimStringBeginning s).head? = some c → isBlank c = false)
    ∧ (∃ run : CStr, s = trimStringEnd s ++ run ∧ (∀ c ∈ run, isBlank c = true)
        ∧ ∀ c : Char, (trimStringEnd s).getLast? = some c → isBlank c = false)
    ∧ trimStringBeginning (trimStringBeginning s) = trimStringBeginning s
    ∧ trimStringEnd (trimStringEnd s) = trimStringEnd s
    ∧ ((∀ c ∈ s, isBlank c = true) → trimStringBeginning s = [] ∧ trimStringEnd s = [])
    ∧ (∃ k : Nat, trimStringBeginningReads s (s.length + 1) 0 = .ok k
        ∧ k ≤ s.length ∧ s.drop k = trimStringBeginning s)
    ∧ (∃ bytes : List Char, trimStringEndChecked s = .ok bytes
        ∧ bytes.length = s.length + 1
        ∧ bytes.takeWhile (fun c => c != NUL) = trimStringEnd s) := by
  have hlast : ∀ c : Char, (trimStringEnd s).getLast? = some c → isBlank c = false := by
    intro c h
    rw [trimStringEnd_eq, List.getLast?_reverse] at h
    exact head_dropWhile_false isBlank _ c h
  refine ⟨⟨s.takeWhile isBlank, ?_, mem_takeWhile_true isBlank s, ?_⟩,
    ⟨(s.reverse.takeWhile isBlank).reverse, ?_, ?_, hlast⟩, ?_, ?_, ?_, ?_,
    trimStringEndChecked_eq s hs⟩
  · rw [trimStringBeginning_eq, List.takeWhile_append_dropWhile]
  · rw [trimStringBeginning_eq]
    exact head_dropWhile_false isBlank s
  · rw [trimStringEnd_eq, ← List.reverse_append, List.takeWhile_append_dropWhile,
      List.reverse_reverse]
  · intro c hc
    exact mem_takeWhile_true isBlank s.reverse c (List.mem_reverse.mp hc)
  · rw [trimStringBeginning_eq, trimStringBeginning_eq]
    exact dropWhile_fixed isBlank _ (head_dropWhile_false isBlank s)
  · rw [trimStringEnd_eq (trimStringEnd s)]
    have h := dropWhile_fixed isBlank (trimStringEnd s).reverse (by
      intro c hc
      rw [List.head?_reverse] at hc
      exact hlast c hc)
    rw [h, List.reverse_reverse]
  · intro hall
    constructor
    · rw [trimStringBeginning_eq]
      exact dropWhile_all isBlank s hall
    · rw [trimStringEnd_eq, dropWhile_all isBlank s.reverse
        (fun c hc => hall c (List.mem_reverse.mp hc))]
      rfl
  · have h := trimStringBeginningReads_eq s hs [] (s.length + 1) (le_refl _)
    simpa using h

/-- C36, at an instance: the string of two spaces, `ab`, a tab and a line terminator. -/
theorem trimming_removes_blank_runs_witness :
    NUL ∉ "  ab\t\n".toList
    ∧ trimStringBeginning "  ab\t\n".toList = "ab\t\n".toList
    ∧ trimStringEnd "  ab\t\n".toList = "  ab".toList
    ∧ trimStringBeginning (trimStringBeginning "  ab\t\n".toList)
      = trimStringBeginning "  ab\t\n".toList :=
  ⟨by decide, by decide, by decide,
    (trimming_removes_blank_runs "  ab\t\n".toList (by decide)).2.2.1⟩

/-! ## Empty lines in key-value sections: properties -/

/-- Source: `getline` on a stream that holds a whole line shorter than the line buffer: the
line is stored, the terminator is counted and the stream stays good. -/
theorem getline_line (l rest : CStr) (n : Nat) (hl : '\n' ∉ l) (hn : l.length + 1 < n) :
    StringStream.getline ⟨l ++ '\n' :: rest, true⟩ n = (l, l.length + 1, ⟨rest, true⟩) := by
  have hstop : ('\n' != '\n') = false := by decide
  have hne : ∀ x ∈ l, (x != '\n') = true := by
    intro x hx
    simp only [bne_iff_ne, ne_eq]
    intro h
    exact hl (h ▸ hx)
  have htw : (l ++ '\n' :: rest).takeWhile (fun c => c != '\n') = l :=
    takeWhile_append_stop (fun c => c != '\n') l rest '\n' hstop hne
  simp only [StringStream.getline, if_true, htw]
  rw [List.take_of_length_le (by omega)]
  simp

/-- Above the measure of the stream, the result of the loop of `parseSectionKeyValues` does
not depend on the bound on its steps. -/
theorem parseSectionKeyValuesLoop_steps {S : Type} (E : Env S) (ptr : SectionType × Nat) :
    ∀ (steps1 steps2 lineNum : Nat) (p : VfxParser S),
      (if p.m_currentSectionStringBuffer.good
        then p.m_currentSectionStringBuffer.unread.length + 1 else 0) < steps1 →
      (if p.m_currentSectionStringBuffer.good
        then p.m_currentSectionStringBuffer.unread.length + 1 else 0) < steps2 →
      parseSectionKeyValuesLoop E ptr steps1 lineNum p
        = parseSectionKeyValuesLoop E ptr steps2 lineNum p := by
  intro steps1
  induction steps1 with
  | zero => intro steps2 lineNum p h; omega
  | succ steps1 ih =>
    intro steps2 lineNum p h1 h2
    obtain ⟨n2, rfl⟩ : ∃ n, steps2 = n + 1 := ⟨steps2 - 1, by omega⟩
    simp only [parseSectionKeyValuesLoop]
    split
    · rfl
    · split
      · rfl
      · next hcount =>
        have hm := getline_measure p.m_currentSectionStringBuffer E.MaxLineBufSize hcount
        split
        · exact ih _ _ _ (Nat.lt_of_lt_of_le hm (Nat.le_of_lt_succ h1))
            (Nat.lt_of_lt_of_le hm (Nat.le_of_lt_succ h2))
        · split
          · rfl
          · split
            · rfl
            · split
              · rfl
              · exact ih _ _ _ (Nat.lt_of_lt_of_le hm (Nat.le_of_lt_succ h1))
                  (Nat.lt_of_lt_of_le hm (Nat.le_of_lt_succ h2))

/-- An empty line, or one that holds a carriage return only, is skipped by the loop of
`parseSectionKeyValues`: the loop goes on with the text after it, at the same line number. -/
theorem parseSectionKeyValuesLoop_skips {S : Type} (E : Env S) (ptr : SectionType × Nat)
    (blank post : CStr) (hblank : blank = [] ∨ blank = ['\r'])
    (hmax : blank.length + 1 < E.MaxLineBufSize) (steps lineNum : Nat) (p : VfxParser S) :
    parseSectionKeyValuesLoop E ptr (steps + 1) lineNum
        { p with m_currentSectionStringBuffer := ⟨blank ++ '\n' :: post, true⟩ }
      = parseSectionKeyValuesLoop E ptr steps lineNum
        { p with m_currentSectionStringBuffer := ⟨post, true⟩ } := by
  have hnl : '\n' ∉ blank := by
    rcases hblank with h | h <;> rw [h] <;> decide
  have hlt : ¬ ¬ blank.length + 1 < E.MaxLineBufSize := not_not.mpr hmax
  simp only [parseSectionKeyValuesLoop, getline_line blank post _ hnl hmax, if_neg hlt,
    if_neg (Nat.succ_ne_zero _), if_pos hblank]

theorem except_map_map {α β γ : Type} (f : α → β) (g : β → γ) (x : Except Fault α) :
    (x.map f).map g = x.map (fun a => g (f a)) := by
  cases x <;> rfl

/-- An empty line inserted after whole lines of the section buffer changes neither the result
of the loop of `parseSectionKeyValues` nor the document. -/
theorem parseSectionKeyValuesLoop_inserted {S : Type} (E : Env S) (ptr : SectionType × Nat)
    (blank post : CStr) (hblank : blank = [] ∨ blank = ['\r'])
    (hmax : blank.length + 1 < E.MaxLineBufSize) :
    ∀ lines : List CStr, (∀ l ∈ lines, '\n' ∉ l ∧ l.length + 1 < E.MaxLineBufSize) →
    ∀ (p : VfxParser S) (lineNum steps1 steps2 : Nat),
      ((lines.map (fun l => l ++ ['\n'])).flatten ++ (blank ++ '\n' :: post)).length + 1
        < steps1 →
      ((lines.map (fun l => l ++ ['\n'])).flatten ++ post).length + 1 < steps2 →
      (parseSectionKeyValuesLoop E ptr steps1 lineNum
          { p with m_currentSectionStringBuffer :=
            ⟨(lines.map (fun l => l ++ ['\n'])).flatten ++ (blank ++ '\n' :: post), true⟩ }).map
          (fun r => (r.1, r.2.m_vfxDoc))
        = (parseSectionKeyValuesLoop E ptr steps2 lineNum
          { p with m_currentSectionStringBuffer :=
            ⟨(lines.map (fun l => l ++ ['\n'])).flatten ++ post, true⟩ }).map
          (fun r => (r.1, r.2.m_vfxDoc)) := by
  intro lines
  induction lines with
  | nil =>
    intro _ p lineNum steps1 steps2 h1 h2
    obtain ⟨n1, rfl⟩ : ∃ n, steps1 = n + 1 := ⟨steps1 - 1, by omega⟩
    simp only [List.map_nil, List.flatten_nil, List.nil_append, List.length_append,
      List.length_cons] at h1 h2 ⊢
    rw [parseSectionKeyValuesLoop_skips E ptr blank post hblank hmax,
      parseSectionKeyValuesLoop_steps E ptr n1 steps2 lineNum _
        (by simp only [if_true]; omega) (by simp only [if_true]; omega)]
  | cons l rest ih =>
    intro hlines p lineNum steps1 steps2 h1 h2
    obtain ⟨hnl, hlen⟩ := hlines l (List.mem_cons_self _ _)
    have hrest := fun x hx => hlines x (List.mem_cons_of_mem _ hx)
    obtain ⟨n1, rfl⟩ : ∃ n, steps1 = n + 1 := ⟨steps1 - 1, by omega⟩
    obtain ⟨n2, rfl⟩ : ∃ n, steps2 = n + 1 := ⟨steps2 - 1, by omega⟩
    obtain ⟨doc, v, cur, ln, sln, b⟩ := p
    have hshape : ∀ X : CStr, ((l :: rest).map (fun l => l ++ ['\n'])).flatten ++ X
        = l ++ '\n' :: ((rest.map (fun l => l ++ ['\n'])).flatten ++ X) := by
      intro X
      simp
    rw [hshape] at h1 h2 ⊢
    rw [hshape]
    simp only [List.length_append, List.length_cons] at h1 h2
    have hlt : ¬ ¬ l.length + 1 < E.MaxLineBufSize := not_not.mpr hlen
    simp only [parseSectionKeyValuesLoop, getline_line l _ _ hnl hlen, if_neg hlt,
      if_neg (Nat.succ_ne_zero _)]
    split
    · have h1r : ((rest.map (fun l => l ++ ['\n'])).flatten ++ (blank ++ '\n' :: post)).length + 1
          < n1 := by
        simp only [List.length_append, List.length_cons]; omega
      have h2r : ((rest.map (fun l => l ++ ['\n'])).flatten ++ post).length + 1 < n2 := by
        simp only [List.length_append]; omega
      exact ih hrest ⟨doc, v, cur, ln, sln, b⟩ lineNum n1 n2 h1r h2r
    · split
      · rfl
      · split
        · rfl
        · split
          · rfl
          · next sectionObject hsec _ sectionObject1 errorMsg2 hkv =>
            have h1r : ((rest.map (fun l => l ++ ['\n'])).flatten
                ++ (blank ++ '\n' :: post)).length + 1 < n1 := by
              simp only [List.length_append, List.length_cons]; omega
            have h2r : ((rest.map (fun l => l ++ ['\n'])).flatten ++ post).length + 1 < n2 := by
              simp only [List.length_append]; omega
            exact ih hrest ⟨_, v, cur, ln, sln, b⟩ (lineNum + 1) n1 n2 h1r h2r

/-- C32, as the code has it: in the section `Sample` of `sampleSchema`, a line of two spaces
after the line `n = 1` is not skipped: it is given to `extractKeyAndValue`, which reports
`Expect =`, and `parseSectionKeyValues` returns false; without the line it returns true and
reports nothing. -/
theorem parseSectionKeyValues_rejects_line_of_spaces :
    (parseSectionKeyValues sampleEnv
        { inSample with m_currentSectionStringBuffer := ⟨"n = 1\n  \n".toList, true⟩ }).map
      (fun r => (r.1, r.2.m_vfxDoc.m_errorMsg.map (fun e => e.text)))
      = .ok (false, ["Expect =".toList])
    ∧ (parseSectionKeyValues sampleEnv
        { inSample with m_currentSectionStringBuffer := ⟨"n = 1\n".toList, true⟩ }).map
      (fun r => (r.1, r.2.m_vfxDoc.m_errorMsg.map (fun e => e.text)))
      = .ok (true, []) := by
  refine ⟨by rfl, by rfl⟩

/-- C32, amended: a line that is empty or holds a carriage return only produces no
assignment and no error. Adding such a line to the body of a section, after any number
of whole lines shorter than the line buffer, changes neither the result of
`parseSectionKeyValues` nor the sections of the document nor the texts of its diagnostics:
the same pairs are dispatched, with the same effect. -/
theorem parseSectionKeyValues_skips_empty_lines {S : Type} (E : Env S) (p : VfxParser S)
    (lines : List CStr) (blank post : CStr) (hblank : blank = [] ∨ blank = ['\r'])
    (hmax : blank.length + 1 < E.MaxLineBufSize)
    (hlines : ∀ l ∈ lines, '\n' ∉ l ∧ l.length + 1 < E.MaxLineBufSize) :
    (parseSectionKeyValues E
        { p with m_currentSectionStringBuffer :=
          ⟨(lines.map (fun l => l ++ ['\n'])).flatten ++ (blank ++ '\n' :: post), true⟩ }).map
        (fun r => (r.1, r.2.m_vfxDoc.m_sections, r.2.m_vfxDoc.m_errorMsg.map (fun e => e.text)))
      = (parseSectionKeyValues E
        { p with m_currentSectionStringBuffer :=
          ⟨(lines.map (fun l => l ++ ['\n'])).flatten ++ post, true⟩ }).map
        (fun r => (r.1, r.2.m_vfxDoc.m_sections, r.2.m_vfxDoc.m_errorMsg.map (fun e => e.text))) := by
  obtain ⟨doc, v, cur, ln, sln, b⟩ := p
  unfold parseSectionKeyValues
  cases cur with
  | none => rfl
  | some ptr =>
    simp only
    have h := parseSectionKeyValuesLoop_inserted E ptr blank post hblank hmax lines hlines
      ⟨doc, v, some ptr, ln, sln, b⟩ sln
      (((lines.map (fun l => l ++ ['\n'])).flatten ++ (blank ++ '\n' :: post)).length + 2)
      (((lines.map (fun l => l ++ ['\n'])).flatten ++ post).length + 2)
      (by omega) (by omega)
    have h2 := congrArg (Except.map (fun r : Bool × Document S =>
      (r.1, r.2.m_sections, r.2.m_errorMsg.map (fun e => e.text)))) h
    rw [except_map_map, except_map_map] at h2
    exact h2

/-- C32, at an instance: an empty line between `n = 1` and `n = 2` in the section `Sample` of
`sampleSchema`. -/
theorem parseSectionKeyValues_skips_empty_lines_witness :
    (parseSectionKeyValues sampleEnv
        { inSample with m_currentSectionStringBuffer :=
          ⟨((["n = 1".toList].map (fun l => l ++ ['\n'])).flatten
            ++ ([] ++ '\n' :: "n = 2\n".toList)), true⟩ }).map
        (fun r => (r.1, r.2.m_vfxDoc.m_sections, r.2.m_vfxDoc.m_errorMsg.map (fun e => e.text)))
      = (parseSectionKeyValues sampleEnv
        { inSample with m_currentSectionStringBuffer :=
          ⟨((["n = 1".toList].map (fun l => l ++ ['\n'])).flatten ++ "n = 2\n".toList), true⟩ }).map
        (fun r => (r.1, r.2.m_vfxDoc.m_sections, r.2.m_vfxDoc.m_errorMsg.map (fun e => e.text))) :=
  parseSectionKeyValues_skips_empty_lines sampleEnv inSample ["n = 1".toList] [] "n = 2\n".toList
    (Or.inl rfl) (by decide) (by decide)

/-! ## Module splitting in the lgc tool: properties -/

theorem find_first_of_eq_strchr (s : CStr) (c : Char) : find_first_of s c = strchr s c := by
  induction s with
  | nil => rfl
  | cons x xs ih => simp only [find_first_of, strchr, ih]

/-- Source: `find_first_not_of(" \t\n")` finds the first non-blank text. -/
theorem find_first_not_of_firstText (s : CStr) :
    match find_first_not_of s [' ', '\t', '\n'] with
    | some n => s[n]? = (firstText s).head? ∧ s.drop n = firstText s
    | none => firstText s = [] := by
  induction s with
  | nil => simp [find_first_not_of, firstText]
  | cons c cs ih =>
    by_cases hc : c ∈ [' ', '\t', '\n']
    · have hb : (c == ' ' || c == '\t' || c == '\n') = true := by
        simp only [List.mem_cons, List.mem_singleton, List.not_mem_nil, or_false] at hc
        simpa [Bool.or_assoc] using hc
      have hft : firstText (c :: cs) = firstText cs := by
        simp only [firstText, List.dropWhile_cons, hb, if_true]
      simp only [find_first_not_of, if_pos hc, hft]
      cases hf : find_first_not_of cs [' ', '\t', '\n'] with
      | none =>
        rw [hf] at ih
        simpa using ih
      | some n =>
        rw [hf] at ih
        simpa using ih
    · have hb : (c == ' ' || c == '\t' || c == '\n') = false := by
        simp only [List.mem_cons, List.mem_singleton, List.not_mem_nil, or_false, not_or] at hc
        simp [hc.1, hc.2.1, hc.2.2]
      have hft : firstText (c :: cs) = c :: cs := by
        simp only [firstText, List.dropWhile_cons, hb]
        rfl
      simp only [find_first_not_of, if_neg hc, hft]
      simp

/-- Source: the first statement of the loop, in terms of the first non-blank text. -/
theorem splitStep_eq (offset : Nat) (remaining : CStr) (st : SplitState) :
    splitStep offset remaining st
      = if (firstText remaining).head? = some '!' then { st with hadMetadata := true }
        else if st.hadMetadata && "target".toList.isPrefixOf (firstText remaining) then
          { done := st.done ++ [(st.back.1, st.back.2.take (offset - st.back.1))]
            back := (offset, remaining)
            hadMetadata := false }
        else st := by
  have h := find_first_not_of_firstText remaining
  unfold splitStep
  cases hf : find_first_not_of remaining [' ', '\t', '\n'] with
  | none =>
    rw [hf] at h
    simp only at h
    rw [h]
    simp
  | some n =>
    rw [hf] at h
    simp only at h
    simp only [h.1, h.2]

theorem groupLines_flatten (lines : List CStr) :
    ∀ (had : Bool) (current : List CStr),
      ((groupLines had current lines).map List.flatten).flatten
        = current.flatten ++ lines.flatten := by
  induction lines with
  | nil =>
    intro had current
    simp [groupLines]
  | cons line rest ih =>
    intro had current
    simp only [groupLines]
    split
    · rw [ih]
      simp
    · split
      · simp only [List.map_cons, List.flatten_cons, ih]
        simp
      · rw [ih]
        simp

/-- The loop that splits the input, on the lines of the input: from a line start on, with
the lines `current` of the current module before it, the loop ends within as many steps as
there are lines left, and the modules are those of `groupLines`. -/
theorem splitLoop_groups (tail : CStr) (htail : '\n' ∉ tail) :
    ∀ bodies : List CStr, (∀ b ∈ bodies, '\n' ∉ b) →
    ∀ (steps : Nat) (done : List (Nat × CStr)) (bo : Nat) (current : List CStr) (had : Bool),
      bodies.length + 1 ≤ steps →
      (splitLoop steps (bo + current.flatten.length)
          ((bodies.map (fun b => b ++ ['\n'])).flatten ++ tail)
          ⟨done, (bo, current.flatten ++ ((bodies.map (fun b => b ++ ['\n'])).flatten ++ tail)),
            had⟩).map
        (fun st => (st.done ++ [st.back]).map (fun piece => piece.2))
      = .ok (done.map (fun piece => piece.2)
          ++ (groupLines had current (bodies.map (fun b => b ++ ['\n']) ++ [tail])).map
            List.flatten) := by
  intro bodies
  induction bodies with
  | nil =>
    intro _ steps done bo current had hsteps
    obtain ⟨n, rfl⟩ : ∃ n, steps = n + 1 := ⟨steps - 1, by simp at hsteps; omega⟩
    have hffo : find_first_of tail '\n' = none := by
      rw [find_first_of_eq_strchr]
      exact strchr_none tail '\n' htail
    have hflat : ([tail] : List CStr).flatten = tail := by simp
    simp only [List.map_nil, List.flatten_nil, List.nil_append, splitLoop, hffo, splitStep_eq,
      groupLines, hflat, Except.map]
    by_cases hc1 : (firstText tail).head? = some '!'
    · simp [if_pos hc1]
    · rw [if_neg hc1, if_neg hc1]
      by_cases hc2 : (had && "target".toList.isPrefixOf (firstText tail)) = true
      · rw [if_pos hc2, if_pos hc2]
        simp
      · rw [if_neg hc2, if_neg hc2]
        simp
  | cons b bs ih =>
    intro hbodies steps done bo current had hsteps
    obtain ⟨n, rfl⟩ : ∃ n, steps = n + 1 := ⟨steps - 1, by simp at hsteps; omega⟩
    have hn : bs.length + 1 ≤ n := by simp at hsteps; omega
    have hb : '\n' ∉ b := hbodies b (List.mem_cons_self _ _)
    have hbs := fun x hx => hbodies x (List.mem_cons_of_mem _ hx)
    have hR : ((b :: bs).map (fun b => b ++ ['\n'])).flatten ++ tail
        = b ++ '\n' :: ((bs.map (fun b => b ++ ['\n'])).flatten ++ tail) := by simp
    have hL : (b :: bs).map (fun b => b ++ ['\n']) ++ [tail]
        = (b ++ ['\n']) :: (bs.map (fun b => b ++ ['\n']) ++ [tail]) := by simp
    have hflat : ((b ++ ['\n']) :: (bs.map (fun b => b ++ ['\n']) ++ [tail])).flatten
        = b ++ '\n' :: ((bs.map (fun b => b ++ ['\n'])).flatten ++ tail) := by simp
    rw [hR, hL]
    generalize hR' : (bs.map (fun b => b ++ ['\n'])).flatten ++ tail = R' at *
    have hffo : find_first_of (b ++ '\n' :: R') '\n' = some b.length := by
      rw [find_first_of_eq_strchr]
      exact strchr_append_stop b R' '\n' hb
    have hdrop : (b ++ '\n' :: R').drop (b.length + 1) = R' := by
      have : b ++ '\n' :: R' = (b ++ ['\n']) ++ R' := by simp
      rw [this, List.drop_append_of_le_length (by simp)]
      simp
    have hoff : bo + current.flatten.length + (b.length + 1)
        = bo + (current ++ [b ++ ['\n']]).flatten.length := by
      simp only [List.flatten_append, List.flatten_cons, List.flatten_nil, List.append_nil,
        List.length_append, List.length_singleton]
      omega
    have hback : current.flatten ++ (b ++ '\n' :: R')
        = (current ++ [b ++ ['\n']]).flatten ++ R' := by simp
    have hkeep := ih hbs n done bo (current ++ [b ++ ['\n']])
    have hnew := ih hbs n (done ++ [(bo, current.flatten)]) (bo + current.flatten.length)
      [b ++ ['\n']] false hn
    simp only [splitLoop, hffo, splitStep_eq, groupLines, hflat, hdrop]
    by_cases hc1 : (firstText (b ++ '\n' :: R')).head? = some '!'
    · rw [if_pos hc1, if_pos hc1, hoff, hback]
      exact hkeep true hn
    · rw [if_neg hc1, if_neg hc1]
      by_cases hc2 : (had && "target".toList.isPrefixOf (firstText (b ++ '\n' :: R'))) = true
      · rw [if_pos hc2, if_pos hc2]
        have htake : (current.flatten ++ (b ++ '\n' :: R')).take
            (bo + current.flatten.length - bo) = current.flatten := by
          rw [Nat.add_sub_cancel_left, List.take_left]
        have hone : ([b ++ ['\n']] : List CStr).flatten = b ++ ['\n'] := by simp
        rw [hone] at hnew
        have hoff2 : bo + current.flatten.length + (b.length + 1)
            = bo + current.flatten.length + (b ++ ['\n']).length := by simp
        have hback2 : b ++ '\n' :: R' = (b ++ ['\n']) ++ R' := by simp
        simp only [htake]
        rw [hoff2]
        conv_lhs => rw [hback2]
        rw [hnew]
        simp
      · rw [if_neg hc2, if_neg hc2, hoff, hback]
        exact hkeep had hn

/-- Every text is a list of lines with their terminators followed by a last line without
one. -/
theorem exists_lines (input : CStr) :
    ∃ (bodies : List CStr) (tail : CStr), (∀ b ∈ bodies, '\n' ∉ b) ∧ '\n' ∉ tail
      ∧ input = (bodies.map (fun b => b ++ ['\n'])).flatten ++ tail
      ∧ bodies.length ≤ input.length := by
  induction input with
  | nil => exact ⟨[], [], by simp, by simp, by simp, by simp⟩
  | cons c cs ih =>
    obtain ⟨bodies, tail, hb, ht, hcs, hlen⟩ := ih
    by_cases hc : c = '\n'
    · refine ⟨[] :: bodies, tail, ?_, ht, ?_, by simp; omega⟩
      · intro b hbm
        rcases List.mem_cons.mp hbm with h | h
        · rw [h]; simp
        · exact hb b h
      · rw [hc, hcs]
        simp
    · cases bodies with
      | nil =>
        refine ⟨[], c :: tail, by simp, ?_, ?_, by simp⟩
        · intro hm
          rcases List.mem_cons.mp hm with h | h
          · exact hc h.symm
          · exact ht h
        · rw [hcs]
          simp
      | cons b bs =>
        refine ⟨(c :: b) :: bs, tail, ?_, ht, ?_, ?_⟩
        · intro x hx
          rcases List.mem_cons.mp hx with h | h
          · rw [h]
            intro hm
            rcases List.mem_cons.mp hm with h2 | h2
            · exact hc h2.symm
            · exact hb b (List.mem_cons_self _ _) h2
          · exact hb x (List.mem_cons_of_mem _ h)
        · rw [hcs]
          simp
        · simp only [List.length_cons] at hlen ⊢
          omega

/-- The modules of every input: the split ends within its bound, the modules are those of
`groupLines` on the lines of the input, and their concatenation is the input. -/
theorem splitModules_groups (input : CStr) :
    ∃ (pieces bodies : List CStr) (tail : CStr),
      splitModules input = .ok pieces
      ∧ pieces.flatten = input
      ∧ (∀ b ∈ bodies, '\n' ∉ b) ∧ '\n' ∉ tail
      ∧ input = (bodies.map (fun b => b ++ ['\n'])).flatten ++ tail
      ∧ pieces
        = (groupLines false [] (bodies.map (fun b => b ++ ['\n']) ++ [tail])).map
          List.flatten := by
  obtain ⟨bodies, tail, hb, ht, hin, hlen⟩ := exists_lines input
  have h := splitLoop_groups tail ht bodies hb (input.length + 1) [] 0 [] false (by omega)
  simp only [List.flatten_nil, List.length_nil, Nat.add_zero, List.nil_append, List.map_nil]
    at h
  rw [← hin] at h
  refine ⟨_, bodies, tail, ?_, ?_, hb, ht, hin, rfl⟩
  · unfold splitModules
    cases hs : splitLoop (input.length + 1) 0 input ⟨[], (0, input), false⟩ with
    | error f =>
      rw [hs] at h
      simp [Except.map] at h
    | ok st =>
      rw [hs] at h
      simp only [Except.map, Except.ok.injEq] at h
      simp only [h]
  · rw [groupLines_flatten]
    simp only [List.flatten_nil, List.nil_append, List.flatten_append, List.flatten_cons,
      List.append_nil]
    exact hin.symm

/-- C34, as the code has it: in the input of the four lines `a`, `!m`, an empty line and
`target x`, the second module starts at the empty line, the third line, and not at the line
`target x`, where the specification has it start: the first non-blank text is looked for
across the end of the empty line. -/
theorem splitModules_starts_module_at_blank_line :
    splitModules "a\n!m\n\ntarget x".toList
      = .ok ["a\n!m\n".toList, "\ntarget x".toList]
    ∧ (groupLinesPerLine false []
          ["a\n".toList, "!m\n".toList, "\n".toList, "target x".toList]).map List.flatten
      = ["a\n!m\n\n".toList, "target x".toList] := by
  refine ⟨by decide, by decide⟩

/-- C34, amended: for every input the split ends and gives modules whose concatenation in
order is the whole input, so they are contiguous pieces that do not overlap. With the
input read as its lines, each with its terminator, and a last line without one, the modules
are those of `groupLines`: a new module starts at a line exactly when the first non-blank
text from the start of the line on, across the ends of blank lines, begins with `target`
and, since the current module began, a line has been seen at which that text begins
with `!`. -/
theorem splitModules_partitions_input (input : CStr) :
    ∃ (pieces bodies : List CStr) (tail : CStr),
      splitModules input = .ok pieces
      ∧ pieces.flatten = input
      ∧ (∀ b ∈ bodies, '\n' ∉ b) ∧ '\n' ∉ tail
      ∧ input = (bodies.map (fun b => b ++ ['\n'])).flatten ++ tail
      ∧ pieces
        = (groupLines false [] (bodies.map (fun b => b ++ ['\n']) ++ [tail])).map
          List.flatten :=
  splitModules_groups input

/-- C34, amended, at an instance: the input of the four lines `a`, `!m`, an empty line and
`target x`. -/
theorem splitModules_partitions_input_witness :
    ∃ (pieces bodies : List CStr) (tail : CStr),
      splitModules "a\n!m\n\ntarget x".toList = .ok pieces
      ∧ pieces.flatten = "a\n!m\n\ntarget x".toList
      ∧ (∀ b ∈ bodies, '\n' ∉ b) ∧ '\n' ∉ tail
      ∧ "a\n!m\n\ntarget x".toList = (bodies.map (fun b => b ++ ['\n'])).flatten ++ tail
      ∧ pieces
        = (groupLines false [] (bodies.map (fun b => b ++ ['\n']) ++ [tail])).map
          List.flatten :=
  splitModules_partitions_input "a\n!m\n\ntarget x".toList

theorem asmTexts_getElem (pieces : List CStr) :
    ∀ (n0 i : Nat) (piece : CStr), pieces[i]? = some piece →
      (asmTexts pieces n0)[i]?
        = some (List.replicate (n0 + (pieces.take i).flatten.count '\n') '\n' ++ piece) := by
  induction pieces with
  | nil => intro n0 i piece h; simp at h
  | cons p ps ih =>
    intro n0 i piece h
    cases i with
    | zero =>
      simp only [List.getElem?_cons_zero, Option.some.injEq] at h
      simp [asmTexts, h]
    | succ j =>
      simp only [List.getElem?_cons_succ] at h
      simp only [asmTexts, List.getElem?_cons_succ, ih _ j piece h, List.take_succ_cons,
        List.flatten_cons, List.count_append, Nat.add_assoc]

theorem flatten_split_at (pieces : List CStr) :
    ∀ (i : Nat) (piece : CStr), pieces[i]? = some piece →
      pieces.flatten = (pieces.take i).flatten ++ (piece ++ (pieces.drop (i + 1)).flatten) := by
  induction pieces with
  | nil => intro i piece h; simp at h
  | cons p ps ih =>
    intro i piece h
    cases i with
    | zero =>
      simp only [List.getElem?_cons_zero, Option.some.injEq] at h
      simp [h]
    | succ j =>
      simp only [List.getElem?_cons_succ] at h
      simp only [List.flatten_cons, List.take_succ_cons, List.drop_succ_cons, List.append_assoc]
      rw [← ih j piece h]

/-- C35: for every input the split gives modules, and for each of them the text handed to
the assembler is the module preceded by exactly as many line terminators as occur in all
earlier modules. Every character of the module is at the same line number in that text
as in the input. -/
theorem asmTexts_keep_line_numbers (input : CStr) :
    ∃ pieces : List CStr, splitModules input = .ok pieces
      ∧ ∀ (i : Nat) (piece : CStr), pieces[i]? = some piece →
        (asmTexts pieces 0)[i]?
          = some (List.replicate ((pieces.take i).flatten.count '\n') '\n' ++ piece)
        ∧ ∀ k : Nat, k < piece.length →
          (List.replicate ((pieces.take i).flatten.count '\n') '\n' ++ piece)[
              (pieces.take i).flatten.count '\n' + k]?
            = input[(pieces.take i).flatten.length + k]?
          ∧ lineNumberAt (List.replicate ((pieces.take i).flatten.count '\n') '\n' ++ piece)
              ((pieces.take i).flatten.count '\n' + k)
            = lineNumberAt input ((pieces.take i).flatten.length + k) := by
  obtain ⟨pieces, -, -, hsplit, hflat, -⟩ := splitModules_groups input
  refine ⟨pieces, hsplit, ?_⟩
  intro i piece hi
  have hget := asmTexts_getElem pieces 0 i piece hi
  rw [Nat.zero_add] at hget
  refine ⟨hget, ?_⟩
  intro k hk
  have hin := flatten_split_at pieces i piece hi
  rw [hflat] at hin
  generalize (pieces.take i).flatten = pre at hin ⊢
  generalize (pieces.drop (i + 1)).flatten = post at hin
  subst hin
  constructor
  · rw [List.getElem?_append_right (by simp), List.getElem?_append_right (by simp)]
    simp only [List.length_replicate, Nat.add_sub_cancel_left]
    rw [List.getElem?_append_left hk]
  · unfold lineNumberAt
    have h1 : (List.replicate (pre.count '\n') '\n' ++ piece).take (pre.count '\n' + k)
        = List.replicate (pre.count '\n') '\n' ++ piece.take k := by
      have := @List.take_append Char (List.replicate (pre.count '\n') '\n') piece k
      simpa using this
    have h2 : (pre ++ (piece ++ post)).take (pre.length + k) = pre ++ piece.take k := by
      rw [List.take_append, List.take_append_of_le_length (Nat.le_of_lt hk)]
    rw [h1, h2, List.count_append, List.count_append, List.count_replicate_self]

end Vfx
